import Mathlib

/-!
# The device manager of init (`init/devices.c`)

A shallow embedding of the permission rules, the platform device list, the
uevent reader, the block and generic device handlers, the module autoloader,
the firmware loader and the event dispatcher of `init/devices.c`, with the
properties proved about them.

Conventions of the embedding.

* A C string is the list of its bytes without the terminating NUL (`CStr`).
  A nullable `char *` is an `Option CStr`.
* An intrusive `listnode` list is a `List` in insertion order: `list_add_tail`
  appends, `list_for_each` walks it front to back and `list_for_each_reverse`
  walks it back to front.
* A function that only issues calls (system calls, calls of another module)
  returns the list of these calls in the order they are made.
* The C library function `fnmatch` is a parameter: `fnmatch pat s = true`
  stands for `fnmatch(pat, s, 0) == 0`. The C library function `atoi` is a
  parameter as well.
-/

namespace Devices

/-- A C string, without its terminating NUL byte. -/
abbrev CStr := List Char

/-- The `struct perms_` of a permission rule. -/
structure perms_ where
  name : CStr
  attr : Option CStr
  perm : Nat
  uid : Nat
  gid : Nat
  wildcard : Nat
deriving DecidableEq, Repr

/-- The `struct platform_node` of the platform device list. `name` points
into `path`; it is held as the string it points to. -/
structure platform_node where
  name : CStr
  path : CStr
  path_len : Nat
deriving DecidableEq, Repr

/-- The arguments of one call of `handle_device`. `links` is the nullable,
NULL-terminated array of link paths. -/
structure DeviceArgs where
  action : CStr
  devpath : CStr
  path : CStr
  block : Bool
  major : Int
  minor : Int
  links : Option (List CStr)
deriving DecidableEq, Repr

/-- The calls issued by the functions of this file. -/
inductive Call where
  | chown (path : CStr) (uid gid : Nat)
  | chmod (path : CStr) (mode : Nat)
  | make_dir (path : CStr) (mode : Nat)
  | mkdir (path : CStr) (mode : Nat)
  | handle_device (args : DeviceArgs)
  | setegid (gid : Nat)
  | mknod (path : CStr) (mode : Nat) (major minor : Int)
  | setfscreatecon (context : Option CStr)
  | property_set (name value : CStr)
  | make_link (oldpath newpath : CStr)
  | remove_link (oldpath newpath : CStr)
  | unlink (path : CStr)
  | insmod_by_dep (name : CStr)
  | write_loading (buf : CStr)
  | write_data (buf : List Char) (ret : Int)
  | read_fw (ret : Option (List Char))
  | usleep (usec : Nat)
deriving DecidableEq, Repr

/-! ## Permission rules -/

/-- The test of one rule in `get_device_perm`: `fnmatch(dp->name, path, 0)`
for a wildcard rule, `strcmp(path, dp->name)` otherwise. -/
def dev_rule_matches (fnmatch : CStr → CStr → Bool) (dp : perms_) (path : CStr) : Bool :=
  if dp.wildcard ≠ 0 then fnmatch dp.name path else decide (path = dp.name)

/-- The loop of `get_device_perm`, over the rules in the order they are
visited. The result is `(perm, uid, gid)`. -/
def get_device_perm_loop (fnmatch : CStr → CStr → Bool) :
    List perms_ → CStr → Nat × Nat × Nat
  | [], _ => (0o600, 0, 0)
  | dp :: rest, path =>
    if dev_rule_matches fnmatch dp path then (dp.perm, dp.uid, dp.gid)
    else get_device_perm_loop fnmatch rest path

/-- The function `get_device_perm`: `dev_perms` is searched in reverse. -/
def get_device_perm (fnmatch : CStr → CStr → Bool) (dev_perms : List perms_)
    (path : CStr) : Nat × Nat × Nat :=
  get_device_perm_loop fnmatch dev_perms.reverse path

/-- The buffer `buf` of `fixup_sys_perms` after
`sprintf(buf, "/sys%s/%s", upath, attr)`. -/
def sys_attr_path (upath attr : CStr) : CStr :=
  "/sys".toList ++ upath ++ "/".toList ++ attr

/-- The function `fixup_sys_perms`, over `sys_perms` in list order. The
result is `none` where the C code has no defined behaviour: `dp->name + 4`
lies beyond the terminator of a name shorter than four bytes, and
`strlen(dp->attr)` needs an attribute. -/
def fixup_sys_perms (fnmatch : CStr → CStr → Bool) :
    List perms_ → CStr → Option (List Call)
  | [], _ => some []
  | dp :: rest, upath =>
    if dp.name.length < 4 then none
    else
      let hit := if dp.wildcard ≠ 0 then fnmatch (dp.name.drop 4) upath
                 else decide (upath = dp.name.drop 4)
      if hit = false then fixup_sys_perms fnmatch rest upath
      else
        match dp.attr with
        | none => none
        | some attr =>
          if upath.length + attr.length + 6 > 512 then some []
          else
            (fixup_sys_perms fnmatch rest upath).map fun t =>
              Call.chown (sys_attr_path upath attr) dp.uid dp.gid ::
                Call.chmod (sys_attr_path upath attr) dp.perm :: t

/-- A rule of `sys_perms` matches the event path when its name without the
first four bytes (the leading `/sys`) matches: by `fnmatch` for a wildcard
rule, byte for byte otherwise. -/
def sys_rule_matches (fnmatch : CStr → CStr → Bool) (upath : CStr) (dp : perms_) : Bool :=
  if dp.wildcard ≠ 0 then fnmatch (dp.name.drop 4) upath
  else decide (upath = dp.name.drop 4)

/-- The two calls `fixup_sys_perms` makes for a rule it applies. -/
def sys_rule_calls (upath : CStr) (dp : perms_) : List Call :=
  [Call.chown (sys_attr_path upath (dp.attr.getD [])) dp.uid dp.gid,
   Call.chmod (sys_attr_path upath (dp.attr.getD [])) dp.perm]

/-- A rule as `add_dev_perms` stores it in `sys_perms`: it has an attribute,
and its name has the four bytes that `fixup_sys_perms` skips. -/
def sys_rule_wf (dp : perms_) : Prop :=
  4 ≤ dp.name.length ∧ dp.attr.isSome = true

instance (dp : perms_) : Decidable (sys_rule_wf dp) := by
  unfold sys_rule_wf; infer_instance

/-- A shell pattern matcher with `*` and `?` only, used where a concrete
`fnmatch` is needed. `glob_star k s` holds when `k` accepts a suffix of `s`. -/
def glob_star (k : CStr → Bool) : CStr → Bool
  | [] => k []
  | c :: s => k (c :: s) || glob_star k s

/-- The matcher: `*` matches any run of bytes, `?` any one byte. -/
def glob : CStr → CStr → Bool
  | [] => fun s => s.isEmpty
  | p :: ps =>
    if p = '*' then glob_star (glob ps)
    else fun s =>
      match s with
      | [] => false
      | c :: cs => (p = '?' || p = c) && glob ps cs

/-! ## The uevent reader -/

/-- The NUL byte. -/
def NUL : Char := Char.ofNat 0

/-- The `struct uevent`. A field of type `const char *` is held as the C
string it points to, a nullable one as an `Option`. -/
structure uevent where
  action : CStr
  path : CStr
  subsystem : CStr
  firmware : CStr
  partition_name : Option CStr
  device_name : Option CStr
  modalias : Option CStr
  product : Option CStr
  partition_num : Int
  major : Int
  minor : Int
deriving DecidableEq, Repr

/-- How a run over a byte buffer ends: with a result, with a read outside
the buffer, or with the step budget of the embedding used up. -/
inductive Run (α : Type) where
  | done (a : α)
  | fault
  | nofuel
deriving DecidableEq, Repr

/-- The comparison `!strncmp(msg, key, strlen(key))` where `msg` points into
a byte buffer and is given as the bytes from `msg` to the end of the buffer.
The bytes are compared in turn until they differ, a NUL is met or the key is
used up; `none` when a byte beyond the buffer would be read. -/
def strncmp_key : List Char → CStr → Option Bool
  | _, [] => some true
  | [], _ :: _ => none
  | c :: m, k :: ks =>
    if c ≠ k then some false
    else if c = NUL then some true
    else strncmp_key m ks

/-- The C string a pointer into the buffer points to: the bytes before the
next NUL. -/
def str_at (msg : List Char) : CStr :=
  msg.takeWhile fun c => c != NUL

/-- The C string at a pointer into the buffer as a C library function reads
it: `none` when no NUL follows inside the buffer. -/
def c_str : List Char → Option CStr
  | [] => none
  | c :: m => if c = NUL then some [] else (c_str m).map fun s => c :: s

/-- The loop `while(*msg++) ;`: the pointer just behind the next NUL, `none`
when no NUL follows inside the buffer. -/
def skip_record : List Char → Option (List Char)
  | [] => none
  | c :: m => if c = NUL then some m else skip_record m

/-- The values `parse_event` starts from. -/
def uevent_init : uevent :=
  { action := [], path := [], subsystem := [], firmware := [],
    partition_name := none, device_name := none, modalias := none, product := none,
    partition_num := -1, major := -1, minor := -1 }

/-- The chain of key tests in the loop of `parse_event`. The result is the
pointer `msg` after the chain and the updated event; `none` when a byte
beyond the buffer would be read. -/
def parse_event_key (atoi : CStr → Int) (msg : List Char) (ue : uevent) :
    Option (List Char × uevent) :=
  match strncmp_key msg "ACTION=".toList with
  | none => none
  | some true => some (msg.drop 7, { ue with action := str_at (msg.drop 7) })
  | some false =>
  match strncmp_key msg "DEVPATH=".toList with
  | none => none
  | some true => some (msg.drop 8, { ue with path := str_at (msg.drop 8) })
  | some false =>
  match strncmp_key msg "SUBSYSTEM=".toList with
  | none => none
  | some true => some (msg.drop 10, { ue with subsystem := str_at (msg.drop 10) })
  | some false =>
  match strncmp_key msg "FIRMWARE=".toList with
  | none => none
  | some true => some (msg.drop 9, { ue with firmware := str_at (msg.drop 9) })
  | some false =>
  match strncmp_key msg "MAJOR=".toList with
  | none => none
  | some true => (c_str (msg.drop 6)).map fun s => (msg.drop 6, { ue with major := atoi s })
  | some false =>
  match strncmp_key msg "MINOR=".toList with
  | none => none
  | some true => (c_str (msg.drop 6)).map fun s => (msg.drop 6, { ue with minor := atoi s })
  | some false =>
  match strncmp_key msg "PARTN=".toList with
  | none => none
  | some true =>
    (c_str (msg.drop 6)).map fun s => (msg.drop 6, { ue with partition_num := atoi s })
  | some false =>
  match strncmp_key msg "PARTNAME=".toList with
  | none => none
  | some true => some (msg.drop 9, { ue with partition_name := some (str_at (msg.drop 9)) })
  | some false =>
  match strncmp_key msg "DEVNAME=".toList with
  | none => none
  | some true => some (msg.drop 8, { ue with device_name := some (str_at (msg.drop 8)) })
  | some false =>
  match strncmp_key msg "PRODUCT=".toList with
  | none => none
  | some true => some (msg.drop 8, { ue with product := some (str_at (msg.drop 8)) })
  | some false =>
  match strncmp_key msg "MODALIAS=".toList with
  | none => none
  | some true => some (msg.drop 9, { ue with modalias := some (str_at (msg.drop 9)) })
  | some false => some (msg, ue)

/-- The loop `while(*msg)` of `parse_event`, with a budget of iterations. -/
def parse_event_loop (atoi : CStr → Int) : Nat → List Char → uevent → Run uevent
  | 0, _, _ => Run.nofuel
  | fuel + 1, msg, ue =>
    match msg with
    | [] => Run.fault
    | c :: _ =>
      if c = NUL then Run.done ue
      else
        match parse_event_key atoi msg ue with
        | none => Run.fault
        | some (msg1, ue1) =>
          match skip_record msg1 with
          | none => Run.fault
          | some msg2 => parse_event_loop atoi fuel msg2 ue1

/-- The function `parse_event` on the buffer `msg`. Every iteration moves
`msg` forward by at least one byte, so the budget of one iteration per byte
and one more is never used up. -/
def parse_event (atoi : CStr → Int) (msg : List Char) : Run uevent :=
  parse_event_loop atoi (msg.length + 1) msg uevent_init

/-- The keys `parse_event` recognises. -/
def uevent_keys : List CStr :=
  ["ACTION=".toList, "DEVPATH=".toList, "SUBSYSTEM=".toList, "FIRMWARE=".toList,
   "MAJOR=".toList, "MINOR=".toList, "PARTN=".toList, "PARTNAME=".toList,
   "DEVNAME=".toList, "PRODUCT=".toList, "MODALIAS=".toList]

/-- The bytes of a message made of the given records, each followed by a
NUL. -/
def uevent_msg (recs : List CStr) : List Char :=
  recs.flatMap fun r => r ++ [NUL]

/-- The text after `key` in the last record that begins with `key`. -/
def last_value (key : CStr) (recs : List CStr) : Option CStr :=
  (recs.reverse.find? fun r => key.isPrefixOf r).map fun r => r.drop key.length

/-- What one record does to the event: the field of the key the record
begins with is set from the text after the key. -/
def record_update (atoi : CStr → Int) (ue : uevent) (r : CStr) : uevent :=
  if "ACTION=".toList.isPrefixOf r then { ue with action := r.drop 7 }
  else if "DEVPATH=".toList.isPrefixOf r then { ue with path := r.drop 8 }
  else if "SUBSYSTEM=".toList.isPrefixOf r then { ue with subsystem := r.drop 10 }
  else if "FIRMWARE=".toList.isPrefixOf r then { ue with firmware := r.drop 9 }
  else if "MAJOR=".toList.isPrefixOf r then { ue with major := atoi (r.drop 6) }
  else if "MINOR=".toList.isPrefixOf r then { ue with minor := atoi (r.drop 6) }
  else if "PARTN=".toList.isPrefixOf r then { ue with partition_num := atoi (r.drop 6) }
  else if "PARTNAME=".toList.isPrefixOf r then { ue with partition_name := some (r.drop 9) }
  else if "DEVNAME=".toList.isPrefixOf r then { ue with device_name := some (r.drop 8) }
  else if "PRODUCT=".toList.isPrefixOf r then { ue with product := some (r.drop 8) }
  else if "MODALIAS=".toList.isPrefixOf r then { ue with modalias := some (r.drop 9) }
  else ue

/-- The digits of `atoi_dec`, most significant first, onto an accumulator. -/
def atoi_digits : Nat → CStr → Nat
  | acc, [] => acc
  | acc, c :: cs => if c.isDigit then atoi_digits (acc * 10 + (c.toNat - 48)) cs else acc

/-- A decimal reading in the manner of `atoi`, used where a concrete `atoi`
is needed: white space, an optional sign, then the leading digits. -/
def atoi_dec (s : CStr) : Int :=
  match s.dropWhile Char.isWhitespace with
  | '-' :: t => - (atoi_digits 0 t : Int)
  | '+' :: t => (atoi_digits 0 t : Int)
  | t => (atoi_digits 0 t : Int)

/-- The event the specification describes for a message made of the records
`recs`: each text field is the text after its key in the last record that
begins with the key, each number is `atoi` of that text, and a field whose
key is in no record keeps the value `parse_event` starts from. -/
def uevent_spec (atoi : CStr → Int) (recs : List CStr) : uevent :=
  { action := (last_value "ACTION=".toList recs).getD [],
    path := (last_value "DEVPATH=".toList recs).getD [],
    subsystem := (last_value "SUBSYSTEM=".toList recs).getD [],
    firmware := (last_value "FIRMWARE=".toList recs).getD [],
    partition_name := last_value "PARTNAME=".toList recs,
    device_name := last_value "DEVNAME=".toList recs,
    modalias := last_value "MODALIAS=".toList recs,
    product := last_value "PRODUCT=".toList recs,
    partition_num := ((last_value "PARTN=".toList recs).map atoi).getD (-1),
    major := ((last_value "MAJOR=".toList recs).map atoi).getD (-1),
    minor := ((last_value "MINOR=".toList recs).map atoi).getD (-1) }

/-- A message with a repeated key, a key that is not recognised and a number
that is not one. -/
def sample_records : List CStr :=
  ["ACTION=add".toList, "MAJOR=1".toList, "SEQNUM=7".toList, "MAJOR=179".toList,
   "MINOR=x".toList, "PARTNAME=userdata".toList]

/-! ## The platform device list -/

/-- The comparison `!strncmp(a, b, n)` of two C strings: the first `n` bytes
agree, where a string shorter than `n` ends the comparison with its
terminator. -/
def strncmp_eq (a b : CStr) (n : Nat) : Bool :=
  a.take n == b.take n

/-- The name `add_platform_device` computes: the path behind a leading
`/devices/` and, behind that, behind a leading `platform/`. -/
def platform_name (path : CStr) : CStr :=
  if strncmp_eq path "/devices/".toList 9 then
    if strncmp_eq (path.drop 9) "platform/".toList 9 then path.drop 18
    else path.drop 9
  else path

/-- The test of one node in the loops of `add_platform_device` and
`find_platform_device`: `bus->path_len < path_len`,
`path[bus->path_len] == '/'` and `!strncmp(path, bus->path, bus->path_len)`. -/
def platform_match (path : CStr) (bus : platform_node) : Bool :=
  decide (bus.path_len < path.length) && (path[bus.path_len]? == some '/') &&
    strncmp_eq path bus.path bus.path_len

/-- The function `add_platform_device` on the list `platform_names`. The
lengths are those of uevent paths (below 1024), within `int`. -/
def add_platform_device (platform_names : List platform_node) (path : CStr) :
    List platform_node :=
  if platform_names.reverse.any (platform_match path) then platform_names
  else platform_names ++
    [{ name := platform_name path, path := path, path_len := path.length }]

/-- The function `find_platform_device`: the first node of the reverse scan
that passes the test, or NULL. -/
def find_platform_device (platform_names : List platform_node) (path : CStr) :
    Option platform_node :=
  platform_names.reverse.find? (platform_match path)

/-- The function `remove_platform_device`: the first node of the reverse scan
whose path is `path` is taken out of the list. -/
def remove_platform_device (platform_names : List platform_node) (path : CStr) :
    List platform_node :=
  (platform_names.reverse.eraseP fun bus => decide (path = bus.path)).reverse

/-- The lists `platform_names` that calls of `add_platform_device` and
`remove_platform_device` build from the empty list. -/
inductive platform_reachable : List platform_node → Prop where
  | empty : platform_reachable []
  | add (names : List platform_node) (path : CStr) :
      platform_reachable names → platform_reachable (add_platform_device names path)
  | remove (names : List platform_node) (path : CStr) :
      platform_reachable names → platform_reachable (remove_platform_device names path)

/-- The lists built as `platform_reachable`, where no added path is a path
already stored or a parent directory of one. -/
inductive platform_reachable_parents_first : List platform_node → Prop where
  | empty : platform_reachable_parents_first []
  | add (names : List platform_node) (path : CStr) :
      platform_reachable_parents_first names →
      (∀ b ∈ names, path ≠ b.path ∧ ¬ (path ++ ['/']) <+: b.path) →
      platform_reachable_parents_first (add_platform_device names path)
  | remove (names : List platform_node) (path : CStr) :
      platform_reachable_parents_first names →
      platform_reachable_parents_first (remove_platform_device names path)

/-- The node is an ancestor of the path: its path is a strict head of the
path that ends where the path has a `/`. -/
def is_ancestor (q : CStr) (b : platform_node) : Bool :=
  (b.path ++ ['/']).isPrefixOf q

/-! ## The block and generic device handlers -/

/-- The pointer `strrchr(path, '/') + 1`: the text behind the last `/`, or
`none` when `strrchr` returns NULL. -/
def after_last_slash : CStr → Option CStr
  | [] => none
  | c :: s =>
    match after_last_slash s with
    | some t => some t
    | none => if c = '/' then some s else none

/-- The function `parse_device_name`. -/
def parse_device_name (ue : uevent) (len : Nat) : Option CStr :=
  match after_last_slash ue.path with
  | none => none
  | some name => if name.length > len then none else some name

/-- The buffer after `snprintf(buf, size, ...)` of the text `s`: at most
`size - 1` bytes are stored. -/
def snprintf (size : Nat) (s : CStr) : CStr :=
  s.take (size - 1)

/-- The conversion `%d` of an `int`. -/
def fmt_d (i : Int) : CStr :=
  if i < 0 then '-' :: Nat.toDigits 10 i.natAbs else Nat.toDigits 10 i.toNat

/-- The conversion `%03d` of an `int`: zeros in front up to a width of
three. -/
def fmt_03d (i : Int) : CStr :=
  if i < 0 then
    '-' :: (List.replicate (2 - (Nat.toDigits 10 i.natAbs).length) '0' ++
      Nat.toDigits 10 i.natAbs)
  else
    List.replicate (3 - (Nat.toDigits 10 i.toNat).length) '0' ++ Nat.toDigits 10 i.toNat

/-- Modelled from the spec: `sanitize` of init's `util.c`, which is not part
of the sources at hand. Every byte outside `[A-Za-z0-9_-.]` is replaced by
`_`. -/
def sanitize (s : CStr) : CStr :=
  s.map fun c => if c.isAlphanum || c = '_' || c = '-' || c = '.' then c else '_'

/-- The function `parse_gpt_block_device`. `install_id` is the value that
`__system_property_get("ro.boot.install_id", prefix)` stores, empty when the
property is not set; its length is the value returned. The result is the
nullable array of links; allocation does not fail. -/
def parse_gpt_block_device (install_id : CStr) (ue : uevent) : Option (List CStr) :=
  match ue.partition_name with
  | none => some []
  | some partition_name =>
    if install_id.length = 0 ∨
        strncmp_eq install_id partition_name install_id.length = false then none
    else some ["/dev/block/by-name/".toList ++ partition_name.drop install_id.length]

/-- The function `parse_platform_block_device`. After `find_platform_device`
has found a node the path has a `/`, so `strrchr` does not return NULL. -/
def parse_platform_block_device (platform_names : List platform_node) (ue : uevent) :
    Option (List CStr) :=
  match find_platform_device platform_names ue.path with
  | none => none
  | some pdev =>
    let link_path := snprintf 256 ("/dev/block/platform/".toList ++ pdev.name)
    let by_name :=
      match ue.partition_name with
      | some p => [link_path ++ "/by-name/".toList ++ sanitize p]
      | none => []
    let by_num :=
      if ue.partition_num ≥ 0 then [link_path ++ "/by-num/p".toList ++ fmt_d ue.partition_num]
      else []
    match after_last_slash ue.path with
    | none => none
    | some base => some (by_name ++ by_num ++ [link_path ++ "/".toList ++ base])

/-- The function `handle_block_device_event`: the calls it makes. -/
def handle_block_device_event (platform_names : List platform_node) (install_id : CStr)
    (ue : uevent) : List Call :=
  match parse_device_name ue 64 with
  | none => []
  | some name =>
    let devpath := snprintf 96 ("/dev/block/".toList ++ name)
    let gpt := parse_gpt_block_device install_id ue
    let links :=
      if gpt.isNone && strncmp_eq ue.path "/devices/".toList 9 then
        parse_platform_block_device platform_names ue
      else gpt
    [Call.make_dir "/dev/block/".toList 0o755,
     Call.handle_device
       { action := ue.action, devpath := devpath, path := ue.path, block := true,
         major := ue.major, minor := ue.minor, links := links }]

/-- The loop `while (*++parent && *parent != '/');`: one byte forward, then
on to the next `/` or to the end of the string. -/
def next_slash (parent : CStr) : CStr :=
  (parent.drop 1).dropWhile fun c => c != '/'

/-- The function `get_character_device_symlinks`: the nullable array of
links and the calls made. After `find_platform_device` has found a node,
`strchr` finds the `/` at `path[pdev->path_len]`. -/
def get_character_device_symlinks (platform_names : List platform_node) (ue : uevent) :
    Option (List CStr) × List Call :=
  match find_platform_device platform_names ue.path with
  | none => (none, [])
  | some pdev =>
    let parent := (ue.path.drop pdev.path_len).dropWhile fun c => c != '/'
    if parent = [] then (none, [])
    else if strncmp_eq parent "/usb".toList 4 then
      let parent1 := next_slash parent
      let parent2 := if parent1 ≠ [] then next_slash parent1 else parent1
      if parent2 = [] then (none, [])
      else
        let iface := parent2.drop 1
        if '/' ∉ iface then (none, [])
        else
          let width := (iface.takeWhile fun c => c != '/').length
          if width = 0 then (none, [])
          else
            (some ["/dev/usb/".toList ++ ue.subsystem ++ iface.take width],
             [Call.mkdir "/dev/usb".toList 0o755])
    else (none, [])

/-- The directories made for a USB node named by the kernel: one `make_dir`
for each `/` of `devpath` behind the leading `/dev/`. -/
def usb_make_dirs (devpath : CStr) : List Call :=
  ((List.range devpath.length).filter fun i =>
      decide (5 ≤ i) && (devpath[i]? == some '/')).map
    fun i => Call.make_dir (devpath.take i) 0o755

/-- The end of `handle_generic_device_event`: the links are asked for, then
`handle_device` is called. -/
def generic_finish (platform_names : List platform_node) (ue : uevent) (devpath : CStr) :
    List Call :=
  (get_character_device_symlinks platform_names ue).2 ++
    [Call.handle_device
      { action := ue.action, devpath := devpath, path := ue.path, block := false,
        major := ue.major, minor := ue.minor,
        links := (get_character_device_symlinks platform_names ue).1 }]

/-- The function `handle_generic_device_event`: the calls it makes. -/
def handle_generic_device_event (platform_names : List platform_node) (ue : uevent) :
    List Call :=
  match parse_device_name ue 64 with
  | none => []
  | some name =>
    if strncmp_eq ue.subsystem "usb".toList 3 then
      if ue.subsystem = "usb".toList then
        match ue.device_name with
        | some device_name =>
          let devpath := snprintf 96 ("/dev/".toList ++ device_name)
          usb_make_dirs devpath ++ generic_finish platform_names ue devpath
        | none =>
          let bus_id := Int.tdiv ue.minor 128 + 1
          let device_id := Int.tmod ue.minor 128 + 1
          [Call.make_dir "/dev/bus".toList 0o755,
           Call.make_dir "/dev/bus/usb".toList 0o755,
           Call.make_dir (snprintf 96 ("/dev/bus/usb/".toList ++ fmt_03d bus_id)) 0o755] ++
            generic_finish platform_names ue
              (snprintf 96 ("/dev/bus/usb/".toList ++ fmt_03d bus_id ++ "/".toList ++
                fmt_03d device_id))
      else []
    else if strncmp_eq ue.subsystem "graphics".toList 8 then
      Call.make_dir "/dev/graphics/".toList 0o755 ::
        generic_finish platform_names ue (snprintf 96 ("/dev/graphics/".toList ++ name))
    else if strncmp_eq ue.subsystem "drm".toList 3 then
      Call.make_dir "/dev/dri/".toList 0o755 ::
        generic_finish platform_names ue (snprintf 96 ("/dev/dri/".toList ++ name))
    else if strncmp_eq ue.subsystem "oncrpc".toList 6 then
      Call.make_dir "/dev/oncrpc/".toList 0o755 ::
        generic_finish platform_names ue (snprintf 96 ("/dev/oncrpc/".toList ++ name))
    else if strncmp_eq ue.subsystem "adsp".toList 4 then
      Call.make_dir "/dev/adsp/".toList 0o755 ::
        generic_finish platform_names ue (snprintf 96 ("/dev/adsp/".toList ++ name))
    else if strncmp_eq ue.subsystem "msm_camera".toList 10 then
      Call.make_dir "/dev/msm_camera/".toList 0o755 ::
        generic_finish platform_names ue (snprintf 96 ("/dev/msm_camera/".toList ++ name))
    else if strncmp_eq ue.subsystem "input".toList 5 then
      Call.make_dir "/dev/input/".toList 0o755 ::
        generic_finish platform_names ue (snprintf 96 ("/dev/input/".toList ++ name))
    else if strncmp_eq ue.subsystem "mtd".toList 3 then
      Call.make_dir "/dev/mtd/".toList 0o755 ::
        generic_finish platform_names ue (snprintf 96 ("/dev/mtd/".toList ++ name))
    else if strncmp_eq ue.subsystem "sound".toList 5 then
      Call.make_dir "/dev/snd/".toList 0o755 ::
        generic_finish platform_names ue (snprintf 96 ("/dev/snd/".toList ++ name))
    else if strncmp_eq ue.subsystem "misc".toList 4 && strncmp_eq name "log_".toList 4 then
      Call.make_dir "/dev/log/".toList 0o755 ::
        generic_finish platform_names ue (snprintf 96 ("/dev/log/".toList ++ name.drop 4))
    else
      generic_finish platform_names ue (snprintf 96 ("/dev/".toList ++ name))

/-- The table of the generic devices: a head of the subsystem and the
directory of the node. -/
def generic_dirs : List (CStr × CStr) :=
  [("graphics".toList, "/dev/graphics/".toList), ("drm".toList, "/dev/dri/".toList),
   ("oncrpc".toList, "/dev/oncrpc/".toList), ("adsp".toList, "/dev/adsp/".toList),
   ("msm_camera".toList, "/dev/msm_camera/".toList), ("input".toList, "/dev/input/".toList),
   ("mtd".toList, "/dev/mtd/".toList), ("sound".toList, "/dev/snd/".toList)]

/-- The node path the table gives: the directory of the first entry whose
head the subsystem begins with, followed by the name; `/dev/log/` and the
name without `log_` for a `misc` device named `log_...`; `/dev/` and the
name otherwise. -/
def generic_node_path (subsystem name : CStr) : CStr :=
  match generic_dirs.find? fun e => e.1.isPrefixOf subsystem with
  | some e => e.2 ++ name
  | none =>
    if "misc".toList.isPrefixOf subsystem && "log_".toList.isPrefixOf name then
      "/dev/log/".toList ++ name.drop 4
    else "/dev/".toList ++ name

/-- Whether a call is a call of `handle_device`. -/
def Call.is_handle_device : Call → Bool
  | Call.handle_device _ => true
  | _ => false

/-- Two nodes are unrelated: their paths differ and neither is a parent
directory of the other. -/
def unrelated (a b : platform_node) : Prop :=
  a.path ≠ b.path ∧ ¬ (a.path ++ ['/']) <+: b.path ∧ ¬ (b.path ++ ['/']) <+: a.path

/-- The event of scenario S1: the partition `mmcblk0p3` of the platform
device `sdhci.1`. -/
def block_event_s1 : uevent :=
  { uevent_init with
    action := "add".toList,
    path := "/devices/platform/sdhci.1/mmc_host/mmc0/mmc0:0001/block/mmcblk0p3".toList,
    subsystem := "block".toList, major := 179, minor := 3, partition_num := 3,
    partition_name := some "userdata".toList }

/-- A partition event under the platform device `/bus/sdhci.1`, whose path
does not begin with `/devices/`. -/
def block_event_bus : uevent :=
  { uevent_init with
    action := "add".toList, path := "/bus/sdhci.1/block/mmcblk0p3".toList,
    subsystem := "block".toList, major := 179, minor := 3, partition_num := 3,
    partition_name := some "userdata".toList }

/-- The event of the whole disk `mmcblk0` of the platform device `sdhci.1`:
it has no `PARTNAME` and no `PARTN`. -/
def block_event_disk : uevent :=
  { uevent_init with
    action := "add".toList,
    path := "/devices/platform/sdhci.1/mmc_host/mmc0/mmc0:0001/block/mmcblk0".toList,
    subsystem := "block".toList, major := 179, minor := 0 }

/-- The event of scenario S2: a partition named `slotA_system`. -/
def block_event_s2 : uevent :=
  { uevent_init with
    action := "add".toList,
    path := "/devices/platform/sdhci.1/mmc_host/mmc0/mmc0:0001/block/mmcblk0p5".toList,
    subsystem := "block".toList, major := 179, minor := 5, partition_num := 5,
    partition_name := some "slotA_system".toList }

/-- The event of the `misc` device `log_main`. -/
def generic_event_log : uevent :=
  { uevent_init with
    action := "add".toList, path := "/devices/virtual/misc/log_main".toList,
    subsystem := "misc".toList, major := 10, minor := 61 }

/-! ## Device nodes -/

/-- The file type bit of a block device, `S_IFBLK` of `sys/stat.h`. -/
def S_IFBLK : Nat := 0o60000

/-- The file type bit of a character device, `S_IFCHR` of `sys/stat.h`. -/
def S_IFCHR : Nat := 0o20000

/-- The group id of root, `AID_ROOT`. -/
def AID_ROOT : Nat := 0

/-- The argument `-1` of `chown` as a `gid_t`: the group is left as it is. -/
def gid_unchanged : Nat := 4294967295

/-- The error number `ENOMEM`. -/
def ENOMEM : Int := 12

/-- The global `sehandle` with the label service behind it: `none` when the
handle is NULL, otherwise the context that `selabel_lookup` stores for a
path and a mode (`none` when it stores nothing). -/
abbrev SeHandle := Option (CStr → Nat → Option CStr)

/-- The function `add_dev_perms` on the lists `sys_perms` and `dev_perms`.
`alloc_ok` tells whether `calloc` and `strdup` succeed. The result is the
value returned and the two lists. -/
def add_dev_perms (alloc_ok : Bool) (sys_perms dev_perms : List perms_) (name : CStr)
    (attr : Option CStr) (perm uid gid wildcard : Nat) :
    Int × List perms_ × List perms_ :=
  if alloc_ok = false then (-ENOMEM, sys_perms, dev_perms)
  else
    let node : perms_ :=
      { name := name, attr := attr, perm := perm, uid := uid, gid := gid,
        wildcard := wildcard }
    match attr with
    | some _ => (0, sys_perms ++ [node], dev_perms)
    | none => (0, sys_perms, dev_perms ++ [node])

/-- The function `make_device`: the calls it makes. -/
def make_device (fnmatch : CStr → CStr → Bool) (dev_perms : List perms_)
    (sehandle : SeHandle) (path : CStr) (block : Bool) (major minor : Int) : List Call :=
  let mode := (get_device_perm fnmatch dev_perms path).1 ||| (if block then S_IFBLK else S_IFCHR)
  let uid := (get_device_perm fnmatch dev_perms path).2.1
  let gid := (get_device_perm fnmatch dev_perms path).2.2
  let secontext : Option CStr :=
    match sehandle with
    | none => none
    | some selabel_lookup => selabel_lookup path mode
  (match sehandle with
    | none => []
    | some _ => [Call.setfscreatecon secontext]) ++
  [Call.setegid gid, Call.mknod path mode major minor, Call.chown path uid gid_unchanged,
   Call.setegid AID_ROOT] ++
  (match secontext with
    | none => []
    | some _ => [Call.setfscreatecon none])

/-- The function `handle_device`: the calls it makes. -/
def handle_device (fnmatch : CStr → CStr → Bool) (dev_perms : List perms_)
    (sehandle : SeHandle) (a : DeviceArgs) : List Call :=
  (if a.action = "add".toList then
    (if a.major ≥ 0 ∧ a.minor ≥ 0 then
      make_device fnmatch dev_perms sehandle a.devpath a.block a.major a.minor
     else []) ++
    [Call.property_set "ctl.dev_added".toList a.devpath] ++
    (a.links.getD []).map fun l => Call.make_link a.devpath l
   else []) ++
  (if a.action = "remove".toList then
    ((a.links.getD []).map fun l => Call.remove_link a.devpath l) ++
    [Call.property_set "ctl.dev_removed".toList a.devpath] ++
    (if a.major ≥ 0 ∧ a.minor ≥ 0 then [Call.unlink a.devpath] else [])
   else [])

/-- The calls of a handler with each call of `handle_device` replaced by the
calls that `handle_device` makes. -/
def run_calls (fnmatch : CStr → CStr → Bool) (dev_perms : List perms_)
    (sehandle : SeHandle) (calls : List Call) : List Call :=
  calls.flatMap fun c =>
    match c with
    | Call.handle_device a => handle_device fnmatch dev_perms sehandle a
    | c => [c]

/-- An entry of the table `dev_id` of product permissions, declared outside
this file. -/
structure dev_id_entry where
  dev_name : CStr
  user_config : Nat
  grp_config : Nat
  perm : Nat
deriving DecidableEq, Repr

/-- The loop of `fixup_device_perms` over the table `dev_id`. -/
def fixup_device_perms_loop (product : CStr) (device_name : Option CStr) :
    List dev_id_entry → List Call
  | [] => []
  | e :: rest =>
    if strncmp_eq product e.dev_name e.dev_name.length then
      match device_name with
      | some dn =>
        [Call.chown ("/dev/".toList ++ dn) e.user_config e.grp_config,
         Call.chmod ("/dev/".toList ++ dn) e.perm]
      | none => []
    else fixup_device_perms_loop product device_name rest

/-- The function `fixup_device_perms`; `dev_id` holds the `dev_index` entries
of the table. -/
def fixup_device_perms (dev_id : List dev_id_entry) (ue : uevent) : List Call :=
  match ue.product with
  | some product =>
    if dev_id.length ≠ 0 then fixup_device_perms_loop product ue.device_name dev_id else []
  | none => []

/-- The function `handle_platform_device_event` on `platform_names`. -/
def handle_platform_device_event (platform_names : List platform_node) (ue : uevent) :
    List platform_node :=
  if ue.action = "add".toList then add_platform_device platform_names ue.path
  else if ue.action = "remove".toList then remove_platform_device platform_names ue.path
  else platform_names

/-! ## The module autoloader -/

/-- The `struct module_alias_node`. The nodes of the deferred list have a
pattern and no name. -/
structure module_alias_node where
  name : Option CStr
  pattern : Option CStr
deriving DecidableEq, Repr

/-- The `struct module_blacklist_node`. -/
structure module_blacklist_node where
  name : CStr
deriving DecidableEq, Repr

/-- A token of the tokenizer `next_token` (declared in `parser.h`): `T_TEXT`
with its text, or `T_NEWLINE`. The end of a token list stands for `T_EOF`. -/
inductive Token where
  | text (s : CStr)
  | newline
deriving DecidableEq, Repr

/-- The lists of the module autoloader, and the names passed to
`insmod_by_dep` so far. -/
structure ModState where
  modules_aliases_map : List module_alias_node
  modules_blacklist : List module_blacklist_node
  deferred_module_loading_list : List module_alias_node
  insmod_log : List CStr
deriving DecidableEq, Repr

/-- The two description files as one call finds them: the tokens of
`modules.alias` and of `modules.blacklist`, `none` for a file that cannot be
opened or read. -/
structure ModFiles where
  alias_file : Option (List Token)
  blacklist_file : Option (List Token)
deriving DecidableEq, Repr

/-- The state before any call: the lists are empty. -/
def ModState.init : ModState :=
  { modules_aliases_map := [], modules_blacklist := [], deferred_module_loading_list := [],
    insmod_log := [] }

/-- The loop of `is_module_blacklisted`. -/
def is_module_blacklisted_loop (name : CStr) : List module_blacklist_node → Int
  | [] => 0
  | b :: rest => if name = b.name then 1 else is_module_blacklisted_loop name rest

/-- The function `is_module_blacklisted`. -/
def is_module_blacklisted (modules_blacklist : List module_blacklist_node)
    (name : Option CStr) : Int :=
  match name with
  | none => 0
  | some n => is_module_blacklisted_loop n modules_blacklist

/-- The loop of `load_module_by_device_modalias` over the alias list.
`insmod log name` is the value `insmod_by_dep` returns for `name` after the
calls `log`; the result is the value returned and the names passed to
`insmod_by_dep`, in order. -/
def load_module_loop (fnmatch : CStr → CStr → Bool) (insmod : List CStr → CStr → Int)
    (modules_blacklist : List module_blacklist_node) (id : CStr) :
    List module_alias_node → List CStr → Int × List CStr
  | [], _ => (-1, [])
  | node :: rest, log =>
    match node.name, node.pattern with
    | some name, some pattern =>
      if fnmatch pattern id then
        if is_module_blacklisted modules_blacklist (some name) = 0 then
          if insmod log name ≠ 0 then
            ((load_module_loop fnmatch insmod modules_blacklist id rest (log ++ [name])).1,
              name :: (load_module_loop fnmatch insmod modules_blacklist id rest
                (log ++ [name])).2)
          else (0, [name])
        else load_module_loop fnmatch insmod modules_blacklist id rest log
      else load_module_loop fnmatch insmod modules_blacklist id rest log
    | _, _ => load_module_loop fnmatch insmod modules_blacklist id rest log

/-- The function `load_module_by_device_modalias`: the value returned and the
state with the calls of `insmod_by_dep` logged. -/
def load_module_by_device_modalias (fnmatch : CStr → CStr → Bool)
    (insmod : List CStr → CStr → Int) (st : ModState) (id : Option CStr) : Int × ModState :=
  match id with
  | none => (-1, st)
  | some id =>
    ((load_module_loop fnmatch insmod st.modules_blacklist id st.modules_aliases_map
        st.insmod_log).1,
      { st with insmod_log := st.insmod_log ++
          (load_module_loop fnmatch insmod st.modules_blacklist id st.modules_aliases_map
            st.insmod_log).2 })

/-- The function `parse_line_module_alias` on the alias list, for the `nargs`
tokens `args` of a line. -/
def parse_line_module_alias (aliases : List module_alias_node) (args : List CStr) :
    List module_alias_node :=
  match args with
  | [_, pattern, name] => aliases ++ [{ name := some name, pattern := some pattern }]
  | _ => aliases

/-- The function `parse_line_module_blacklist` on the blacklist. -/
def parse_line_module_blacklist (blacklist : List module_blacklist_node) (args : List CStr) :
    List module_blacklist_node :=
  match args with
  | [key, name] =>
    if strncmp_eq key "blacklist".toList 9 then blacklist ++ [{ name := name }]
    else blacklist
  | _ => blacklist

/-- The token loop of `__read_modules_desc_file`: `args` holds the `nargs`
texts kept since the last line end, `parse_line` is the line function of the
mode. -/
def read_modules_desc_loop {σ : Type} (args_to_read : Nat) (parse_line : σ → List CStr → σ) :
    List Token → List CStr → σ → σ
  | [], _, st => st
  | Token.newline :: ts, args, st =>
    if args ≠ [] then read_modules_desc_loop args_to_read parse_line ts [] (parse_line st args)
    else read_modules_desc_loop args_to_read parse_line ts [] st
  | Token.text s :: ts, args, st =>
    if args.length < args_to_read then
      read_modules_desc_loop args_to_read parse_line ts (args ++ [s]) st
    else read_modules_desc_loop args_to_read parse_line ts args st

/-- The function `read_modules_aliases`. -/
def read_modules_aliases (files : ModFiles) (st : ModState) : Int × ModState :=
  match files.alias_file with
  | none => (-1, st)
  | some tokens =>
    (0, { st with modules_aliases_map :=
      read_modules_desc_loop 3 parse_line_module_alias tokens [] st.modules_aliases_map })

/-- The function `read_modules_blacklist`. -/
def read_modules_blacklist (files : ModFiles) (st : ModState) : Int × ModState :=
  match files.blacklist_file with
  | none => (-1, st)
  | some tokens =>
    (0, { st with modules_blacklist :=
      read_modules_desc_loop 2 parse_line_module_blacklist tokens [] st.modules_blacklist })

/-- The loop of `handle_deferred_module_loading` over the deferred list: a
node with a pattern is probed and removed, another node stays. The result
is the list that is left and the state. -/
def handle_deferred_loop (fnmatch : CStr → CStr → Bool) (insmod : List CStr → CStr → Int) :
    List module_alias_node → ModState → List module_alias_node × ModState
  | [], st => ([], st)
  | node :: rest, st =>
    match node.pattern with
    | some pattern =>
      handle_deferred_loop fnmatch insmod rest
        (load_module_by_device_modalias fnmatch insmod st (some pattern)).2
    | none =>
      (node :: (handle_deferred_loop fnmatch insmod rest st).1,
        (handle_deferred_loop fnmatch insmod rest st).2)

/-- The function `handle_deferred_module_loading`. -/
def handle_deferred_module_loading (fnmatch : CStr → CStr → Bool)
    (insmod : List CStr → CStr → Int) (st : ModState) : ModState :=
  if st.modules_aliases_map ≠ [] then
    { (handle_deferred_loop fnmatch insmod st.deferred_module_loading_list st).2 with
      deferred_module_loading_list :=
        (handle_deferred_loop fnmatch insmod st.deferred_module_loading_list st).1 }
  else st

/-- The function `module_probe`. -/
def module_probe (fnmatch : CStr → CStr → Bool) (insmod : List CStr → CStr → Int)
    (files : ModFiles) (st : ModState) (modalias : Option CStr) : Int × ModState :=
  if st.modules_aliases_map = [] then
    if (read_modules_aliases files st).1 = 0 then
      load_module_by_device_modalias fnmatch insmod
        (read_modules_blacklist files (read_modules_aliases files st).2).2 modalias
    else (-1, (read_modules_aliases files st).2)
  else load_module_by_device_modalias fnmatch insmod st modalias

/-- The first part of `handle_module_loading`: the alias file is read when
the alias list is empty, and on success the blacklist is read and the
deferred list is worked off. -/
def handle_module_loading_read (fnmatch : CStr → CStr → Bool)
    (insmod : List CStr → CStr → Int) (files : ModFiles) (st : ModState) : ModState :=
  if st.modules_aliases_map = [] then
    if (read_modules_aliases files st).1 = 0 then
      handle_deferred_module_loading fnmatch insmod
        (read_modules_blacklist files (read_modules_aliases files st).2).2
    else (read_modules_aliases files st).2
  else st

/-- The function `handle_module_loading`. Allocation does not fail. -/
def handle_module_loading (fnmatch : CStr → CStr → Bool) (insmod : List CStr → CStr → Int)
    (files : ModFiles) (st : ModState) (modalias : Option CStr) : ModState :=
  let st1 := handle_module_loading_read fnmatch insmod files st
  match modalias with
  | none => st1
  | some m =>
    if st1.modules_aliases_map = [] then
      { st1 with deferred_module_loading_list :=
          st1.deferred_module_loading_list ++ [{ name := none, pattern := some m }] }
    else (load_module_by_device_modalias fnmatch insmod st1 (some m)).2

/-! ## The firmware loader -/

/-- What the calls on the firmware file give: the size `st_size` that `fstat`
stores (`none` when `fstat` fails) and, for each `read` in turn, the bytes it
puts into the buffer (`none` when it returns a negative value, no bytes when
it returns 0). -/
structure FwFile where
  fstat : Option Int
  reads : Nat → Option (List Char)

/-- The inner loop `while (nr > 0)` of `load_firmware`, with a budget of
iterations. `buf` is the buffer, `nr` the count left, `k` the number of
writes to the data file made before and `writes k` the value the next one
returns. Every write starts at `buf`, since `nw` is set to 0 before it is
added to `buf`. The result tells whether the loop ended without `goto out`,
the number of writes made, and the calls. -/
def load_firmware_write (writes : Nat → Int) (buf : List Char) :
    Nat → Int → Nat → Run (Bool × Nat × List Call)
  | fuel, nr, k =>
    if nr ≤ 0 then Run.done (true, k, [])
    else
      match fuel with
      | 0 => Run.nofuel
      | fuel + 1 =>
        if writes k ≤ 0 then
          Run.done (false, k + 1, [Call.write_data (buf.take nr.toNat) (writes k)])
        else
          match load_firmware_write writes buf fuel (nr - writes k) (k + 1) with
          | Run.done (ok, k1, calls) =>
            Run.done (ok, k1, Call.write_data (buf.take nr.toNat) (writes k) :: calls)
          | Run.fault => Run.fault
          | Run.nofuel => Run.nofuel

/-- The outer loop `while (len_to_copy > 0)` of `load_firmware`, with a
budget of iterations. `i` is the number of reads and `k` the number of
writes made before. The result is the value of `ret` and the calls. -/
def load_firmware_copy (fw : FwFile) (writes : Nat → Int) :
    Nat → Int → Nat → Nat → Run (Int × List Call)
  | fuel, len_to_copy, i, k =>
    if len_to_copy ≤ 0 then Run.done (0, [])
    else
      match fuel with
      | 0 => Run.nofuel
      | fuel + 1 =>
        match fw.reads i with
        | none => Run.done (-1, [Call.read_fw none])
        | some buf =>
          if buf.length = 0 then Run.done (0, [Call.read_fw (some buf)])
          else
            match load_firmware_write writes buf buf.length buf.length k with
            | Run.done (false, _, calls) => Run.done (-1, Call.read_fw (some buf) :: calls)
            | Run.done (true, k1, calls) =>
              match load_firmware_copy fw writes fuel (len_to_copy - buf.length) (i + 1) k1 with
              | Run.done (ret, rest) => Run.done (ret, Call.read_fw (some buf) :: (calls ++ rest))
              | Run.fault => Run.fault
              | Run.nofuel => Run.nofuel
            | Run.fault => Run.fault
            | Run.nofuel => Run.nofuel

/-- The function `load_firmware`: the value returned and the calls. Each
turn of the outer loop takes at least one byte off `len_to_copy`, each turn
of the inner loop at least one off `nr`, so the budgets are not used up. -/
def load_firmware (fw : FwFile) (writes : Nat → Int) : Run (Int × List Call) :=
  match fw.fstat with
  | none => Run.done (-1, [])
  | some st_size =>
    match load_firmware_copy fw writes st_size.toNat st_size 0 0 with
    | Run.done (ret, calls) =>
      if ret = 0 then
        Run.done (ret, Call.write_loading "1".toList :: (calls ++ [Call.write_loading "0".toList]))
      else
        Run.done (ret, Call.write_loading "1".toList :: (calls ++ [Call.write_loading "-1".toList]))
    | Run.fault => Run.fault
    | Run.nofuel => Run.nofuel

/-- The first firmware directory: `/system/lib/firmware` on `__i386__`,
`/etc/firmware` otherwise. -/
def FIRMWARE_DIR1 (i386 : Bool) : CStr :=
  if i386 then "/system/lib/firmware".toList else "/etc/firmware".toList

/-- What one pass of `try_loading_again` finds: the firmware files that can
be opened, by path, and the value of `is_booting()` after the sleep. -/
structure FwTry where
  open_fw : CStr → Option FwFile
  booting : Bool

/-- The passes of `try_loading_again` in `process_firmware_event`, one for
each element of `tries`; `Run.nofuel` when the process still sleeps and
retries behind the last of them, having written nothing. -/
def process_firmware_tries (file1 file2 file3 : CStr) (writes : Nat → Int) :
    Bool → List FwTry → Run (List Call)
  | _, [] => Run.nofuel
  | booting, t :: rest =>
    match (t.open_fw file1).orElse fun _ => (t.open_fw file2).orElse fun _ => t.open_fw file3 with
    | some fw =>
      match load_firmware fw writes with
      | Run.done (_, calls) => Run.done calls
      | Run.fault => Run.fault
      | Run.nofuel => Run.nofuel
    | none =>
      if booting then
        match process_firmware_tries file1 file2 file3 writes t.booting rest with
        | Run.done calls => Run.done (Call.usleep 100000 :: calls)
        | Run.fault => Run.fault
        | Run.nofuel => Run.nofuel
      else Run.done [Call.write_loading "-1".toList]

/-- The function `process_firmware_event`: the calls it makes. `booting` is
the first value of `is_booting()`, `open_wr` tells which of the two files of
the device can be opened for writing. -/
def process_firmware_event (i386 booting : Bool) (open_wr : CStr → Bool)
    (writes : Nat → Int) (ue : uevent) (tries : List FwTry) : Run (List Call) :=
  let root := "/sys".toList ++ ue.path ++ "/".toList
  if open_wr (root ++ "loading".toList) = false then Run.done []
  else if open_wr (root ++ "data".toList) = false then Run.done []
  else
    process_firmware_tries (FIRMWARE_DIR1 i386 ++ "/".toList ++ ue.firmware)
      ("/vendor/firmware/".toList ++ ue.firmware) ("/firmware/image/".toList ++ ue.firmware)
      writes booting tries

/-- The texts written to the file `loading`, in order. -/
def loading_writes : List Call → List CStr
  | [] => []
  | Call.write_loading buf :: rest => buf :: loading_writes rest
  | _ :: rest => loading_writes rest

/-! ## The event dispatcher -/

/-- What the device manager finds around it: the C library `fnmatch`, the
values `insmod_by_dep` returns, the SELinux handle, the value of the
property `ro.boot.install_id` and the table `dev_id`. -/
structure Env where
  fnmatch : CStr → CStr → Bool
  insmod : List CStr → CStr → Int
  sehandle : SeHandle
  install_id : CStr
  dev_id : List dev_id_entry

/-- The lists of the file. -/
structure DevState where
  sys_perms : List perms_
  dev_perms : List perms_
  platform_names : List platform_node
  mod : ModState
deriving DecidableEq, Repr

/-- The calls of `insmod_by_dep` made between two states of the module
autoloader. -/
def insmod_calls (before after : ModState) : List Call :=
  (after.insmod_log.drop before.insmod_log.length).map Call.insmod_by_dep

/-- The function `handle_device_event`: the lists after the event and the
calls made; `none` where `fixup_sys_perms` has no defined behaviour. -/
def handle_device_event (env : Env) (files : ModFiles) (st : DevState) (ue : uevent) :
    Option (DevState × List Call) :=
  let mod1 :=
    if ue.action = "add".toList then
      handle_module_loading env.fnmatch env.insmod files st.mod ue.modalias
    else st.mod
  let fixup :=
    if ue.action = "add".toList ∨ ue.action = "change".toList then
      fixup_sys_perms env.fnmatch st.sys_perms ue.path
    else some []
  match fixup with
  | none => none
  | some sys_calls =>
    let names :=
      if strncmp_eq ue.subsystem "block".toList 5 then st.platform_names
      else if strncmp_eq ue.subsystem "platform".toList 8 then
        handle_platform_device_event st.platform_names ue
      else st.platform_names
    let sub_calls :=
      if strncmp_eq ue.subsystem "block".toList 5 then
        run_calls env.fnmatch st.dev_perms env.sehandle
          (handle_block_device_event st.platform_names env.install_id ue)
      else if strncmp_eq ue.subsystem "platform".toList 8 then []
      else
        run_calls env.fnmatch st.dev_perms env.sehandle
          (handle_generic_device_event st.platform_names ue)
    let product_calls :=
      if ue.action = "add".toList then fixup_device_perms env.dev_id ue else []
    some ({ st with platform_names := names, mod := mod1 },
      insmod_calls st.mod mod1 ++ sys_calls ++ sub_calls ++ product_calls)

/-- Whether a call is a call of `insmod_by_dep`. -/
def Call.is_insmod : Call → Bool
  | Call.insmod_by_dep _ => true
  | _ => false

/-- Whether a call is a call of `mknod`. -/
def Call.is_mknod : Call → Bool
  | Call.mknod _ _ _ _ => true
  | _ => false

/-! ## Scenarios and derived notions -/

/-- The event of a `misc` device with a major number and no minor number. -/
def generic_event_no_minor : uevent :=
  { uevent_init with
    action := "add".toList, path := "/devices/virtual/misc/foo".toList,
    subsystem := "misc".toList, major := 10 }

/-- The module an alias offers for `id`: its name, when its pattern matches
`id` and no node of the blacklist has this name. -/
def load_candidate (fnmatch : CStr → CStr → Bool)
    (modules_blacklist : List module_blacklist_node) (id : CStr) (a : module_alias_node) :
    Option CStr :=
  match a.name, a.pattern with
  | some name, some pattern =>
    if fnmatch pattern id && decide (∀ b ∈ modules_blacklist, name ≠ b.name) then some name
    else none
  | _, _ => none

/-- The names of the aliases whose pattern matches `id` and whose module is
not on the blacklist, in the order of the alias list. -/
def load_candidates (fnmatch : CStr → CStr → Bool)
    (modules_blacklist : List module_blacklist_node) (id : CStr)
    (aliases : List module_alias_node) : List CStr :=
  aliases.filterMap (load_candidate fnmatch modules_blacklist id)

/-- Each insertion of the list fails, coming after the calls `log` and the
insertions before it. -/
def all_fail (insmod : List CStr → CStr → Int) : List CStr → List CStr → Prop
  | _, [] => True
  | log, n :: rest => insmod log n ≠ 0 ∧ all_fail insmod (log ++ [n]) rest

/-- An `insmod_by_dep` that always succeeds. -/
def insmod_ok : List CStr → CStr → Int := fun _ _ => 0

/-- The description files when none can be read. -/
def files_unreadable : ModFiles := { alias_file := none, blacklist_file := none }

/-- The description files when `modules.alias` is readable and empty. -/
def files_empty : ModFiles := { alias_file := some [], blacklist_file := none }

/-- The description files when `modules.alias` holds the line
`alias pci:v00001234d* foo`. -/
def files_foo : ModFiles :=
  { alias_file := some [Token.text "alias".toList, Token.text "pci:v00001234d*".toList,
      Token.text "foo".toList, Token.newline],
    blacklist_file := none }

/-- The states of the module autoloader that calls of `handle_module_loading`
reach from the state before any call. -/
inductive hml_reachable (fnmatch : CStr → CStr → Bool) (insmod : List CStr → CStr → Int) :
    ModState → Prop where
  | init : hml_reachable fnmatch insmod ModState.init
  | step (st : ModState) (files : ModFiles) (modalias : Option CStr) :
      hml_reachable fnmatch insmod st →
      hml_reachable fnmatch insmod (handle_module_loading fnmatch insmod files st modalias)

/-- The invariant of the calls of `handle_module_loading`. -/
def hml_invariant (st : ModState) : Prop :=
  (∀ d ∈ st.deferred_module_loading_list, d.pattern ≠ none) ∧
  (st.modules_aliases_map ≠ [] → st.deferred_module_loading_list = [])

/-- Whether a call is a read of the firmware file that failed or a write to
the data file that returned zero or a negative value. -/
def Call.is_failure : Call → Bool
  | Call.read_fw none => true
  | Call.write_data _ ret => decide (ret ≤ 0)
  | _ => false

/-- A firmware file of the two bytes `ab` that one `read` returns. -/
def fw_ab : FwFile :=
  { fstat := some 2, reads := fun _ => some ['a', 'b'] }

/-- Two rules of `sys_perms` for the path `/devices/x`: the first with an
attribute of 500 bytes, the second with the attribute `power`. -/
def sys_rules_long_short : List perms_ :=
  [⟨"/sys/devices/x".toList, some (List.replicate 500 'a'), 0o644, 0, 0, 0⟩,
   ⟨"/sys/devices/x".toList, some "power".toList, 0o664, 1000, 1000, 0⟩]

/-- The calls are none, or some calls of `make_dir` followed by the calls of
`generic_finish`. -/
def generic_shape (names : List platform_node) (ue : uevent) (x : List Call) : Prop :=
  x = [] ∨ ∃ pre devpath, x = pre ++ generic_finish names ue devpath ∧
    ∀ c ∈ pre, ∃ p m, c = Call.make_dir p m

/-- An environment with the matcher `glob`, no SELinux handle and one entry
of `dev_id`. -/
def dispatch_env : Env :=
  { fnmatch := glob, insmod := insmod_ok, sehandle := none, install_id := [],
    dev_id := [⟨"1234".toList, 1000, 1000, 0o660⟩] }

/-- The lists before any event but for one rule of `sys_perms`. -/
def dispatch_state : DevState :=
  { sys_perms := [⟨"/sys/devices/virtual/misc/log_main".toList, some "enable".toList,
      0o664, 1000, 1000, 0⟩],
    dev_perms := [], platform_names := [], mod := ModState.init }

/-- The event of `log_main` with a modalias, a product and a device name. -/
def dispatch_event : uevent :=
  { generic_event_log with
    modalias := some "pci:v00001234d0".toList, product := some "1234/5678".toList,
    device_name := some "log_main".toList }

/-- The lists after `dispatch_event`. -/
def dispatch_state_after : DevState :=
  { dispatch_state with
    mod :=
      { modules_aliases_map := [⟨some "foo".toList, some "pci:v00001234d*".toList⟩],
        modules_blacklist := [], deferred_module_loading_list := [],
        insmod_log := ["foo".toList] } }

/-- The calls made for `dispatch_event`. -/
def dispatch_calls : List Call :=
  [Call.insmod_by_dep "foo".toList,
   Call.chown "/sys/devices/virtual/misc/log_main/enable".toList 1000 1000,
   Call.chmod "/sys/devices/virtual/misc/log_main/enable".toList 0o664,
   Call.make_dir "/dev/log/".toList 0o755,
   Call.setegid 0,
   Call.mknod "/dev/log/main".toList 0o20600 10 61,
   Call.chown "/dev/log/main".toList 0 gid_unchanged,
   Call.setegid 0,
   Call.property_set "ctl.dev_added".toList "/dev/log/main".toList,
   Call.chown "/dev/log_main".toList 1000 1000,
   Call.chmod "/dev/log_main".toList 0o660]


/-! ## Further scenarios and derived notions -/

/-- The lists built as `platform_reachable`, where no path is added while a
node with this path is stored. -/
inductive platform_reachable_fresh : List platform_node → Prop where
  | empty : platform_reachable_fresh []
  | add (names : List platform_node) (path : CStr) :
      platform_reachable_fresh names → (∀ b ∈ names, b.path ≠ path) →
      platform_reachable_fresh (add_platform_device names path)
  | remove (names : List platform_node) (path : CStr) :
      platform_reachable_fresh names →
      platform_reachable_fresh (remove_platform_device names path)

/-- The `add` event of a USB device that the kernel names `bus/usb/001/002`. -/
def usb_event_named : uevent :=
  { uevent_init with
    action := "add".toList, path := "/devices/pci0000:00/usb1/1-1".toList,
    subsystem := "usb".toList, device_name := some "bus/usb/001/002".toList,
    major := 189, minor := 1 }

/-- The same event with a device name of 108 bytes. -/
def usb_event_long_name : uevent :=
  { usb_event_named with
    device_name := some ("bus/usb/".toList ++ List.replicate 100 'a') }

/-- The event of the serial port `ttyUSB0` on an interface of a USB device of
the platform device `ehci.0`. -/
def usb_tty_event : uevent :=
  { uevent_init with
    action := "add".toList,
    path := "/devices/platform/ehci.0/usb1/1-1/1-1:1.0/tty/ttyUSB0".toList,
    subsystem := "tty".toList, major := 188, minor := 0 }

/-- The state after `load_module_by_device_modalias` has been called on each
id of a list, in the order of the list. -/
def probe_all (fnmatch : CStr → CStr → Bool) (insmod : List CStr → CStr → Int)
    (st : ModState) (ids : List CStr) : ModState :=
  ids.foldl (fun s id => (load_module_by_device_modalias fnmatch insmod s (some id)).2) st

/-- The state after two `add` events with the modaliases `m1` and `m2` that
arrive while no description file can be read. -/
def two_queued (fnmatch : CStr → CStr → Bool) (insmod : List CStr → CStr → Int)
    (m1 m2 : CStr) : ModState :=
  handle_module_loading fnmatch insmod files_unreadable
    (handle_module_loading fnmatch insmod files_unreadable ModState.init (some m1)) (some m2)

/-- The description files when `modules.alias` holds the lines
`alias a* mod_a` and `alias b* mod_b`. -/
def files_two_aliases : ModFiles :=
  { alias_file := some [Token.text "alias".toList, Token.text "a*".toList,
      Token.text "mod_a".toList, Token.newline, Token.text "alias".toList,
      Token.text "b*".toList, Token.text "mod_b".toList, Token.newline],
    blacklist_file := none }

/-- The lines of a token stream, after the texts `cur` of the line at hand:
the texts of each line that a line end closes, in order, and the texts that
follow the last line end. -/
def token_lines : List Token → List CStr → List (List CStr) × List CStr
  | [], cur => ([], cur)
  | Token.newline :: ts, cur => (cur :: (token_lines ts []).1, (token_lines ts []).2)
  | Token.text s :: ts, cur => token_lines ts (cur ++ [s])

/-- The entry that a line of at least three texts stands for: the second
text is the pattern and the third the module name. -/
def alias_of_line : List CStr → Option module_alias_node
  | _ :: pattern :: name :: _ => some { name := some name, pattern := some pattern }
  | _ => none

/-- The bytes the data file has accepted: of each write, the first bytes of
the buffer offered, as many as the value returned. -/
def accepted_bytes : List Call → List Char
  | [] => []
  | Call.write_data buf ret :: rest => buf.take ret.toNat ++ accepted_bytes rest
  | _ :: rest => accepted_bytes rest

/-- The bytes read from the firmware file, in order. -/
def read_bytes : List Call → List Char
  | [] => []
  | Call.read_fw (some buf) :: rest => buf ++ read_bytes rest
  | _ :: rest => read_bytes rest

/-- A firmware file with the given bytes: `fstat` stores their number, and
the reads return them in pages of `page` bytes, then nothing. -/
def fw_of_bytes (bytes : List Char) (page : Nat) : FwFile :=
  { fstat := some bytes.length,
    reads := fun i => some ((bytes.drop (i * page)).take page) }


/-- Two rules of `dev_perms` with the name `/dev/tty*`: the older one is a
wildcard rule, the newer one is not. -/
def rules_tty : List perms_ :=
  [⟨"/dev/tty*".toList, none, 0o660, 0, 1000, 1⟩, ⟨"/dev/tty*".toList, none, 0o600, 5, 5, 0⟩]

/-! # Theorems -/

/-! ### The permission rules -/

/-- The scan of `get_device_perm`, in terms of the test `dev_rule_matches` of
its loop: the default when the test fails on every rule, and otherwise the
values of the rule added last on which it succeeds. -/
theorem get_device_perm_scan (fnmatch : CStr → CStr → Bool)
    (rules : List perms_) (path : CStr) :
    ((∀ r ∈ rules, dev_rule_matches fnmatch r path = false) ∧
        get_device_perm fnmatch rules path = (0o600, 0, 0)) ∨
    (∃ older r newer, rules = older ++ r :: newer ∧
        dev_rule_matches fnmatch r path = true ∧
        (∀ q ∈ newer, dev_rule_matches fnmatch q path = false) ∧
        get_device_perm fnmatch rules path = (r.perm, r.uid, r.gid)) := by
  induction rules using List.reverseRecOn with
  | nil => left; simp [get_device_perm, get_device_perm_loop]
  | append_singleton init last ih =>
    by_cases h : dev_rule_matches fnmatch last path = true
    · right
      refine ⟨init, last, [], by simp, h, by simp, ?_⟩
      simp [get_device_perm, get_device_perm_loop, h]
    · have hf : dev_rule_matches fnmatch last path = false := by simpa using h
      have hstep : get_device_perm fnmatch (init ++ [last]) path =
          get_device_perm fnmatch init path := by
        simp [get_device_perm, get_device_perm_loop, hf]
      rcases ih with ⟨hall, hdef⟩ | ⟨older, r, newer, hsplit, hr, hnewer, hval⟩
      · left
        refine ⟨?_, by rw [hstep, hdef]⟩
        intro q hq
        rcases List.mem_append.mp hq with hq | hq
        · exact hall q hq
        · rw [List.mem_singleton.mp hq]; exact hf
      · right
        refine ⟨older, r, newer ++ [last], by simp [hsplit], hr, ?_, by rw [hstep, hval]⟩
        intro q hq
        rcases List.mem_append.mp hq with hq | hq
        · exact hnewer q hq
        · rw [List.mem_singleton.mp hq]; exact hf

/-- The test of the loop of `get_device_perm` succeeds on a rule exactly when
the rule is a wildcard rule and `fnmatch(dp->name, path, 0)` returns 0, or is
no wildcard rule and the path is the name of the rule, byte for byte. -/
theorem dev_rule_matches_iff (fnmatch : CStr → CStr → Bool) (r : perms_) (path : CStr) :
    dev_rule_matches fnmatch r path = true ↔
      ((r.wildcard ≠ 0 ∧ fnmatch r.name path = true) ∨ (r.wildcard = 0 ∧ path = r.name)) := by
  unfold dev_rule_matches
  by_cases hw : r.wildcard = 0
  · simp [hw]
  · simp [hw]

/-- C1. A rule matches a path when it is a wildcard rule and `fnmatch`, with
the name of the rule as pattern and the path as string, reports a match, or
when it is no wildcard rule and the path equals its name byte for byte.
`get_device_perm` returns the default `(0600, 0, 0)` when no rule matches the
path, and otherwise the `(perm, uid, gid)` of the matching rule that was added
last: the rule list splits around a matching rule after which no rule
matches. -/
theorem get_device_perm_newest_match (fnmatch : CStr → CStr → Bool)
    (rules : List perms_) (path : CStr) :
    ((∀ r ∈ rules,
        ¬ ((r.wildcard ≠ 0 ∧ fnmatch r.name path = true) ∨ (r.wildcard = 0 ∧ path = r.name))) ∧
        get_device_perm fnmatch rules path = (0o600, 0, 0)) ∨
    (∃ older r newer, rules = older ++ r :: newer ∧
        ((r.wildcard ≠ 0 ∧ fnmatch r.name path = true) ∨ (r.wildcard = 0 ∧ path = r.name)) ∧
        (∀ q ∈ newer,
          ¬ ((q.wildcard ≠ 0 ∧ fnmatch q.name path = true) ∨
            (q.wildcard = 0 ∧ path = q.name))) ∧
        get_device_perm fnmatch rules path = (r.perm, r.uid, r.gid)) := by
  rcases get_device_perm_scan fnmatch rules path with
    ⟨hall, hdef⟩ | ⟨older, r, newer, hsplit, hr, hnewer, hval⟩
  · left
    refine ⟨fun r hr hm => ?_, hdef⟩
    have := (dev_rule_matches_iff fnmatch r path).mpr hm
    rw [hall r hr] at this
    cases this
  · right
    refine ⟨older, r, newer, hsplit, (dev_rule_matches_iff fnmatch r path).mp hr, ?_, hval⟩
    intro q hq hm
    have := (dev_rule_matches_iff fnmatch q path).mpr hm
    rw [hnewer q hq] at this
    cases this

/-- C1 at the wildcard rule `/dev/tty*` and a later rule with the same name
that is no wildcard rule. For `/dev/ttyS0` only the wildcard rule matches, by
`glob`, and its values are returned; for the path `/dev/tty*` itself the later
rule matches byte for byte and wins. -/
theorem get_device_perm_newest_match_witness :
    (∃ older r newer, rules_tty = older ++ r :: newer ∧
      ((r.wildcard ≠ 0 ∧ glob r.name "/dev/ttyS0".toList = true) ∨
        (r.wildcard = 0 ∧ "/dev/ttyS0".toList = r.name)) ∧
      (∀ q ∈ newer,
        ¬ ((q.wildcard ≠ 0 ∧ glob q.name "/dev/ttyS0".toList = true) ∨
          (q.wildcard = 0 ∧ "/dev/ttyS0".toList = q.name))) ∧
      get_device_perm glob rules_tty "/dev/ttyS0".toList = (r.perm, r.uid, r.gid)) ∧
    get_device_perm glob rules_tty "/dev/ttyS0".toList = (0o660, 0, 1000) ∧
    get_device_perm glob rules_tty "/dev/tty*".toList = (0o600, 5, 5) ∧
    get_device_perm glob rules_tty "/dev/null".toList = (0o600, 0, 0) :=
  ⟨(get_device_perm_newest_match glob rules_tty "/dev/ttyS0".toList).resolve_left
      (fun h => h.1 ⟨"/dev/tty*".toList, none, 0o660, 0, 1000, 1⟩ (by decide)
        (Or.inl ⟨by decide, by decide⟩)),
    by decide, by decide, by decide⟩

/-- C2. When every rule of `sys_perms` is as `add_dev_perms` stores it and
the composed path of every matching rule fits the 512 byte buffer,
`fixup_sys_perms` issues, for each rule whose name without the leading `/sys`
matches the event path and in the order of the rule list, a `chown(uid, gid)`
followed by a `chmod(perm)` on `/sys` ++ upath ++ `/` ++ attr, and nothing
for the other rules. -/
theorem fixup_sys_perms_applies_matching (fnmatch : CStr → CStr → Bool)
    (rules : List perms_) (upath : CStr)
    (hwf : ∀ r ∈ rules, sys_rule_wf r)
    (hfit : ∀ r ∈ rules, sys_rule_matches fnmatch upath r = true →
      upath.length + (r.attr.getD []).length + 6 ≤ 512) :
    fixup_sys_perms fnmatch rules upath =
      some ((rules.filter (sys_rule_matches fnmatch upath)).flatMap (sys_rule_calls upath)) := by
  induction rules with
  | nil => simp [fixup_sys_perms]
  | cons dp rest ih =>
    have hrest := ih (fun r hr => hwf r (List.mem_cons_of_mem _ hr))
      (fun r hr => hfit r (List.mem_cons_of_mem _ hr))
    obtain ⟨hlen, hattr⟩ := hwf dp (List.mem_cons_self _ _)
    obtain ⟨attr, hattr⟩ := Option.isSome_iff_exists.mp hattr
    have hnot : ¬ dp.name.length < 4 := by omega
    by_cases hm : sys_rule_matches fnmatch upath dp = true
    · have hsz := hfit dp (List.mem_cons_self _ _) hm
      rw [hattr] at hsz
      have hsz2 : ¬ (upath.length + attr.length + 6 > 512) := by
        simp only [Option.getD_some] at hsz; omega
      have hm2 := hm
      unfold sys_rule_matches at hm2
      simp only [fixup_sys_perms, hnot, if_false, hm2, hattr, hsz2, hrest, Option.map_some',
        List.filter_cons, hm, if_true, List.flatMap_cons]
      simp [sys_rule_calls, hattr]
    · have hm1 : sys_rule_matches fnmatch upath dp = false := by simpa using hm
      have hm2 := hm1
      unfold sys_rule_matches at hm2
      simp only [fixup_sys_perms, hnot, if_false, hm2, if_true, hrest, List.filter_cons, hm1]
      simp

/-- The scenario of the LED brightness rule: C2 at the rule
`/sys/devices/*/leds/*`, attribute `brightness`, mode 0664, uid 1000,
gid 1000, and the event path `/devices/platform/leds/red`. -/
theorem fixup_sys_perms_applies_matching_witness :
    fixup_sys_perms glob
      [⟨"/sys/devices/*/leds/*".toList, some "brightness".toList, 0o664, 1000, 1000, 1⟩]
      "/devices/platform/leds/red".toList =
    some [Call.chown "/sys/devices/platform/leds/red/brightness".toList 1000 1000,
          Call.chmod "/sys/devices/platform/leds/red/brightness".toList 0o664] :=
  (fixup_sys_perms_applies_matching glob
    [⟨"/sys/devices/*/leds/*".toList, some "brightness".toList, 0o664, 1000, 1000, 1⟩]
    "/devices/platform/leds/red".toList (by decide) (by decide)).trans (by decide)

/-! ### The uevent reader -/

/-- With a single NUL behind the message the read of the loop condition
behind a last record `ACTION=` falls outside the buffer. -/
theorem parse_event_one_sentinel :
    parse_event atoi_dec ("ACTION=".toList ++ [NUL]) = Run.fault := by decide

/-- On a record the key comparison decides whether the record begins with the
key, and reads inside the buffer. -/
theorem strncmp_key_record (key r : CStr) (rest : List Char)
    (hk : NUL ∉ key) (hr : NUL ∉ r) :
    strncmp_key (r ++ NUL :: rest) key = some (key.isPrefixOf r) := by
  induction key generalizing r with
  | nil => simp [strncmp_key]
  | cons k ks ih =>
    have hk1 : k ≠ NUL := fun h => hk (by simp [h])
    have hk2 : NUL ∉ ks := fun h => hk (by simp [h])
    cases r with
    | nil =>
      have : NUL ≠ k := fun h => hk1 h.symm
      simp [strncmp_key, this]
    | cons c r1 =>
      have hc1 : c ≠ NUL := fun h => hr (by simp [h])
      have hr2 : NUL ∉ r1 := fun h => hr (by simp [h])
      by_cases hck : c = k
      · subst hck
        simp [strncmp_key, hc1, ih r1 hk2 hr2]
      · have : ¬ k = c := fun h => hck h.symm
        simp [strncmp_key, hck, this, List.isPrefixOf]

/-- The C string at the start of a NUL-free run that a NUL closes. -/
theorem str_at_record (s : CStr) (rest : List Char) (hs : NUL ∉ s) :
    str_at (s ++ NUL :: rest) = s := by
  induction s with
  | nil => simp [str_at]
  | cons c s ih =>
    have hc1 : c ≠ NUL := fun h => hs (by simp [h])
    have hs2 : NUL ∉ s := fun h => hs (by simp [h])
    have := ih hs2
    simp only [str_at] at this ⊢
    simp [List.takeWhile_cons, hc1, this]

/-- A NUL-free run closed by a NUL is a C string inside the buffer. -/
theorem c_str_record (s : CStr) (rest : List Char) (hs : NUL ∉ s) :
    c_str (s ++ NUL :: rest) = some s := by
  induction s with
  | nil => simp [c_str]
  | cons c s ih =>
    have hc1 : c ≠ NUL := fun h => hs (by simp [h])
    have hs2 : NUL ∉ s := fun h => hs (by simp [h])
    simp [c_str, hc1, ih hs2]

/-- The skip loop stops just behind the NUL that closes the record. -/
theorem skip_record_record (s : CStr) (rest : List Char) (hs : NUL ∉ s) :
    skip_record (s ++ NUL :: rest) = some rest := by
  induction s with
  | nil => simp [skip_record]
  | cons c s ih =>
    have hc1 : c ≠ NUL := fun h => hs (by simp [h])
    have hs2 : NUL ∉ s := fun h => hs (by simp [h])
    simp [skip_record, hc1, ih hs2]

/-- No key begins with another key. -/
theorem keys_not_nested : ∀ k1 ∈ uevent_keys, ∀ k2 ∈ uevent_keys,
    k1.isPrefixOf k2 = true → k1 = k2 := by decide

/-- Of two heads of one list the shorter is a head of the longer. -/
theorem isPrefixOf_common (k1 k2 r : CStr) (h1 : k1.isPrefixOf r = true)
    (h2 : k2.isPrefixOf r = true) (hle : k1.length ≤ k2.length) :
    k1.isPrefixOf k2 = true := by
  rw [List.isPrefixOf_iff_prefix] at h1 h2 ⊢
  exact List.prefix_of_prefix_length_le h1 h2 hle

/-- A record begins with at most one key. -/
theorem key_exclusive (r : CStr) (k1 k2 : CStr) (hk1 : k1 ∈ uevent_keys)
    (hk2 : k2 ∈ uevent_keys) (h1 : k1.isPrefixOf r = true) (hne : k2 ≠ k1) :
    k2.isPrefixOf r = false := by
  by_contra h2
  have h2 : k2.isPrefixOf r = true := by simpa using h2
  rcases Nat.le_total k1.length k2.length with hle | hle
  · exact hne (keys_not_nested k1 hk1 k2 hk2 (isPrefixOf_common k1 k2 r h1 h2 hle)).symm
  · exact hne (keys_not_nested k2 hk2 k1 hk1 (isPrefixOf_common k2 k1 r h2 h1 hle))

/-- A record begins with no key or with exactly one. -/
theorem key_cases (r : CStr) :
    (∀ k ∈ uevent_keys, k.isPrefixOf r = false) ∨
    ∃ k ∈ uevent_keys, k.isPrefixOf r = true ∧
      ∀ k2 ∈ uevent_keys, k2 ≠ k → k2.isPrefixOf r = false := by
  by_cases h : ∃ k ∈ uevent_keys, k.isPrefixOf r = true
  · obtain ⟨k, hk, hp⟩ := h
    exact Or.inr ⟨k, hk, hp, fun k2 hk2 hne => key_exclusive r k k2 hk hk2 hp hne⟩
  · left
    intro k hk
    by_contra hc
    exact h ⟨k, hk, by simpa using hc⟩

/-- The buffer behind a key of a record. -/
theorem after_key (r : CStr) (rest : List Char) (n : Nat) (hr : NUL ∉ r)
    (hn : n ≤ r.length) :
    str_at ((r ++ NUL :: rest).drop n) = r.drop n ∧
    c_str ((r ++ NUL :: rest).drop n) = some (r.drop n) ∧
    skip_record ((r ++ NUL :: rest).drop n) = some rest := by
  have hd : NUL ∉ r.drop n := fun h => hr (List.mem_of_mem_drop h)
  rw [List.drop_append_of_le_length hn]
  exact ⟨str_at_record _ _ hd, c_str_record _ _ hd, skip_record_record _ _ hd⟩

/-- One iteration of the loop on a record: the key chain followed by the
skip to the next record. -/
theorem parse_event_key_record (atoi : CStr → Int) (r : CStr) (rest : List Char)
    (ue : uevent) (hr : NUL ∉ r) :
    ∃ p, parse_event_key atoi (r ++ NUL :: rest) ue = some (p, record_update atoi ue r) ∧
      skip_record p = some rest := by
  have hs := skip_record_record r rest hr
  unfold parse_event_key
  rw [strncmp_key_record "ACTION=".toList r rest (by decide) hr,
    strncmp_key_record "DEVPATH=".toList r rest (by decide) hr,
    strncmp_key_record "SUBSYSTEM=".toList r rest (by decide) hr,
    strncmp_key_record "FIRMWARE=".toList r rest (by decide) hr,
    strncmp_key_record "MAJOR=".toList r rest (by decide) hr,
    strncmp_key_record "MINOR=".toList r rest (by decide) hr,
    strncmp_key_record "PARTN=".toList r rest (by decide) hr,
    strncmp_key_record "PARTNAME=".toList r rest (by decide) hr,
    strncmp_key_record "DEVNAME=".toList r rest (by decide) hr,
    strncmp_key_record "PRODUCT=".toList r rest (by decide) hr,
    strncmp_key_record "MODALIAS=".toList r rest (by decide) hr]
  rcases key_cases r with h | ⟨k, hk, hp, hall⟩
  · simp [uevent_keys] at h
    simp [h, record_update, hs]
  · have hlen : k.length ≤ r.length :=
      (List.isPrefixOf_iff_prefix.mp hp).length_le
    obtain ⟨e1, e2, e3⟩ := after_key r rest k.length hr hlen
    simp [uevent_keys] at hk hall
    rcases hk with rfl | rfl | rfl | rfl | rfl | rfl | rfl | rfl | rfl | rfl | rfl <;>
      simp at hall e1 e2 e3 <;>
      simp [hp, hall, record_update, e1, e2, e3]

/-- The loop of `parse_event` folds `record_update` over the records. -/
theorem parse_event_loop_records (atoi : CStr → Int) (recs : List CStr) (tail : List Char)
    (hrec : ∀ r ∈ recs, r ≠ [] ∧ NUL ∉ r) (fuel : Nat) (hf : recs.length < fuel)
    (ue : uevent) :
    parse_event_loop atoi fuel (uevent_msg recs ++ NUL :: tail) ue =
      Run.done (recs.foldl (record_update atoi) ue) := by
  induction recs generalizing fuel ue with
  | nil =>
    obtain ⟨f, rfl⟩ : ∃ f, fuel = f + 1 := ⟨fuel - 1, by simp at hf; omega⟩
    simp [parse_event_loop, uevent_msg]
  | cons r recs ih =>
    obtain ⟨f, rfl⟩ : ∃ f, fuel = f + 1 := ⟨fuel - 1, by omega⟩
    obtain ⟨hne, hr⟩ := hrec r (List.mem_cons_self _ _)
    obtain ⟨c, r1, rfl⟩ := List.exists_cons_of_ne_nil hne
    have hc : c ≠ NUL := fun h => hr (by simp [h])
    have hmsg : uevent_msg ((c :: r1) :: recs) ++ NUL :: tail =
        (c :: r1) ++ NUL :: (uevent_msg recs ++ NUL :: tail) := by
      simp [uevent_msg]
    obtain ⟨p, hp, hskip⟩ :=
      parse_event_key_record atoi (c :: r1) (uevent_msg recs ++ NUL :: tail) ue hr
    have hih := ih (fun q hq => hrec q (List.mem_cons_of_mem _ hq)) f
      (by simp at hf; omega) (record_update atoi ue (c :: r1))
    rw [hmsg]
    rw [List.cons_append] at hp ⊢
    simp only [parse_event_loop, hc, if_false, hp, hskip, hih, List.foldl_cons]

/-- Each field after one record: set when the record begins with the key of
the field, kept otherwise. -/
theorem record_update_fields (atoi : CStr → Int) (ue : uevent) (r : CStr) :
    (record_update atoi ue r).action =
      (if "ACTION=".toList.isPrefixOf r then r.drop "ACTION=".toList.length else ue.action) ∧
    (record_update atoi ue r).path =
      (if "DEVPATH=".toList.isPrefixOf r then r.drop "DEVPATH=".toList.length else ue.path) ∧
    (record_update atoi ue r).subsystem =
      (if "SUBSYSTEM=".toList.isPrefixOf r then r.drop "SUBSYSTEM=".toList.length
        else ue.subsystem) ∧
    (record_update atoi ue r).firmware =
      (if "FIRMWARE=".toList.isPrefixOf r then r.drop "FIRMWARE=".toList.length
        else ue.firmware) ∧
    (record_update atoi ue r).major =
      (if "MAJOR=".toList.isPrefixOf r then atoi (r.drop "MAJOR=".toList.length)
        else ue.major) ∧
    (record_update atoi ue r).minor =
      (if "MINOR=".toList.isPrefixOf r then atoi (r.drop "MINOR=".toList.length)
        else ue.minor) ∧
    (record_update atoi ue r).partition_num =
      (if "PARTN=".toList.isPrefixOf r then atoi (r.drop "PARTN=".toList.length)
        else ue.partition_num) ∧
    (record_update atoi ue r).partition_name =
      (if "PARTNAME=".toList.isPrefixOf r then some (r.drop "PARTNAME=".toList.length)
        else ue.partition_name) ∧
    (record_update atoi ue r).device_name =
      (if "DEVNAME=".toList.isPrefixOf r then some (r.drop "DEVNAME=".toList.length)
        else ue.device_name) ∧
    (record_update atoi ue r).product =
      (if "PRODUCT=".toList.isPrefixOf r then some (r.drop "PRODUCT=".toList.length)
        else ue.product) ∧
    (record_update atoi ue r).modalias =
      (if "MODALIAS=".toList.isPrefixOf r then some (r.drop "MODALIAS=".toList.length)
        else ue.modalias) := by
  rcases key_cases r with h | ⟨k, hk, hp, hall⟩
  · simp [uevent_keys] at h
    simp [h, record_update]
  · simp [uevent_keys] at hk hall
    rcases hk with rfl | rfl | rfl | rfl | rfl | rfl | rfl | rfl | rfl | rfl | rfl <;>
      simp at hall <;>
      simp [hp, hall, record_update]

/-- A record that begins with no key leaves the event as it is. -/
theorem record_update_unrecognised (atoi : CStr → Int) (ue : uevent) (r : CStr)
    (h : ∀ k ∈ uevent_keys, k.isPrefixOf r = false) : record_update atoi ue r = ue := by
  simp [uevent_keys] at h
  simp [h, record_update]

/-- The value of a key after one more record. -/
theorem last_value_concat (key : CStr) (recs : List CStr) (r : CStr) :
    last_value key (recs ++ [r]) =
      if key.isPrefixOf r then some (r.drop key.length) else last_value key recs := by
  unfold last_value
  by_cases h : key.isPrefixOf r = true
  · simp [List.find?_cons, h]
  · have h : key.isPrefixOf r = false := Bool.eq_false_iff.mpr h
    simp [List.find?_cons, h]

/-- A field that each record sets or keeps holds, after all records, the
value from the last record that sets it. -/
theorem foldl_field {β : Type} (atoi : CStr → Int) (f : uevent → β) (key : CStr)
    (v : CStr → β)
    (hstep : ∀ ue r, f (record_update atoi ue r) =
      if key.isPrefixOf r then v (r.drop key.length) else f ue)
    (recs : List CStr) (ue : uevent) :
    f (recs.foldl (record_update atoi) ue) = ((last_value key recs).map v).getD (f ue) := by
  induction recs using List.reverseRecOn with
  | nil => simp [last_value]
  | append_singleton recs r ih =>
    rw [List.foldl_append, List.foldl_cons, List.foldl_nil, hstep, last_value_concat]
    by_cases h : key.isPrefixOf r = true
    · simp [h]
    · have h : key.isPrefixOf r = false := Bool.eq_false_iff.mpr h
      simp [h, ih]

/-- Every buffer that ends in two NUL bytes is a run of non-empty records,
each closed by a NUL, followed by a NUL. -/
theorem buffer_records (n : Nat) : ∀ bytes : List Char, bytes.length ≤ n →
    ∃ recs tail, (∀ r ∈ recs, r ≠ [] ∧ NUL ∉ r) ∧
      bytes ++ [NUL, NUL] = uevent_msg recs ++ NUL :: tail := by
  induction n with
  | zero =>
    intro bytes hb
    have : bytes = [] := List.length_eq_zero.mp (by omega)
    subst this
    exact ⟨[], [NUL], by simp, by simp [uevent_msg]⟩
  | succ n ih =>
    intro bytes hb
    cases bytes with
    | nil => exact ⟨[], [NUL], by simp, by simp [uevent_msg]⟩
    | cons c bs =>
      by_cases hc : c = NUL
      · subst hc
        exact ⟨[], bs ++ [NUL, NUL], by simp, by simp [uevent_msg]⟩
      · -- the first record: the bytes before the first NUL
        have hsplit := List.takeWhile_append_dropWhile (fun x => x != NUL) (c :: bs)
        have hrNUL : NUL ∉ (c :: bs).takeWhile (fun x => x != NUL) := by
          intro hmem
          have := List.mem_takeWhile_imp hmem
          simp at this
        have hrne : (c :: bs).takeWhile (fun x => x != NUL) ≠ [] := by
          simp [List.takeWhile_cons, hc]
        cases hd : (c :: bs).dropWhile (fun x => x != NUL) with
        | nil =>
          rw [hd, List.append_nil] at hsplit
          refine ⟨[c :: bs], [], ?_, by simp [uevent_msg]⟩
          intro r hr
          rw [List.mem_singleton.mp hr]
          rw [hsplit] at hrNUL
          exact ⟨by simp, hrNUL⟩
        | cons d rest =>
          have hdN : d = NUL := by
            have := List.head_dropWhile_not (fun x => x != NUL) (c :: bs)
              (by rw [hd]; simp)
            simp [hd] at this
            exact this
          subst hdN
          rw [hd] at hsplit
          have hlen : rest.length ≤ n := by
            have := congrArg List.length hsplit
            simp at this hb
            omega
          obtain ⟨recs, tail, hwf, heq⟩ := ih rest hlen
          refine ⟨(c :: bs).takeWhile (fun x => x != NUL) :: recs, tail, ?_, ?_⟩
          · intro r hr
            rcases List.mem_cons.mp hr with rfl | hr
            · exact ⟨hrne, hrNUL⟩
            · exact hwf r hr
          · calc c :: bs ++ [NUL, NUL]
                = ((c :: bs).takeWhile (fun x => x != NUL) ++ NUL :: rest) ++ [NUL, NUL] := by
                  rw [hsplit]
              _ = (c :: bs).takeWhile (fun x => x != NUL) ++ NUL :: (rest ++ [NUL, NUL]) := by
                  simp
              _ = _ := by rw [heq]; simp [uevent_msg]

/-- Two events with equal fields are equal. -/
theorem uevent_eq (a b : uevent) (h1 : a.action = b.action) (h2 : a.path = b.path)
    (h3 : a.subsystem = b.subsystem) (h4 : a.firmware = b.firmware)
    (h5 : a.partition_name = b.partition_name) (h6 : a.device_name = b.device_name)
    (h7 : a.modalias = b.modalias) (h8 : a.product = b.product)
    (h9 : a.partition_num = b.partition_num) (h10 : a.major = b.major)
    (h11 : a.minor = b.minor) : a = b := by
  cases a; cases b; simp_all

/-- A message has at least one byte for each record. -/
theorem uevent_msg_length (recs : List CStr) : recs.length ≤ (uevent_msg recs).length := by
  induction recs with
  | nil => simp
  | cons r recs ih =>
    have : uevent_msg (r :: recs) = r ++ NUL :: uevent_msg recs := by simp [uevent_msg]
    rw [this]; simp; omega

/-- An option read back through `some`. -/
theorem getD_map_some {α : Type} (o : Option α) : (o.map some).getD none = o := by
  cases o <;> rfl

/-- Folding `record_update` over the records gives the event of the
specification. -/
theorem foldl_records_spec (atoi : CStr → Int) (recs : List CStr) :
    recs.foldl (record_update atoi) uevent_init = uevent_spec atoi recs := by
  have hs := fun ue r => record_update_fields atoi ue r
  apply uevent_eq
  · simpa [uevent_spec, uevent_init] using
      foldl_field atoi uevent.action "ACTION=".toList id (fun ue r => (hs ue r).1) recs uevent_init
  · simpa [uevent_spec, uevent_init] using
      foldl_field atoi uevent.path "DEVPATH=".toList id (fun ue r => (hs ue r).2.1) recs uevent_init
  · simpa [uevent_spec, uevent_init] using
      foldl_field atoi uevent.subsystem "SUBSYSTEM=".toList id
        (fun ue r => (hs ue r).2.2.1) recs uevent_init
  · simpa [uevent_spec, uevent_init] using
      foldl_field atoi uevent.firmware "FIRMWARE=".toList id
        (fun ue r => (hs ue r).2.2.2.1) recs uevent_init
  · have := foldl_field atoi uevent.partition_name "PARTNAME=".toList some
        (fun ue r => (hs ue r).2.2.2.2.2.2.2.1) recs uevent_init
    exact this.trans (getD_map_some _)
  · have := foldl_field atoi uevent.device_name "DEVNAME=".toList some
        (fun ue r => (hs ue r).2.2.2.2.2.2.2.2.1) recs uevent_init
    exact this.trans (getD_map_some _)
  · have := foldl_field atoi uevent.modalias "MODALIAS=".toList some
        (fun ue r => (hs ue r).2.2.2.2.2.2.2.2.2.2) recs uevent_init
    exact this.trans (getD_map_some _)
  · have := foldl_field atoi uevent.product "PRODUCT=".toList some
        (fun ue r => (hs ue r).2.2.2.2.2.2.2.2.2.1) recs uevent_init
    exact this.trans (getD_map_some _)
  · simpa [uevent_spec, uevent_init] using
      foldl_field atoi uevent.partition_num "PARTN=".toList atoi
        (fun ue r => (hs ue r).2.2.2.2.2.2.1) recs uevent_init
  · simpa [uevent_spec, uevent_init] using
      foldl_field atoi uevent.major "MAJOR=".toList atoi
        (fun ue r => (hs ue r).2.2.2.2.1) recs uevent_init
  · simpa [uevent_spec, uevent_init] using
      foldl_field atoi uevent.minor "MINOR=".toList atoi
        (fun ue r => (hs ue r).2.2.2.2.2.1) recs uevent_init

/-- The function `parse_event` on a message of records: it ends with a result,
the fold of `record_update`. -/
theorem parse_event_records (atoi : CStr → Int) (recs : List CStr) (tail : List Char)
    (hrec : ∀ r ∈ recs, r ≠ [] ∧ NUL ∉ r) :
    parse_event atoi (uevent_msg recs ++ NUL :: tail) =
      Run.done (recs.foldl (record_update atoi) uevent_init) := by
  unfold parse_event
  apply parse_event_loop_records atoi recs tail hrec
  have := uevent_msg_length recs
  simp; omega

/-- C3, amended. On a message made of non-empty NUL-terminated records
followed by a NUL, `parse_event` ends with the event of `uevent_spec`: action,
path, subsystem, firmware, partition_name, device_name, modalias and product
are the text after their key in the last record that begins with it; major,
minor and partition_num are what the C library's `atoi` returns for the text
after `MAJOR=`, `MINOR=`, `PARTN=`, whatever that is, and -1 when the key is
in no record; and a record that begins with no recognised key changes no
field: the message without it gives the same event. -/
theorem parse_event_fields (atoi : CStr → Int) (recs : List CStr) (tail : List Char)
    (hrec : ∀ r ∈ recs, r ≠ [] ∧ NUL ∉ r) :
    parse_event atoi (uevent_msg recs ++ NUL :: tail) = Run.done (uevent_spec atoi recs) ∧
    ∀ older r newer, recs = older ++ r :: newer →
      (∀ k ∈ uevent_keys, k.isPrefixOf r = false) →
      parse_event atoi (uevent_msg (older ++ newer) ++ NUL :: tail) =
        Run.done (uevent_spec atoi recs) := by
  refine ⟨by rw [parse_event_records atoi recs tail hrec, foldl_records_spec], ?_⟩
  intro older r newer hsplit hr
  have hrec2 : ∀ q ∈ older ++ newer, q ≠ [] ∧ NUL ∉ q := by
    intro q hq
    apply hrec q
    rw [hsplit]
    rcases List.mem_append.mp hq with h | h
    · exact List.mem_append_left _ h
    · exact List.mem_append_right _ (List.mem_cons_of_mem _ h)
  rw [parse_event_records atoi _ tail hrec2, ← foldl_records_spec, hsplit]
  simp only [List.foldl_append, List.foldl_cons]
  rw [record_update_unrecognised atoi _ r hr]

/-- The amended C3 at a message with `MAJOR=` twice, `MINOR=x` and
`SEQNUM=7`: the later `MAJOR=` wins, the minor number is 0, the fields without
a record keep their start values, and the message without `SEQNUM=7` gives the
same. -/
theorem parse_event_fields_witness :
    parse_event atoi_dec (uevent_msg sample_records ++ [NUL]) =
      Run.done { uevent_init with
        action := "add".toList, major := 179, minor := 0,
        partition_name := some "userdata".toList } ∧
    parse_event atoi_dec (uevent_msg
      ["ACTION=add".toList, "MAJOR=1".toList, "MAJOR=179".toList,
       "MINOR=x".toList, "PARTNAME=userdata".toList] ++ [NUL]) =
      Run.done { uevent_init with
        action := "add".toList, major := 179, minor := 0,
        partition_name := some "userdata".toList } := by
  have h := parse_event_fields atoi_dec sample_records [] (by decide)
  refine ⟨h.1.trans (by decide), ?_⟩
  exact (h.2 ["ACTION=add".toList, "MAJOR=1".toList] "SEQNUM=7".toList
    ["MAJOR=179".toList, "MINOR=x".toList, "PARTNAME=userdata".toList] (by decide)
    (by decide)).trans (by decide)

/-- C3, as stated, fails: the text `12abc` after `MINOR=` is not a number,
and the minor number is 12, not 0: `atoi` reads the leading digits and stops
at the first byte that is none. In the same way ` +7x` gives 7 and `-3.5`
gives -3. -/
theorem parse_event_leading_digits :
    parse_event atoi_dec ("MINOR=12abc".toList ++ [NUL, NUL]) =
      Run.done { uevent_init with minor := 12 } ∧
    parse_event atoi_dec ("MAJOR= +7x".toList ++ [NUL, NUL]) =
      Run.done { uevent_init with major := 7 } ∧
    parse_event atoi_dec ("PARTN=-3.5".toList ++ [NUL, NUL]) =
      Run.done { uevent_init with partition_num := -3 } := by
  decide

/-- C4. On a buffer of any message bytes (of any length, so of every length
below 1024) followed by two NUL bytes, `parse_event` ends with a result: the
loop stops within its budget and no byte behind the second NUL, at index
n + 1, is read. -/
theorem parse_event_in_bounds (atoi : CStr → Int) (bytes : List Char) :
    ∃ ue, parse_event atoi (bytes ++ [NUL, NUL]) = Run.done ue := by
  obtain ⟨recs, tail, hwf, heq⟩ := buffer_records bytes.length bytes (Nat.le_refl _)
  rw [heq]
  exact ⟨_, parse_event_records atoi recs tail hwf⟩

/-! ### The platform device list -/

/-- For a node that stores the length of its path, the test of the scans holds
exactly when the path of the node followed by `/` is a head of the path. -/
theorem platform_match_iff (path : CStr) (b : platform_node)
    (hwf : b.path_len = b.path.length) :
    platform_match path b = true ↔ (b.path ++ ['/']) <+: path := by
  unfold platform_match strncmp_eq
  rw [hwf]
  constructor
  · intro h
    simp only [Bool.and_eq_true, decide_eq_true_eq, beq_iff_eq] at h
    obtain ⟨⟨hlt, hget⟩, htake⟩ := h
    rw [List.take_length] at htake
    refine ⟨path.drop (b.path.length + 1), ?_⟩
    have h1 : path = path.take b.path.length ++ path.drop b.path.length :=
      (List.take_append_drop _ _).symm
    have h2 : path.drop b.path.length = '/' :: path.drop (b.path.length + 1) := by
      rw [List.getElem?_eq_some_iff] at hget
      obtain ⟨hh, hv⟩ := hget
      rw [← hv]
      exact List.drop_eq_getElem_cons hh
    calc b.path ++ ['/'] ++ path.drop (b.path.length + 1)
        = path.take b.path.length ++ ('/' :: path.drop (b.path.length + 1)) := by
          rw [htake]; simp
      _ = path.take b.path.length ++ path.drop b.path.length := by rw [h2]
      _ = path := List.take_append_drop _ _
  · rintro ⟨t, rfl⟩
    simp [List.getElem_append_right]

/-- The scan of `add_platform_device` finds a node exactly when the path of a
stored node followed by `/` is a head of the new path. -/
theorem add_platform_device_skip_iff (names : List platform_node) (p : CStr)
    (hwf : ∀ b ∈ names, b.path_len = b.path.length) :
    names.reverse.any (platform_match p) = true ↔ ∃ b ∈ names, (b.path ++ ['/']) <+: p := by
  simp only [List.any_eq_true, List.mem_reverse]
  constructor
  · rintro ⟨b, hb, hm⟩
    exact ⟨b, hb, (platform_match_iff p b (hwf b hb)).mp hm⟩
  · rintro ⟨b, hb, hm⟩
    exact ⟨b, hb, (platform_match_iff p b (hwf b hb)).mpr hm⟩

/-- The name of a node by the form of its path. -/
theorem platform_name_cases (p : CStr) :
    (∀ r, p = "/devices/platform/".toList ++ r → platform_name p = r) ∧
    (∀ r, p = "/devices/".toList ++ r → ¬ "platform/".toList <+: r → platform_name p = r) ∧
    (¬ "/devices/".toList <+: p → platform_name p = p) := by
  refine ⟨?_, ?_, ?_⟩
  · rintro r rfl
    simp [platform_name, strncmp_eq]
  · rintro r rfl hr
    have : ¬ (List.take 9 r = ['p', 'l', 'a', 't', 'f', 'o', 'r', 'm', '/']) := by
      intro h
      apply hr
      refine ⟨r.drop 9, ?_⟩
      have := List.take_append_drop 9 r
      rw [h] at this
      simpa using this
    simp [platform_name, strncmp_eq, this]
  · intro hp
    have : ¬ (List.take 9 p = ['/', 'd', 'e', 'v', 'i', 'c', 'e', 's', '/']) := by
      intro h
      apply hp
      refine ⟨p.drop 9, ?_⟩
      have := List.take_append_drop 9 p
      rw [h] at this
      simpa using this
    simp [platform_name, strncmp_eq, this]

/-- C5. For a list whose nodes store the length of their path,
`add_platform_device names p` is `names` when the path of a stored node
followed by `/` is a head of `p`; otherwise `find_platform_device` on the
new list and `p ++ "/sub"` returns a node whose path is `p` and whose name is
`p` without a leading `/devices/platform/`, or without a leading `/devices/`
when no `platform/` follows it, and `p` itself when `p` does not begin with
`/devices/`. -/
theorem add_platform_device_spec (names : List platform_node) (p : CStr)
    (hwf : ∀ b ∈ names, b.path_len = b.path.length) :
    ((∃ b ∈ names, (b.path ++ ['/']) <+: p) → add_platform_device names p = names) ∧
    ((¬ ∃ b ∈ names, (b.path ++ ['/']) <+: p) →
      ∃ node, find_platform_device (add_platform_device names p) (p ++ "/sub".toList) =
          some node ∧ node.path = p ∧
        (∀ r, p = "/devices/platform/".toList ++ r → node.name = r) ∧
        (∀ r, p = "/devices/".toList ++ r → ¬ "platform/".toList <+: r → node.name = r) ∧
        (¬ "/devices/".toList <+: p → node.name = p)) := by
  constructor
  · intro h
    have := (add_platform_device_skip_iff names p hwf).mpr h
    simp [add_platform_device, this]
  · intro h
    have hany : names.reverse.any (platform_match p) = false := by
      rw [Bool.eq_false_iff]
      exact fun hc => h ((add_platform_device_skip_iff names p hwf).mp hc)
    refine ⟨{ name := platform_name p, path := p, path_len := p.length }, ?_, rfl, ?_⟩
    · have hm : platform_match (p ++ "/sub".toList)
          { name := platform_name p, path := p, path_len := p.length } = true := by
        rw [platform_match_iff _ _ rfl]
        exact ⟨"sub".toList, by simp⟩
      have hrev : ∀ n : platform_node, (names ++ [n]).reverse = n :: names.reverse := by
        simp
      simp only [add_platform_device, hany, find_platform_device]
      rw [if_neg (by simp), hrev, List.find?_cons, hm]
    · exact platform_name_cases p

/-- C5 at the list holding `/devices/platform/sdhci.1`: the sub-device
`/devices/platform/sdhci.1/mmc_host` is not added, and
`/devices/platform/leds` is added with the name `leds` and found from
`/devices/platform/leds/sub`. -/
theorem add_platform_device_spec_witness :
    add_platform_device [⟨"sdhci.1".toList, "/devices/platform/sdhci.1".toList, 25⟩]
        "/devices/platform/sdhci.1/mmc_host".toList =
      [⟨"sdhci.1".toList, "/devices/platform/sdhci.1".toList, 25⟩] ∧
    ∃ node, find_platform_device
        (add_platform_device [⟨"sdhci.1".toList, "/devices/platform/sdhci.1".toList, 25⟩]
          "/devices/platform/leds".toList)
        ("/devices/platform/leds".toList ++ "/sub".toList) = some node ∧
      node.path = "/devices/platform/leds".toList ∧ node.name = "leds".toList := by
  refine ⟨(add_platform_device_spec _ _ (by decide)).1 (by decide), ?_⟩
  obtain ⟨node, h1, h2, h3, -, -⟩ :=
    (add_platform_device_spec [⟨"sdhci.1".toList, "/devices/platform/sdhci.1".toList, 25⟩]
      "/devices/platform/leds".toList (by decide)).2 (by decide)
  exact ⟨node, h1, h2, h3 "leds".toList (by decide)⟩

/-- C6, as stated, fails: after `add_platform_device("/devices/a/b")` and then
`add_platform_device("/devices/a")` both nodes are stored, both are ancestors
of `/devices/a/b/c`, and `find_platform_device` returns the newer and shorter
`/devices/a`, not the longest one. -/
theorem prefix_ancestry_not_unique :
    platform_reachable
      (add_platform_device (add_platform_device [] "/devices/a/b".toList) "/devices/a".toList) ∧
    (add_platform_device (add_platform_device [] "/devices/a/b".toList) "/devices/a".toList).filter
        (is_ancestor "/devices/a/b/c".toList) =
      [⟨"a/b".toList, "/devices/a/b".toList, 12⟩, ⟨"a".toList, "/devices/a".toList, 10⟩] ∧
    find_platform_device
        (add_platform_device (add_platform_device [] "/devices/a/b".toList) "/devices/a".toList)
        "/devices/a/b/c".toList = some ⟨"a".toList, "/devices/a".toList, 10⟩ :=
  ⟨platform_reachable.add _ _ (platform_reachable.add _ _ platform_reachable.empty),
    by decide, by decide⟩

/-- A head relation between two lists closed by the same element. -/
theorem prefix_snoc_cases (x y : CStr) (c : Char) (h : (x ++ [c]) <+: (y ++ [c])) :
    x = y ∨ (x ++ [c]) <+: y := by
  by_cases hl : x.length = y.length
  · left
    have := h.eq_of_length (by simp [hl])
    exact List.append_cancel_right this
  · right
    have hle := h.length_le
    simp at hle
    exact List.prefix_of_prefix_length_le h (List.prefix_append y [c]) (by simp; omega)

/-- Two ancestors of one path are not unrelated. -/
theorem ancestors_related (a b : platform_node) (q : CStr)
    (ha : (a.path ++ ['/']) <+: q) (hb : (b.path ++ ['/']) <+: q) : ¬ unrelated a b := by
  rintro ⟨hne, hab, hba⟩
  rcases List.prefix_or_prefix_of_prefix ha hb with h | h
  · rcases prefix_snoc_cases _ _ _ h with h | h
    · exact hne h
    · exact hab h
  · rcases prefix_snoc_cases _ _ _ h with h | h
    · exact hne h.symm
    · exact hba h

/-- The list after `remove_platform_device` is a sublist of the list before. -/
theorem remove_platform_device_sublist (names : List platform_node) (p : CStr) :
    (remove_platform_device names p).Sublist names := by
  unfold remove_platform_device
  have := List.eraseP_sublist (p := fun bus => decide (p = bus.path)) names.reverse
  have := List.reverse_sublist.mpr this
  simpa using this

/-- In a list built parents first every node stores the length of its path
and the nodes are unrelated in pairs. -/
theorem parents_first_invariant (names : List platform_node)
    (h : platform_reachable_parents_first names) :
    (∀ b ∈ names, b.path_len = b.path.length) ∧ names.Pairwise unrelated := by
  induction h with
  | empty => simp
  | add names p _ hnew ih =>
    obtain ⟨hwf, hpw⟩ := ih
    by_cases hany : names.reverse.any (platform_match p) = true
    · simp only [add_platform_device, hany, if_true]
      exact ⟨hwf, hpw⟩
    · have hno : ¬ ∃ b ∈ names, (b.path ++ ['/']) <+: p :=
        fun hc => hany ((add_platform_device_skip_iff names p hwf).mpr hc)
      simp only [add_platform_device, hany]
      rw [if_neg (by simp)]
      constructor
      · intro b hb
        rcases List.mem_append.mp hb with hb | hb
        · exact hwf b hb
        · rw [List.mem_singleton.mp hb]
      · rw [List.pairwise_append]
        refine ⟨hpw, List.pairwise_singleton _ _, ?_⟩
        intro a ha b hb
        rw [List.mem_singleton.mp hb]
        exact ⟨fun e => (hnew a ha).1 e.symm, fun e => hno ⟨a, ha, e⟩, (hnew a ha).2⟩
  | remove names p _ ih =>
    obtain ⟨hwf, hpw⟩ := ih
    have hsub := remove_platform_device_sublist names p
    exact ⟨fun b hb => hwf b (hsub.subset hb), hpw.sublist hsub⟩

/-- C6, amended. In every list reachable from the empty list by calls of
`add_platform_device` and `remove_platform_device` in which no added path is
a path already stored or a parent directory of one, at most one stored node
is an ancestor of any given path. -/
theorem prefix_ancestry_unique_parents_first (names : List platform_node)
    (h : platform_reachable_parents_first names) (q : CStr) :
    (names.filter (is_ancestor q)).length ≤ 1 := by
  have hpw : (names.filter (is_ancestor q)).Pairwise unrelated :=
    (parents_first_invariant names h).2.sublist (List.filter_sublist _)
  match hf : names.filter (is_ancestor q), hpw with
  | [], _ => simp
  | [_], _ => simp
  | a :: b :: rest, hpw =>
    exfalso
    have ha : a ∈ names.filter (is_ancestor q) := by rw [hf]; simp
    have hb : b ∈ names.filter (is_ancestor q) := by rw [hf]; simp
    have ha2 := (List.mem_filter.mp ha).2
    have hb2 := (List.mem_filter.mp hb).2
    unfold is_ancestor at ha2 hb2
    rw [List.isPrefixOf_iff_prefix] at ha2 hb2
    have hab : unrelated a b := by
      rw [List.pairwise_cons] at hpw
      exact hpw.1 b (by simp)
    exact ancestors_related a b q ha2 hb2 hab

/-- The amended C6 at the list built by adding `/devices/a`, `/devices/a/b`
and `/devices/c`, for the path `/devices/a/b/c`. -/
theorem prefix_ancestry_unique_parents_first_witness :
    ((add_platform_device
        (add_platform_device (add_platform_device [] "/devices/a".toList) "/devices/a/b".toList)
        "/devices/c".toList).filter (is_ancestor "/devices/a/b/c".toList)).length ≤ 1 :=
  prefix_ancestry_unique_parents_first _
    (platform_reachable_parents_first.add _ _
      (platform_reachable_parents_first.add _ _
        (platform_reachable_parents_first.add _ _ platform_reachable_parents_first.empty
          (by decide))
        (by decide))
      (by decide)) _

/-! ### The block and generic device handlers -/

/-- Comparing the first `strlen(lit)` bytes with `lit` tests whether the
string begins with `lit`. -/
theorem strncmp_eq_literal (s lit : CStr) : strncmp_eq s lit lit.length = lit.isPrefixOf s := by
  unfold strncmp_eq
  rw [List.take_length]
  by_cases h : lit <+: s
  · rw [List.isPrefixOf_iff_prefix.mpr h]
    rw [List.prefix_iff_eq_take] at h
    simp [← h]
  · have hf : lit.isPrefixOf s = false := by
      rw [Bool.eq_false_iff]; intro hc; exact h (List.isPrefixOf_iff_prefix.mp hc)
    rw [hf]
    rw [List.prefix_iff_eq_take] at h
    simp only [beq_eq_false_iff_ne, ne_eq]
    exact fun e => h e.symm

/-- The comparison does not depend on the order of the two strings. -/
theorem strncmp_eq_comm (a b : CStr) (n : Nat) : strncmp_eq a b n = strncmp_eq b a n := by
  unfold strncmp_eq
  exact Bool.beq_comm

/-- A text shorter than the buffer is stored whole. -/
theorem snprintf_fits (size : Nat) (s : CStr) (h : s.length < size) : snprintf size s = s := by
  unfold snprintf
  exact List.take_of_length_le (by omega)

/-- A path with a `/` has a text behind its last `/`. -/
theorem after_last_slash_of_mem (s : CStr) (h : '/' ∈ s) : ∃ name, after_last_slash s = some name := by
  induction s with
  | nil => simp at h
  | cons c s ih =>
    unfold after_last_slash
    cases hs : after_last_slash s with
    | some t => exact ⟨t, rfl⟩
    | none =>
      rcases List.mem_cons.mp h with h | h
      · exact ⟨s, by simp [← h]⟩
      · obtain ⟨n, hn⟩ := ih h
        rw [hn] at hs; cases hs

/-- A path under which `find_platform_device` finds a node has a `/`. -/
theorem find_platform_device_slash (names : List platform_node) (path : CStr)
    (pdev : platform_node) (h : find_platform_device names path = some pdev) : '/' ∈ path := by
  have hm := List.find?_some h
  unfold platform_match at hm
  simp only [Bool.and_eq_true, beq_iff_eq] at hm
  have := hm.1.2
  rw [List.getElem?_eq_some_iff] at this
  obtain ⟨hh, hv⟩ := this
  rw [← hv]
  exact List.getElem_mem _

/-- When `parse_gpt_block_device` returns NULL for an event whose path begins
with `/devices/` and lies under a platform node whose name fits the link
buffer, the links passed to `handle_device` hold the basename link. -/
theorem handle_block_basename_link (names : List platform_node) (install_id : CStr)
    (ue : uevent) (pdev : platform_node) (name : CStr)
    (hfind : find_platform_device names ue.path = some pdev)
    (hB : ("/dev/block/platform/".toList ++ pdev.name).length < 256)
    (hdev : "/devices/".toList <+: ue.path)
    (hgpt : parse_gpt_block_device install_id ue = none)
    (hname : after_last_slash ue.path = some name) (hle : name.length ≤ 64) :
    ∃ links, handle_block_device_event names install_id ue =
        [Call.make_dir "/dev/block/".toList 0o755,
         Call.handle_device
          { action := ue.action, devpath := "/dev/block/".toList ++ name, path := ue.path,
            block := true, major := ue.major, minor := ue.minor, links := some links }] ∧
      "/dev/block/platform/".toList ++ pdev.name ++ "/".toList ++ name ∈ links := by
  have hdev2 : strncmp_eq ue.path "/devices/".toList 9 = true := by
    have := strncmp_eq_literal ue.path "/devices/".toList
    rw [List.isPrefixOf_iff_prefix.mpr hdev] at this
    exact this
  have hlen : ¬ name.length > 64 := by omega
  have hfit : snprintf 96 ("/dev/block/".toList ++ name) = "/dev/block/".toList ++ name :=
    snprintf_fits _ _ (by simp; omega)
  refine ⟨(match ue.partition_name with
      | some p => ["/dev/block/platform/".toList ++ pdev.name ++ "/by-name/".toList ++ sanitize p]
      | none => []) ++
    (if ue.partition_num ≥ 0 then
      ["/dev/block/platform/".toList ++ pdev.name ++ "/by-num/p".toList ++
        fmt_d ue.partition_num]
     else []) ++
    ["/dev/block/platform/".toList ++ pdev.name ++ "/".toList ++ name], ?_, ?_⟩
  · simp only [handle_block_device_event, parse_device_name, hname, hlen, if_false, hgpt,
      Option.isNone_none, hdev2, Bool.and_self, if_true, parse_platform_block_device, hfind,
      snprintf_fits _ _ hB, hfit]
  · simp

/-- C7, amended. For a block event whose path begins with `/devices/` and
lies under a platform node with name `B`, with `/dev/block/platform/B`
shorter than 256 bytes, a partition name `N`, a partition number `n ≥ 0` and
`ro.boot.install_id` not set, `handle_block_device_event` drops the event
when the text behind the last `/` of the path is longer than 64 bytes, and
otherwise makes `/dev/block/` and calls `handle_device` with the node path
`/dev/block/` ++ basename and exactly the three links by-name, by-num and
basename under `/dev/block/platform/B`, in this order. -/
theorem handle_block_platform_links (names : List platform_node) (ue : uevent)
    (pdev : platform_node) (N : CStr)
    (hfind : find_platform_device names ue.path = some pdev)
    (hB : ("/dev/block/platform/".toList ++ pdev.name).length < 256)
    (hN : ue.partition_name = some N)
    (hn : 0 ≤ ue.partition_num)
    (hdev : "/devices/".toList <+: ue.path) :
    ∃ name, after_last_slash ue.path = some name ∧
      handle_block_device_event names [] ue =
        if 64 < name.length then []
        else
          [Call.make_dir "/dev/block/".toList 0o755,
           Call.handle_device
            { action := ue.action, devpath := "/dev/block/".toList ++ name, path := ue.path,
              block := true, major := ue.major, minor := ue.minor,
              links := some
                ["/dev/block/platform/".toList ++ pdev.name ++ "/by-name/".toList ++ sanitize N,
                 "/dev/block/platform/".toList ++ pdev.name ++ "/by-num/p".toList ++
                   Nat.toDigits 10 ue.partition_num.toNat,
                 "/dev/block/platform/".toList ++ pdev.name ++ "/".toList ++ name] }] := by
  obtain ⟨name, hname⟩ :=
    after_last_slash_of_mem ue.path (find_platform_device_slash names ue.path pdev hfind)
  refine ⟨name, hname, ?_⟩
  have hdev2 : strncmp_eq ue.path "/devices/".toList 9 = true := by
    have := strncmp_eq_literal ue.path "/devices/".toList
    rw [List.isPrefixOf_iff_prefix.mpr hdev] at this
    exact this
  by_cases hlen : 64 < name.length
  · simp [handle_block_device_event, parse_device_name, hname, hlen]
  · have hfit : snprintf 96 ("/dev/block/".toList ++ name) = "/dev/block/".toList ++ name :=
      snprintf_fits _ _ (by simp; omega)
    have hnn : ¬ ue.partition_num < 0 := by omega
    simp only [handle_block_device_event, parse_device_name, hname, hlen, if_false,
      parse_gpt_block_device, hN, List.length_nil, true_or, if_true, Option.isNone_none,
      hdev2, Bool.and_self, parse_platform_block_device, hfind, snprintf_fits _ _ hB,
      hfit, ge_iff_le, hn, fmt_d, hnn, gt_iff_lt]
    simp

/-- The amended C7 at scenario S1: the node `/dev/block/mmcblk0p3` with the
links `by-name/userdata`, `by-num/p3` and `mmcblk0p3` under
`/dev/block/platform/sdhci.1`. -/
theorem handle_block_platform_links_witness :
    handle_block_device_event
        (add_platform_device [] "/devices/platform/sdhci.1".toList) [] block_event_s1 =
      [Call.make_dir "/dev/block/".toList 0o755,
       Call.handle_device
        { action := "add".toList, devpath := "/dev/block/mmcblk0p3".toList,
          path := block_event_s1.path, block := true, major := 179, minor := 3,
          links := some
            ["/dev/block/platform/sdhci.1/by-name/userdata".toList,
             "/dev/block/platform/sdhci.1/by-num/p3".toList,
             "/dev/block/platform/sdhci.1/mmcblk0p3".toList] }] := by
  obtain ⟨name, hname, h⟩ := handle_block_platform_links
    (add_platform_device [] "/devices/platform/sdhci.1".toList) block_event_s1
    ⟨"sdhci.1".toList, "/devices/platform/sdhci.1".toList, 25⟩ "userdata".toList
    (by decide) (by decide) (by decide) (by decide) (by decide)
  have hn : name = "mmcblk0p3".toList :=
    Option.some.inj (hname.symm.trans (by decide))
  subst hn
  exact h.trans (by decide)

/-- C7, as stated, fails: the platform node `/bus/sdhci.1` is known, the
event path lies under it, the event has a partition name and a partition
number and `ro.boot.install_id` is not set, yet `handle_device` gets the
NULL links, since the path does not begin with `/devices/`. -/
theorem handle_block_no_links_outside_devices :
    find_platform_device (add_platform_device [] "/bus/sdhci.1".toList) block_event_bus.path =
      some ⟨"/bus/sdhci.1".toList, "/bus/sdhci.1".toList, 12⟩ ∧
    ("/dev/block/platform/".toList ++ "/bus/sdhci.1".toList).length < 256 ∧
    block_event_bus.partition_name = some "userdata".toList ∧
    0 ≤ block_event_bus.partition_num ∧
    handle_block_device_event (add_platform_device [] "/bus/sdhci.1".toList) []
        block_event_bus =
      [Call.make_dir "/dev/block/".toList 0o755,
       Call.handle_device
        { action := "add".toList, devpath := "/dev/block/mmcblk0p3".toList,
          path := "/bus/sdhci.1/block/mmcblk0p3".toList, block := true, major := 179,
          minor := 3, links := none }] := by
  decide

/-- C8 at the whole disk `mmcblk0` under the known platform node `sdhci.1`:
`parse_gpt_block_device` returns an empty array that is not NULL, so
`parse_platform_block_device` is not called and `handle_device` gets no
link; the link `/dev/block/platform/sdhci.1/mmcblk0` is missing. -/
theorem handle_block_whole_disk_no_links :
    find_platform_device (add_platform_device [] "/devices/platform/sdhci.1".toList)
        block_event_disk.path =
      some ⟨"sdhci.1".toList, "/devices/platform/sdhci.1".toList, 25⟩ ∧
    parse_gpt_block_device [] block_event_disk = some [] ∧
    handle_block_device_event (add_platform_device [] "/devices/platform/sdhci.1".toList) []
        block_event_disk =
      [Call.make_dir "/dev/block/".toList 0o755,
       Call.handle_device
        { action := "add".toList, devpath := "/dev/block/mmcblk0".toList,
          path := block_event_disk.path, block := true, major := 179,
          minor := 0, links := some [] }] := by
  decide

/-- C9. For a block event with the partition name `N`, when the value `I` of
`ro.boot.install_id` is not empty and is a head of `N`, every call of
`handle_device` that `handle_block_device_event` makes carries exactly the
one link `/dev/block/by-name/` ++ (`N` without `I`), whatever the platform
list holds; and the call is made whenever the text behind the last `/` of
the path has at most 64 bytes. -/
theorem handle_block_gpt_link (names : List platform_node) (install_id N : CStr)
    (ue : uevent) (hN : ue.partition_name = some N) (hI : install_id ≠ [])
    (hpre : install_id <+: N) :
    (∀ name, after_last_slash ue.path = some name → name.length ≤ 64 →
      handle_block_device_event names install_id ue =
        [Call.make_dir "/dev/block/".toList 0o755,
         Call.handle_device
          { action := ue.action, devpath := "/dev/block/".toList ++ name, path := ue.path,
            block := true, major := ue.major, minor := ue.minor,
            links := some ["/dev/block/by-name/".toList ++ N.drop install_id.length] }]) ∧
    (∀ args, Call.handle_device args ∈ handle_block_device_event names install_id ue →
      args.links = some ["/dev/block/by-name/".toList ++ N.drop install_id.length]) := by
  have hlen : ¬ install_id.length = 0 := fun h => hI (List.length_eq_zero.mp h)
  have hcmp : strncmp_eq install_id N install_id.length = true := by
    rw [strncmp_eq_comm, strncmp_eq_literal]
    exact List.isPrefixOf_iff_prefix.mpr hpre
  have hgpt : parse_gpt_block_device install_id ue =
      some ["/dev/block/by-name/".toList ++ N.drop install_id.length] := by
    simp [parse_gpt_block_device, hN, hlen, hcmp]
  constructor
  · intro name hname hle
    have hfit : snprintf 96 ("/dev/block/".toList ++ name) = "/dev/block/".toList ++ name :=
      snprintf_fits _ _ (by simp; omega)
    have : ¬ name.length > 64 := by omega
    simp only [handle_block_device_event, parse_device_name, hname, this, if_false, hgpt,
      hfit, Option.isNone_some, Bool.false_and]
    rfl
  · intro args hmem
    unfold handle_block_device_event at hmem
    cases hp : parse_device_name ue 64 with
    | none => simp [hp] at hmem
    | some name =>
      simp only [hp, hgpt, Option.isNone_some, Bool.false_and] at hmem
      simp at hmem
      rw [hmem]
      simp

/-- C9 at scenario S2: with `ro.boot.install_id=slotA_` the partition
`slotA_system` gets the one link `/dev/block/by-name/system`, although its
platform device `sdhci.1` is known. -/
theorem handle_block_gpt_link_witness :
    handle_block_device_event (add_platform_device [] "/devices/platform/sdhci.1".toList)
        "slotA_".toList block_event_s2 =
      [Call.make_dir "/dev/block/".toList 0o755,
       Call.handle_device
        { action := "add".toList, devpath := "/dev/block/mmcblk0p5".toList,
          path := block_event_s2.path, block := true, major := 179, minor := 5,
          links := some ["/dev/block/by-name/system".toList] }] :=
  ((handle_block_gpt_link (add_platform_device [] "/devices/platform/sdhci.1".toList)
    "slotA_".toList "slotA_system".toList block_event_s2 (by decide) (by decide)
    (by decide)).1 "mmcblk0p5".toList (by decide) (by decide)).trans (by decide)

/-- The calls made while the links are computed are no `handle_device`. -/
theorem symlink_calls_no_handle_device (names : List platform_node) (ue : uevent) :
    ∀ c ∈ (get_character_device_symlinks names ue).2, c.is_handle_device = false := by
  intro c hc
  unfold get_character_device_symlinks at hc
  split at hc
  · simp at hc
  · dsimp only at hc
    split_ifs at hc <;> simp at hc <;> simp [hc, Call.is_handle_device]

/-- The calls of `generic_finish` end with the call of `handle_device`. -/
theorem finish_plain (names : List platform_node) (ue : uevent) (devpath devpath2 : CStr)
    (h : devpath = devpath2) :
    ∃ pre links, generic_finish names ue devpath =
      pre ++ [Call.handle_device
        { action := ue.action, devpath := devpath2, path := ue.path, block := false,
          major := ue.major, minor := ue.minor, links := links }] ∧
      ∀ c ∈ pre, c.is_handle_device = false := by
  subst h
  exact ⟨(get_character_device_symlinks names ue).2,
    (get_character_device_symlinks names ue).1, rfl, symlink_calls_no_handle_device names ue⟩

/-- The same behind one `make_dir`. -/
theorem finish_cons (names : List platform_node) (ue : uevent) (dir devpath devpath2 : CStr)
    (h : devpath = devpath2) :
    ∃ pre links, Call.make_dir dir 0o755 :: generic_finish names ue devpath =
      pre ++ [Call.handle_device
        { action := ue.action, devpath := devpath2, path := ue.path, block := false,
          major := ue.major, minor := ue.minor, links := links }] ∧
      ∀ c ∈ pre, c.is_handle_device = false := by
  obtain ⟨pre, links, h1, h2⟩ := finish_plain names ue devpath devpath2 h
  refine ⟨Call.make_dir dir 0o755 :: pre, links, by rw [h1]; rfl, ?_⟩
  intro c hc
  rcases List.mem_cons.mp hc with rfl | hc
  · rfl
  · exact h2 c hc

/-- C10. For an event whose subsystem does not begin with `usb` and whose
path has the text `name` behind its last `/`: when `name` has at most 64
bytes `handle_generic_device_event` ends with the one call of
`handle_device`, with the node path of the table `generic_node_path`
(directory of the first matching subsystem head, `/dev/log/` without `log_`
for `misc`, `/dev/` otherwise, followed by the name); when `name` is longer
the event is dropped and no call is made. -/
theorem handle_generic_node_path (names : List platform_node) (ue : uevent) (name : CStr)
    (hsub : ¬ "usb".toList <+: ue.subsystem)
    (hname : after_last_slash ue.path = some name) :
    (name.length ≤ 64 →
      ∃ pre links, handle_generic_device_event names ue =
        pre ++ [Call.handle_device
          { action := ue.action, devpath := generic_node_path ue.subsystem name,
            path := ue.path, block := false, major := ue.major, minor := ue.minor,
            links := links }] ∧
        ∀ c ∈ pre, c.is_handle_device = false) ∧
    (64 < name.length → handle_generic_device_event names ue = []) := by
  constructor
  · intro hle
    have hlen : ¬ name.length > 64 := by omega
    have husb : strncmp_eq ue.subsystem "usb".toList 3 = false := by
      have := strncmp_eq_literal ue.subsystem "usb".toList
      rw [Bool.eq_false_iff]
      intro hc
      exact hsub (List.isPrefixOf_iff_prefix.mp (this ▸ hc))
    have hdrop : (name.drop 4).length ≤ 64 := by simp; omega
    have e1 : strncmp_eq ue.subsystem "graphics".toList 8 = _ := strncmp_eq_literal _ _
    have e2 : strncmp_eq ue.subsystem "drm".toList 3 = _ := strncmp_eq_literal _ _
    have e3 : strncmp_eq ue.subsystem "oncrpc".toList 6 = _ := strncmp_eq_literal _ _
    have e4 : strncmp_eq ue.subsystem "adsp".toList 4 = _ := strncmp_eq_literal _ _
    have e5 : strncmp_eq ue.subsystem "msm_camera".toList 10 = _ := strncmp_eq_literal _ _
    have e6 : strncmp_eq ue.subsystem "input".toList 5 = _ := strncmp_eq_literal _ _
    have e7 : strncmp_eq ue.subsystem "mtd".toList 3 = _ := strncmp_eq_literal _ _
    have e8 : strncmp_eq ue.subsystem "sound".toList 5 = _ := strncmp_eq_literal _ _
    have e9 : strncmp_eq ue.subsystem "misc".toList 4 = _ := strncmp_eq_literal _ _
    have e10 : strncmp_eq name "log_".toList 4 = _ := strncmp_eq_literal _ _
    have hfit : ∀ base : CStr, base.length ≤ 16 → ∀ n : CStr, n.length ≤ 64 →
        snprintf 96 (base ++ n) = base ++ n :=
      fun base hb n hn => snprintf_fits _ _ (by simp; omega)
    simp only [handle_generic_device_event, parse_device_name, hname, hlen, if_false, husb,
      Bool.false_eq_true, e1, e2, e3, e4, e5, e6, e7, e8, e9, e10, generic_node_path,
      generic_dirs, List.find?_cons, List.find?_nil]
    cases h1 : "graphics".toList.isPrefixOf ue.subsystem
    case true =>
      simp only [h1, Bool.false_eq_true, if_false, if_true]
      exact finish_cons names ue _ _ _ (hfit _ (by decide) _ hle)
    case false =>
    cases h2 : "drm".toList.isPrefixOf ue.subsystem
    case true =>
      simp only [h1, h2, Bool.false_eq_true, if_false, if_true]
      exact finish_cons names ue _ _ _ (hfit _ (by decide) _ hle)
    case false =>
    cases h3 : "oncrpc".toList.isPrefixOf ue.subsystem
    case true =>
      simp only [h1, h2, h3, Bool.false_eq_true, if_false, if_true]
      exact finish_cons names ue _ _ _ (hfit _ (by decide) _ hle)
    case false =>
    cases h4 : "adsp".toList.isPrefixOf ue.subsystem
    case true =>
      simp only [h1, h2, h3, h4, Bool.false_eq_true, if_false, if_true]
      exact finish_cons names ue _ _ _ (hfit _ (by decide) _ hle)
    case false =>
    cases h5 : "msm_camera".toList.isPrefixOf ue.subsystem
    case true =>
      simp only [h1, h2, h3, h4, h5, Bool.false_eq_true, if_false, if_true]
      exact finish_cons names ue _ _ _ (hfit _ (by decide) _ hle)
    case false =>
    cases h6 : "input".toList.isPrefixOf ue.subsystem
    case true =>
      simp only [h1, h2, h3, h4, h5, h6, Bool.false_eq_true, if_false, if_true]
      exact finish_cons names ue _ _ _ (hfit _ (by decide) _ hle)
    case false =>
    cases h7 : "mtd".toList.isPrefixOf ue.subsystem
    case true =>
      simp only [h1, h2, h3, h4, h5, h6, h7, Bool.false_eq_true, if_false, if_true]
      exact finish_cons names ue _ _ _ (hfit _ (by decide) _ hle)
    case false =>
    cases h8 : "sound".toList.isPrefixOf ue.subsystem
    case true =>
      simp only [h1, h2, h3, h4, h5, h6, h7, h8, Bool.false_eq_true, if_false, if_true]
      exact finish_cons names ue _ _ _ (hfit _ (by decide) _ hle)
    case false =>
    cases hm : ("misc".toList.isPrefixOf ue.subsystem && "log_".toList.isPrefixOf name)
    case true =>
      simp only [h1, h2, h3, h4, h5, h6, h7, h8, Bool.false_eq_true, if_false, if_true]
      exact finish_cons names ue _ _ _ (hfit _ (by decide) _ hdrop)
    case false =>
      simp only [h1, h2, h3, h4, h5, h6, h7, h8, Bool.false_eq_true, if_false]
      exact finish_plain names ue _ _ (hfit _ (by decide) _ hle)
  · intro hlt
    have : name.length > 64 := hlt
    simp [handle_generic_device_event, parse_device_name, hname, this]

/-- C10 at the `misc` device `log_main`: the node path of the table is
`/dev/log/main` and the calls end with `handle_device` on it; and the same
event with a name of 65 bytes is dropped. -/
theorem handle_generic_node_path_witness :
    generic_node_path "misc".toList "log_main".toList = "/dev/log/main".toList ∧
    (∃ pre links, handle_generic_device_event [] generic_event_log =
      pre ++ [Call.handle_device
        { action := "add".toList,
          devpath := generic_node_path "misc".toList "log_main".toList,
          path := "/devices/virtual/misc/log_main".toList, block := false,
          major := 10, minor := 61, links := links }] ∧
      ∀ c ∈ pre, c.is_handle_device = false) ∧
    handle_generic_device_event []
      { generic_event_log with path := '/' :: List.replicate 65 'a' } = [] :=
  ⟨by decide,
    (handle_generic_node_path [] generic_event_log "log_main".toList (by decide)
      (by decide)).1 (by decide),
    (handle_generic_node_path [] { generic_event_log with path := '/' :: List.replicate 65 'a' }
      (List.replicate 65 'a') (by decide) (by decide)).2 (by decide)⟩

/-! ### Node creation -/

/-- The calls that `handle_device` makes for one of the calls in a trace are
a part of the expanded trace. -/
theorem run_calls_contains (fnmatch : CStr → CStr → Bool) (dev_perms : List perms_)
    (sehandle : SeHandle) (calls : List Call) (a : DeviceArgs)
    (h : Call.handle_device a ∈ calls) :
    handle_device fnmatch dev_perms sehandle a <:+: run_calls fnmatch dev_perms sehandle calls := by
  obtain ⟨pre, post, rfl⟩ := List.append_of_mem h
  unfold run_calls
  rw [List.flatMap_append, List.flatMap_cons]
  exact ⟨_, _, (List.append_assoc _ _ _)⟩

/-- For the action `add` with a major and a minor number that are not
negative, `handle_device` makes the node: the calls of `make_device` around
`mknod` are a part of its calls. -/
theorem handle_device_node (fnmatch : CStr → CStr → Bool) (dev_perms : List perms_)
    (sehandle : SeHandle) (a : DeviceArgs) (hadd : a.action = "add".toList)
    (hmaj : 0 ≤ a.major) (hmin : 0 ≤ a.minor) :
    [Call.setegid (get_device_perm fnmatch dev_perms a.devpath).2.2,
     Call.mknod a.devpath
       ((get_device_perm fnmatch dev_perms a.devpath).1 |||
         (if a.block then S_IFBLK else S_IFCHR)) a.major a.minor,
     Call.chown a.devpath (get_device_perm fnmatch dev_perms a.devpath).2.1 gid_unchanged,
     Call.setegid AID_ROOT] <:+: handle_device fnmatch dev_perms sehandle a := by
  have hne : ¬ ("add".toList = "remove".toList) := by decide
  have hge : a.major ≥ 0 ∧ a.minor ≥ 0 := ⟨hmaj, hmin⟩
  simp only [handle_device, make_device, hadd, if_true, hge, and_self, hne, if_false,
    List.append_nil]
  exact ⟨_, _, by simp only [List.append_assoc]; rfl⟩

/-- The arguments `handle_block_device_event` passes to `handle_device`. -/
theorem block_handle_device_args (names : List platform_node) (install_id : CStr)
    (ue : uevent) (a : DeviceArgs)
    (h : Call.handle_device a ∈ handle_block_device_event names install_id ue) :
    a.action = ue.action ∧ a.block = true ∧ a.major = ue.major ∧ a.minor = ue.minor := by
  unfold handle_block_device_event at h
  split at h
  · simp at h
  · simp at h
    subst h
    exact ⟨rfl, rfl, rfl, rfl⟩

/-- The arguments `generic_finish` passes to `handle_device`. -/
theorem generic_finish_args (names : List platform_node) (ue : uevent) (devpath : CStr)
    (a : DeviceArgs) (h : Call.handle_device a ∈ generic_finish names ue devpath) :
    a.action = ue.action ∧ a.block = false ∧ a.major = ue.major ∧ a.minor = ue.minor := by
  unfold generic_finish at h
  rcases List.mem_append.mp h with h | h
  · have := symlink_calls_no_handle_device names ue _ h
    simp [Call.is_handle_device] at this
  · simp at h
    subst h
    exact ⟨rfl, rfl, rfl, rfl⟩

/-- A conditional keeps the shape of the calls of the generic handler. -/
theorem generic_shape_ite (names : List platform_node) (ue : uevent) (c : Prop)
    [Decidable c] (x y : List Call) (hx : generic_shape names ue x)
    (hy : generic_shape names ue y) : generic_shape names ue (if c then x else y) := by
  split_ifs
  · exact hx
  · exact hy

/-- The calls of `handle_generic_device_event` are none, or calls of `make_dir`
followed by the calls of `generic_finish`. -/
theorem handle_generic_shape (names : List platform_node) (ue : uevent) :
    generic_shape names ue (handle_generic_device_event names ue) := by
  have hnil : generic_shape names ue [] := Or.inl rfl
  have hone : ∀ d m devpath,
      generic_shape names ue (Call.make_dir d m :: generic_finish names ue devpath) :=
    fun d m devpath => Or.inr ⟨[Call.make_dir d m], devpath, rfl, by simp⟩
  have hplain : ∀ devpath, generic_shape names ue (generic_finish names ue devpath) :=
    fun devpath => Or.inr ⟨[], devpath, rfl, by simp⟩
  have hthree : ∀ d1 d2 d3 m devpath, generic_shape names ue
      ([Call.make_dir d1 m, Call.make_dir d2 m, Call.make_dir d3 m] ++
        generic_finish names ue devpath) :=
    fun d1 d2 d3 m devpath => Or.inr ⟨_, devpath, rfl, by simp⟩
  have husb : ∀ devpath, generic_shape names ue
      (usb_make_dirs devpath ++ generic_finish names ue devpath) := by
    intro devpath
    refine Or.inr ⟨usb_make_dirs devpath, devpath, rfl, ?_⟩
    intro c hc
    simp only [usb_make_dirs, List.mem_map] at hc
    obtain ⟨i, -, rfl⟩ := hc
    exact ⟨_, _, rfl⟩
  cases hp : parse_device_name ue 64 with
  | none => simp only [handle_generic_device_event, hp]; exact hnil
  | some name =>
    cases hd : ue.device_name with
    | none =>
      simp only [handle_generic_device_event, hp, hd]
      repeat' apply generic_shape_ite
      all_goals first
        | exact hnil
        | exact hone _ _ _
        | exact hplain _
        | exact hthree _ _ _ _ _
    | some dn =>
      simp only [handle_generic_device_event, hp, hd]
      repeat' apply generic_shape_ite
      all_goals first
        | exact hnil
        | exact hone _ _ _
        | exact hplain _
        | exact husb _

/-- The arguments `handle_generic_device_event` passes to `handle_device`. -/
theorem generic_handle_device_args (names : List platform_node) (ue : uevent) (a : DeviceArgs)
    (h : Call.handle_device a ∈ handle_generic_device_event names ue) :
    a.action = ue.action ∧ a.block = false ∧ a.major = ue.major ∧ a.minor = ue.minor := by
  rcases handle_generic_shape names ue with h0 | ⟨pre, devpath, h1, hpre⟩
  · rw [h0] at h; cases h
  · rw [h1] at h
    rcases List.mem_append.mp h with h | h
    · obtain ⟨p, m, hc⟩ := hpre _ h
      cases hc
    · exact generic_finish_args names ue devpath a h

/-- C11, amended. For an `add` event with `major >= 0` and `minor >= 0`, each
call of `handle_device` that the block handler or the generic handler makes
(with the node path `a.devpath` it has computed) issues `mknod` at that path
with the permission bits of `get_device_perm` or-ed with `S_IFBLK` for the
block handler and `S_IFCHR` for the generic one, between `setegid` of the gid
of `get_device_perm` and `chown` to its uid. -/
theorem handler_makes_node (fnmatch : CStr → CStr → Bool) (dev_perms : List perms_)
    (sehandle : SeHandle) (names : List platform_node) (install_id : CStr) (ue : uevent)
    (hadd : ue.action = "add".toList) (hmaj : 0 ≤ ue.major) (hmin : 0 ≤ ue.minor) :
    (∀ a, Call.handle_device a ∈ handle_block_device_event names install_id ue →
      [Call.setegid (get_device_perm fnmatch dev_perms a.devpath).2.2,
       Call.mknod a.devpath ((get_device_perm fnmatch dev_perms a.devpath).1 ||| S_IFBLK)
         ue.major ue.minor,
       Call.chown a.devpath (get_device_perm fnmatch dev_perms a.devpath).2.1 gid_unchanged,
       Call.setegid AID_ROOT] <:+:
        run_calls fnmatch dev_perms sehandle
          (handle_block_device_event names install_id ue)) ∧
    (∀ a, Call.handle_device a ∈ handle_generic_device_event names ue →
      [Call.setegid (get_device_perm fnmatch dev_perms a.devpath).2.2,
       Call.mknod a.devpath ((get_device_perm fnmatch dev_perms a.devpath).1 ||| S_IFCHR)
         ue.major ue.minor,
       Call.chown a.devpath (get_device_perm fnmatch dev_perms a.devpath).2.1 gid_unchanged,
       Call.setegid AID_ROOT] <:+:
        run_calls fnmatch dev_perms sehandle (handle_generic_device_event names ue)) := by
  constructor
  · intro a ha
    obtain ⟨h1, h2, h3, h4⟩ := block_handle_device_args names install_id ue a ha
    have hn := handle_device_node fnmatch dev_perms sehandle a (h1.trans hadd)
      (by rw [h3]; exact hmaj) (by rw [h4]; exact hmin)
    rw [h2, h3, h4] at hn
    exact List.IsInfix.trans hn (run_calls_contains fnmatch dev_perms sehandle _ a ha)
  · intro a ha
    obtain ⟨h1, h2, h3, h4⟩ := generic_handle_device_args names ue a ha
    have hn := handle_device_node fnmatch dev_perms sehandle a (h1.trans hadd)
      (by rw [h3]; exact hmaj) (by rw [h4]; exact hmin)
    rw [h2, h3, h4] at hn
    exact List.IsInfix.trans hn (run_calls_contains fnmatch dev_perms sehandle _ a ha)

/-- The amended C11 at scenario S1: the block node `/dev/block/mmcblk0p3` is
made with mode `060600`, major 179 and minor 3, as root. -/
theorem handler_makes_node_witness :
    [Call.setegid 0, Call.mknod "/dev/block/mmcblk0p3".toList 0o60600 179 3,
     Call.chown "/dev/block/mmcblk0p3".toList 0 gid_unchanged, Call.setegid 0] <:+:
      run_calls glob [] none
        (handle_block_device_event (add_platform_device [] "/devices/platform/sdhci.1".toList)
          [] block_event_s1) :=
  (handler_makes_node glob [] none (add_platform_device [] "/devices/platform/sdhci.1".toList)
    [] block_event_s1 (by decide) (by decide) (by decide)).1
    { action := "add".toList, devpath := "/dev/block/mmcblk0p3".toList,
      path := block_event_s1.path, block := true, major := 179, minor := 3,
      links := some
        ["/dev/block/platform/sdhci.1/by-name/userdata".toList,
         "/dev/block/platform/sdhci.1/by-num/p3".toList,
         "/dev/block/platform/sdhci.1/mmcblk0p3".toList] } (by decide)

/-- C11, as stated, fails: an `add` event of the `misc` subsystem with
`MAJOR=10` and no `MINOR` reaches `handle_device` with the node path
`/dev/foo`, and no `mknod` is issued: the only call is the property set. -/
theorem no_node_without_minor :
    generic_event_no_minor.action = "add".toList ∧ 0 ≤ generic_event_no_minor.major ∧
    handle_generic_device_event [] generic_event_no_minor =
      [Call.handle_device
        { action := "add".toList, devpath := "/dev/foo".toList,
          path := "/devices/virtual/misc/foo".toList, block := false, major := 10,
          minor := -1, links := none }] ∧
    run_calls glob [] none (handle_generic_device_event [] generic_event_no_minor) =
      [Call.property_set "ctl.dev_added".toList "/dev/foo".toList] := by
  decide

/-! ### Loading a module for a modalias -/

/-- The blacklist scan returns 0 exactly when no node has the name. -/
theorem is_module_blacklisted_loop_zero (name : CStr) (bl : List module_blacklist_node) :
    is_module_blacklisted_loop name bl = 0 ↔ ∀ b ∈ bl, name ≠ b.name := by
  induction bl with
  | nil => simp [is_module_blacklisted_loop]
  | cons b rest ih =>
    by_cases h : name = b.name
    · simp [is_module_blacklisted_loop, h]
    · simp [is_module_blacklisted_loop, h, ih]

/-- The loop of `load_module_by_device_modalias`: the insertions tried are
the candidates in list order, up to the first that succeeds. -/
theorem load_module_loop_spec (fnmatch : CStr → CStr → Bool) (insmod : List CStr → CStr → Int)
    (bl : List module_blacklist_node) (id : CStr) (aliases : List module_alias_node) :
    ∀ log : List CStr,
    ((load_module_loop fnmatch insmod bl id aliases log).1 = -1 ∧
      (load_module_loop fnmatch insmod bl id aliases log).2 =
        load_candidates fnmatch bl id aliases ∧
      all_fail insmod log (load_candidates fnmatch bl id aliases)) ∨
    (∃ pre n post, load_candidates fnmatch bl id aliases = pre ++ n :: post ∧
      (load_module_loop fnmatch insmod bl id aliases log).1 = 0 ∧
      (load_module_loop fnmatch insmod bl id aliases log).2 = pre ++ [n] ∧
      all_fail insmod log pre ∧ insmod (log ++ pre) n = 0) := by
  induction aliases with
  | nil => intro log; left; simp [load_module_loop, load_candidates, all_fail]
  | cons a rest ih =>
    intro log
    cases hn : a.name with
    | none =>
      rw [show load_candidates fnmatch bl id (a :: rest) = load_candidates fnmatch bl id rest
          by simp [load_candidates, load_candidate, List.filterMap_cons, hn],
        show load_module_loop fnmatch insmod bl id (a :: rest) log =
          load_module_loop fnmatch insmod bl id rest log by simp [load_module_loop, hn]]
      exact ih log
    | some name =>
      cases hp : a.pattern with
      | none =>
        rw [show load_candidates fnmatch bl id (a :: rest) = load_candidates fnmatch bl id rest
            by simp [load_candidates, load_candidate, List.filterMap_cons, hn, hp],
          show load_module_loop fnmatch insmod bl id (a :: rest) log =
            load_module_loop fnmatch insmod bl id rest log by simp [load_module_loop, hn, hp]]
        exact ih log
      | some pattern =>
        by_cases hm : fnmatch pattern id = true
        · by_cases hb : ∀ b ∈ bl, name ≠ b.name
          · have hb0 : is_module_blacklisted bl (some name) = 0 :=
              (is_module_blacklisted_loop_zero name bl).mpr hb
            have hcand : load_candidate fnmatch bl id a = some name := by
              simp only [load_candidate, hn, hp, hm, Bool.true_and]
              rw [if_pos (by simpa using hb)]
            have hc : load_candidates fnmatch bl id (a :: rest) =
                name :: load_candidates fnmatch bl id rest := by
              simp [load_candidates, List.filterMap_cons, hcand]
            by_cases hi : insmod log name = 0
            · right
              refine ⟨[], name, load_candidates fnmatch bl id rest, by rw [hc]; rfl, ?_, ?_,
                trivial, by simpa using hi⟩
              · simp [load_module_loop, hn, hp, hm, hb0, hi]
              · simp [load_module_loop, hn, hp, hm, hb0, hi]
            · have hl1 : (load_module_loop fnmatch insmod bl id (a :: rest) log).1 =
                  (load_module_loop fnmatch insmod bl id rest (log ++ [name])).1 := by
                simp [load_module_loop, hn, hp, hm, hb0, hi]
              have hl2 : (load_module_loop fnmatch insmod bl id (a :: rest) log).2 =
                  name :: (load_module_loop fnmatch insmod bl id rest (log ++ [name])).2 := by
                simp [load_module_loop, hn, hp, hm, hb0, hi]
              rcases ih (log ++ [name]) with ⟨h1, h2, h3⟩ | ⟨pre, n, post, h1, h2, h3, h4, h5⟩
              · left
                rw [hc, hl1, hl2, h2]
                exact ⟨h1, rfl, hi, h3⟩
              · right
                refine ⟨name :: pre, n, post, by rw [hc, h1]; rfl, by rw [hl1, h2],
                  by rw [hl2, h3]; rfl, ⟨hi, h4⟩, ?_⟩
                rw [← h5]; simp
          · have hb1 : is_module_blacklisted bl (some name) ≠ 0 :=
              fun h0 => hb ((is_module_blacklisted_loop_zero name bl).mp h0)
            have hcand : load_candidate fnmatch bl id a = none := by
              simp only [load_candidate, hn, hp, hm, Bool.true_and]
              rw [if_neg (by simpa using hb)]
            rw [show load_candidates fnmatch bl id (a :: rest) =
                load_candidates fnmatch bl id rest
                by simp [load_candidates, List.filterMap_cons, hcand],
              show load_module_loop fnmatch insmod bl id (a :: rest) log =
                load_module_loop fnmatch insmod bl id rest log
                by simp [load_module_loop, hn, hp, hm, hb1]]
            exact ih log
        · rw [show load_candidates fnmatch bl id (a :: rest) =
              load_candidates fnmatch bl id rest by simp [load_candidates, load_candidate, List.filterMap_cons, hn, hp, hm],
            show load_module_loop fnmatch insmod bl id (a :: rest) log =
              load_module_loop fnmatch insmod bl id rest log
              by simp [load_module_loop, hn, hp, hm]]
          exact ih log

/-- C12. `load_module_by_device_modalias` returns -1 and makes no call for a
NULL id. On an id it returns -1 when every
insertion of a candidate (an alias whose pattern matches the id and whose
module is not blacklisted) fails, and then `insmod_by_dep` has been called on
all candidates in table order; it returns 0 when some candidate's insertion
succeeds, and then `insmod_by_dep` has been called on the candidates before
the first success, which all failed, and on that one, and on no other. -/
theorem load_module_by_device_modalias_spec (fnmatch : CStr → CStr → Bool)
    (insmod : List CStr → CStr → Int) (st : ModState) (id : CStr) :
    load_module_by_device_modalias fnmatch insmod st none = (-1, st) ∧
    (((load_module_by_device_modalias fnmatch insmod st (some id)).1 = -1 ∧
      (load_module_by_device_modalias fnmatch insmod st (some id)).2.insmod_log =
        st.insmod_log ++
          load_candidates fnmatch st.modules_blacklist id st.modules_aliases_map ∧
      all_fail insmod st.insmod_log
        (load_candidates fnmatch st.modules_blacklist id st.modules_aliases_map)) ∨
    (∃ pre n post,
      load_candidates fnmatch st.modules_blacklist id st.modules_aliases_map =
        pre ++ n :: post ∧
      (load_module_by_device_modalias fnmatch insmod st (some id)).1 = 0 ∧
      (load_module_by_device_modalias fnmatch insmod st (some id)).2.insmod_log =
        st.insmod_log ++ (pre ++ [n]) ∧
      all_fail insmod st.insmod_log pre ∧ insmod (st.insmod_log ++ pre) n = 0)) := by
  refine ⟨rfl, ?_⟩
  rcases load_module_loop_spec fnmatch insmod st.modules_blacklist id st.modules_aliases_map
      st.insmod_log with ⟨h1, h2, h3⟩ | ⟨pre, n, post, h1, h2, h3, h4, h5⟩
  · left
    exact ⟨h1, by simp only [load_module_by_device_modalias, h2], h3⟩
  · right
    exact ⟨pre, n, post, h1, h2, by simp only [load_module_by_device_modalias, h3], h4, h5⟩

/-! ### The deferred queue -/

/-- The function `load_module_by_device_modalias` changes neither the alias
list nor the deferred list. -/
theorem load_module_keeps_lists (fnmatch : CStr → CStr → Bool)
    (insmod : List CStr → CStr → Int) (st : ModState) (id : Option CStr) :
    (load_module_by_device_modalias fnmatch insmod st id).2.modules_aliases_map =
      st.modules_aliases_map ∧
    (load_module_by_device_modalias fnmatch insmod st id).2.modules_blacklist =
      st.modules_blacklist ∧
    (load_module_by_device_modalias fnmatch insmod st id).2.deferred_module_loading_list =
      st.deferred_module_loading_list := by
  cases id <;> exact ⟨rfl, rfl, rfl⟩

/-- The loop of `handle_deferred_module_loading` empties a list whose nodes
all have a pattern, and keeps the alias list. -/
theorem handle_deferred_loop_spec (fnmatch : CStr → CStr → Bool)
    (insmod : List CStr → CStr → Int) (deferred : List module_alias_node) :
    ∀ st : ModState, (∀ d ∈ deferred, d.pattern ≠ none) →
      (handle_deferred_loop fnmatch insmod deferred st).1 = [] ∧
      (handle_deferred_loop fnmatch insmod deferred st).2.modules_aliases_map =
        st.modules_aliases_map := by
  induction deferred with
  | nil => intro st _; exact ⟨rfl, rfl⟩
  | cons d rest ih =>
    intro st h
    cases hp : d.pattern with
    | none => exact absurd hp (h d (List.mem_cons_self _ _))
    | some pattern =>
      have := ih (load_module_by_device_modalias fnmatch insmod st (some pattern)).2
        (fun x hx => h x (List.mem_cons_of_mem _ hx))
      simp only [handle_deferred_loop, hp]
      exact ⟨this.1, this.2.trans (load_module_keeps_lists fnmatch insmod st _).1⟩

/-- The function `read_modules_aliases` keeps the deferred list, and changes
nothing when it fails. -/
theorem read_modules_aliases_spec (files : ModFiles) (st : ModState) :
    (read_modules_aliases files st).2.deferred_module_loading_list =
      st.deferred_module_loading_list ∧
    ((read_modules_aliases files st).1 ≠ 0 → (read_modules_aliases files st).2 = st) := by
  unfold read_modules_aliases
  cases files.alias_file with
  | none => exact ⟨rfl, fun _ => rfl⟩
  | some tokens => exact ⟨rfl, fun h => absurd rfl h⟩

/-- The function `read_modules_blacklist` keeps the alias list and the
deferred list. -/
theorem read_modules_blacklist_spec (files : ModFiles) (st : ModState) :
    (read_modules_blacklist files st).2.modules_aliases_map = st.modules_aliases_map ∧
    (read_modules_blacklist files st).2.deferred_module_loading_list =
      st.deferred_module_loading_list := by
  unfold read_modules_blacklist
  cases files.blacklist_file <;> exact ⟨rfl, rfl⟩

/-- The first part of `handle_module_loading` keeps the invariant. -/
theorem handle_module_loading_read_invariant (fnmatch : CStr → CStr → Bool)
    (insmod : List CStr → CStr → Int) (files : ModFiles) (st : ModState)
    (h : hml_invariant st) :
    hml_invariant (handle_module_loading_read fnmatch insmod files st) := by
  unfold handle_module_loading_read
  obtain ⟨hd1, hfail⟩ := read_modules_aliases_spec files st
  by_cases ha : st.modules_aliases_map = []
  · rw [if_pos ha]
    by_cases hr : (read_modules_aliases files st).1 = 0
    · rw [if_pos hr]
      generalize (read_modules_aliases files st).2 = s1 at hd1
      obtain ⟨-, hb2⟩ := read_modules_blacklist_spec files s1
      generalize (read_modules_blacklist files s1).2 = s2 at hb2
      have hpat : ∀ d ∈ s2.deferred_module_loading_list, d.pattern ≠ none := by
        rw [hb2, hd1]; exact h.1
      unfold handle_deferred_module_loading
      by_cases hne : s2.modules_aliases_map ≠ []
      · rw [if_pos hne]
        have := handle_deferred_loop_spec fnmatch insmod s2.deferred_module_loading_list s2 hpat
        exact ⟨by simp [this.1], fun _ => this.1⟩
      · rw [if_neg hne]
        exact ⟨hpat, fun hc => absurd hc hne⟩
    · rw [if_neg hr, hfail hr]
      exact h
  · rw [if_neg ha]
    exact h

/-- The function `handle_module_loading` keeps the invariant. -/
theorem handle_module_loading_invariant (fnmatch : CStr → CStr → Bool)
    (insmod : List CStr → CStr → Int) (files : ModFiles) (st : ModState)
    (modalias : Option CStr) (h : hml_invariant st) :
    hml_invariant (handle_module_loading fnmatch insmod files st modalias) := by
  have h1 := handle_module_loading_read_invariant fnmatch insmod files st h
  unfold handle_module_loading
  generalize handle_module_loading_read fnmatch insmod files st = s1 at h1
  cases modalias with
  | none => exact h1
  | some m =>
    by_cases ha : s1.modules_aliases_map = []
    · simp only [ha, if_true]
      refine ⟨?_, fun hc => absurd rfl hc⟩
      intro d hd
      rcases List.mem_append.mp hd with hd | hd
      · exact h1.1 d hd
      · rw [List.mem_singleton.mp hd]; simp
    · simp only [ha, if_false]
      obtain ⟨k1, -, k3⟩ := load_module_keeps_lists fnmatch insmod s1 (some m)
      unfold hml_invariant
      rw [k1, k3]
      exact h1

/-- The invariant holds in every state that calls of `handle_module_loading`
reach. -/
theorem hml_reachable_invariant (fnmatch : CStr → CStr → Bool)
    (insmod : List CStr → CStr → Int) (st : ModState)
    (h : hml_reachable fnmatch insmod st) : hml_invariant st := by
  induction h with
  | init => exact ⟨by simp [ModState.init], fun _ => rfl⟩
  | step st files modalias _ ih =>
    exact handle_module_loading_invariant fnmatch insmod files st modalias ih

/-- C13, amended. In every state reached from the initial one by calls of
`handle_module_loading`, whatever the description files hold at each call and
whatever `insmod_by_dep` returns, the deferred list is empty whenever the
alias list is not empty. -/
theorem deferred_empty_once_aliases_loaded (fnmatch : CStr → CStr → Bool)
    (insmod : List CStr → CStr → Int) (st : ModState)
    (h : hml_reachable fnmatch insmod st) (ha : st.modules_aliases_map ≠ []) :
    st.deferred_module_loading_list = [] :=
  (hml_reachable_invariant fnmatch insmod st h).2 ha

/-- The amended C13 after two calls: the first, with unreadable files, queues
the modalias; the second reads the alias `foo` and empties the queue. -/
theorem deferred_empty_once_aliases_loaded_witness :
    (handle_module_loading glob insmod_ok files_foo
      (handle_module_loading glob insmod_ok files_unreadable ModState.init
        (some "pci:v00001234d00005678".toList)) none).deferred_module_loading_list = [] :=
  deferred_empty_once_aliases_loaded glob insmod_ok _
    (hml_reachable.step _ _ _ (hml_reachable.step _ _ _ hml_reachable.init)) (by decide)

/-- C13, as stated, fails. A modalias is queued while the files cannot be
read. Then a read of an empty `modules.alias` succeeds (returns 0) in
`handle_module_loading` and the queue is kept; and a read of `modules.alias`
succeeds inside `module_probe`, which does not drain, after which
`handle_module_loading` finds the alias list filled and keeps the queue. -/
theorem deferred_queue_not_drained :
    (handle_module_loading glob insmod_ok files_unreadable ModState.init
      (some "pci:v00001234d00005678".toList)).deferred_module_loading_list =
      [⟨none, some "pci:v00001234d00005678".toList⟩] ∧
    (read_modules_aliases files_empty
      (handle_module_loading glob insmod_ok files_unreadable ModState.init
        (some "pci:v00001234d00005678".toList))).1 = 0 ∧
    (handle_module_loading glob insmod_ok files_empty
      (handle_module_loading glob insmod_ok files_unreadable ModState.init
        (some "pci:v00001234d00005678".toList)) none).deferred_module_loading_list =
      [⟨none, some "pci:v00001234d00005678".toList⟩] ∧
    (read_modules_aliases files_foo
      (handle_module_loading glob insmod_ok files_unreadable ModState.init
        (some "pci:v00001234d00005678".toList))).1 = 0 ∧
    (handle_module_loading glob insmod_ok files_foo
      (module_probe glob insmod_ok files_foo
        (handle_module_loading glob insmod_ok files_unreadable ModState.init
          (some "pci:v00001234d00005678".toList)) (some "usb:x".toList)).2
      none).deferred_module_loading_list =
      [⟨none, some "pci:v00001234d00005678".toList⟩] := by
  decide

/-! ### The firmware handshake -/

/-- The writes to `loading` of two traces in a row. -/
theorem loading_writes_append (a b : List Call) :
    loading_writes (a ++ b) = loading_writes a ++ loading_writes b := by
  induction a with
  | nil => rfl
  | cons c a ih => cases c <;> simp [loading_writes, ih]

/-- The inner loop of `load_firmware` ends: with all bytes accepted, or at a
write that returns 0 or less. It writes nothing to `loading`. -/
theorem load_firmware_write_spec (writes : Nat → Int) (buf : List Char) :
    ∀ (fuel : Nat) (nr : Int) (k : Nat), nr ≤ fuel →
      ∃ ok k1 calls, load_firmware_write writes buf fuel nr k = Run.done (ok, k1, calls) ∧
        loading_writes calls = [] ∧
        (ok = true → ∀ c ∈ calls, c.is_failure = false) := by
  intro fuel
  induction fuel with
  | zero =>
    intro nr k h
    have : nr ≤ 0 := by simpa using h
    exact ⟨true, k, [], by simp [load_firmware_write, this], rfl, by simp⟩
  | succ fuel ih =>
    intro nr k h
    by_cases hnr : nr ≤ 0
    · exact ⟨true, k, [], by simp [load_firmware_write, hnr], rfl, by simp⟩
    · by_cases hw : writes k ≤ 0
      · exact ⟨false, k + 1, [Call.write_data (buf.take nr.toNat) (writes k)],
          by simp [load_firmware_write, hnr, hw], rfl, by simp⟩
      · obtain ⟨ok, k1, calls, h1, h2, h3⟩ := ih (nr - writes k) (k + 1) (by push_cast at h; omega)
        refine ⟨ok, k1, Call.write_data (buf.take nr.toNat) (writes k) :: calls, ?_, ?_, ?_⟩
        · simp [load_firmware_write, hnr, hw, h1]
        · simp [loading_writes, h2]
        · intro hok c hc
          rcases List.mem_cons.mp hc with rfl | hc
          · simp [Call.is_failure, hw]
          · exact h3 hok c hc

/-- The outer loop of `load_firmware` ends with 0 or -1, writes nothing to
`loading`, and ends with 0 only when no read and no write has failed. -/
theorem load_firmware_copy_spec (fw : FwFile) (writes : Nat → Int) :
    ∀ (fuel : Nat) (len : Int) (i k : Nat), len ≤ fuel →
      ∃ ret calls, load_firmware_copy fw writes fuel len i k = Run.done (ret, calls) ∧
        loading_writes calls = [] ∧ (ret = 0 ∨ ret = -1) ∧
        (ret = 0 → ∀ c ∈ calls, c.is_failure = false) := by
  intro fuel
  induction fuel with
  | zero =>
    intro len i k h
    have : len ≤ 0 := by simpa using h
    exact ⟨0, [], by simp [load_firmware_copy, this], rfl, Or.inl rfl, by simp⟩
  | succ fuel ih =>
    intro len i k h
    by_cases hlen : len ≤ 0
    · exact ⟨0, [], by simp [load_firmware_copy, hlen], rfl, Or.inl rfl, by simp⟩
    · cases hr : fw.reads i with
      | none =>
        exact ⟨-1, [Call.read_fw none], by simp [load_firmware_copy, hlen, hr], rfl,
          Or.inr rfl, by simp⟩
      | some buf =>
        by_cases hb : buf.length = 0
        · exact ⟨0, [Call.read_fw (some buf)], by simp [load_firmware_copy, hlen, hr, hb], rfl,
            Or.inl rfl, by simp [Call.is_failure]⟩
        · obtain ⟨ok, k1, wcalls, hw1, hw2, hw3⟩ :=
            load_firmware_write_spec writes buf buf.length buf.length k (le_refl _)
          cases ok with
          | false =>
            refine ⟨-1, Call.read_fw (some buf) :: wcalls, ?_, ?_, Or.inr rfl, by simp⟩
            · simp [load_firmware_copy, hlen, hr, hb, hw1]
            · simp [loading_writes, hw2]
          | true =>
            have hpos : 0 < buf.length := Nat.pos_of_ne_zero hb
            obtain ⟨ret, rest, hc1, hc2, hc3, hc4⟩ :=
              ih (len - buf.length) (i + 1) k1 (by push_cast at h; omega)
            refine ⟨ret, Call.read_fw (some buf) :: (wcalls ++ rest), ?_, ?_, hc3, ?_⟩
            · simp [load_firmware_copy, hlen, hr, hb, hw1, hc1]
            · simp [loading_writes, loading_writes_append, hw2, hc2]
            · intro h0 c hc
              rcases List.mem_cons.mp hc with rfl | hc
              · simp [Call.is_failure]
              · rcases List.mem_append.mp hc with hc | hc
                · exact hw3 rfl c hc
                · exact hc4 h0 c hc

/-- The function `load_firmware` ends: with -1 and no call when `fstat`
fails, with 0 after `1` and `0` on `loading`, or with -1 after `1` and `-1`. -/
theorem load_firmware_spec (fw : FwFile) (writes : Nat → Int) :
    ∃ ret calls, load_firmware fw writes = Run.done (ret, calls) ∧
      ((ret = -1 ∧ calls = []) ∨
       (ret = 0 ∧ ∃ mid, calls = Call.write_loading "1".toList ::
          (mid ++ [Call.write_loading "0".toList]) ∧ loading_writes mid = [] ∧
          ∀ c ∈ mid, c.is_failure = false) ∨
       (ret = -1 ∧ ∃ mid, calls = Call.write_loading "1".toList ::
          (mid ++ [Call.write_loading "-1".toList]) ∧ loading_writes mid = [])) := by
  cases hs : fw.fstat with
  | none => exact ⟨-1, [], by simp [load_firmware, hs], Or.inl ⟨rfl, rfl⟩⟩
  | some st_size =>
    obtain ⟨ret, mid, h1, h2, h3, h4⟩ :=
      load_firmware_copy_spec fw writes st_size.toNat st_size 0 0 (Int.self_le_toNat _)
    rcases h3 with rfl | rfl
    · exact ⟨0, _, by simp [load_firmware, hs, h1], Or.inr (Or.inl ⟨rfl, mid, rfl, h2, h4 rfl⟩)⟩
    · exact ⟨-1, _, by simp [load_firmware, hs, h1], Or.inr (Or.inr ⟨rfl, mid, rfl, h2⟩)⟩

/-- C15, amended. `load_firmware` always returns, and whenever a read of the
firmware file fails or a write to `data` returns 0 or less, it returns -1 and
its last call writes `-1` to `loading`. -/
theorem load_firmware_failure (fw : FwFile) (writes : Nat → Int) :
    ∃ ret calls, load_firmware fw writes = Run.done (ret, calls) ∧
      ((∃ c ∈ calls, c.is_failure = true) →
        ret = -1 ∧ calls.getLast? = some (Call.write_loading "-1".toList)) := by
  obtain ⟨ret, calls, h, hc⟩ := load_firmware_spec fw writes
  refine ⟨ret, calls, h, ?_⟩
  rintro ⟨c, hmem, hfail⟩
  rcases hc with ⟨-, rfl⟩ | ⟨-, mid, rfl, -, hmid⟩ | ⟨hr, mid, rfl, -⟩
  · simp at hmem
  · exfalso
    rcases List.mem_cons.mp hmem with rfl | hmem
    · simp [Call.is_failure] at hfail
    · rcases List.mem_append.mp hmem with hmem | hmem
      · rw [hmid c hmem] at hfail; cases hfail
      · rw [List.mem_singleton.mp hmem] at hfail
        simp [Call.is_failure] at hfail
  · refine ⟨hr, ?_⟩
    rw [← List.cons_append, List.getLast?_append]
    rfl

/-- The amended C15 at a file of two bytes whose first write returns 0: the
result is -1 and the last call writes `-1`. -/
theorem load_firmware_failure_witness :
    ∃ ret calls, load_firmware fw_ab (fun _ => 0) = Run.done (ret, calls) ∧
      ret = -1 ∧ calls.getLast? = some (Call.write_loading "-1".toList) := by
  obtain ⟨ret, calls, h, himp⟩ := load_firmware_failure fw_ab (fun _ => 0)
  have heval : load_firmware fw_ab (fun _ => 0) =
      Run.done (-1, [Call.write_loading "1".toList, Call.read_fw (some ['a', 'b']),
        Call.write_data ['a', 'b'] 0, Call.write_loading "-1".toList]) := by decide
  have hcalls : calls = [Call.write_loading "1".toList, Call.read_fw (some ['a', 'b']),
      Call.write_data ['a', 'b'] 0, Call.write_loading "-1".toList] := by
    rw [heval] at h
    injection h with h
    injection h with h1 h2
    exact h2.symm
  exact ⟨ret, calls, h, himp ⟨Call.write_data ['a', 'b'] 0, by rw [hcalls]; decide, by decide⟩⟩

/-- C15, as stated, fails: the first write of two bytes accepts one byte (a
short write); `load_firmware` writes again, returns 0 and writes `0` to
`loading`. -/
theorem load_firmware_short_write_retried :
    load_firmware fw_ab (fun _ => 1) =
      Run.done (0, [Call.write_loading "1".toList, Call.read_fw (some ['a', 'b']),
        Call.write_data ['a', 'b'] 1, Call.write_data ['a'] 1,
        Call.write_loading "0".toList]) := by
  decide

/-- The passes of `try_loading_again` end with one of four sequences written
to `loading`, or go on for ever while no firmware file can be opened. -/
theorem process_firmware_tries_spec (file1 file2 file3 : CStr) (writes : Nat → Int)
    (tries : List FwTry) : ∀ booting : Bool,
    (∃ calls, process_firmware_tries file1 file2 file3 writes booting tries = Run.done calls ∧
      (loading_writes calls = [] ∨ loading_writes calls = ["-1".toList] ∨
        loading_writes calls = ["1".toList, "0".toList] ∨
        loading_writes calls = ["1".toList, "-1".toList])) ∨
    (process_firmware_tries file1 file2 file3 writes booting tries = Run.nofuel ∧
      ∀ t ∈ tries, t.open_fw file1 = none ∧ t.open_fw file2 = none ∧
        t.open_fw file3 = none) := by
  induction tries with
  | nil => intro booting; right; exact ⟨rfl, by simp⟩
  | cons t rest ih =>
    intro booting
    cases ho : (t.open_fw file1).orElse fun _ =>
        (t.open_fw file2).orElse fun _ => t.open_fw file3 with
    | some fw =>
      left
      obtain ⟨ret, calls, h, hc⟩ := load_firmware_spec fw writes
      refine ⟨calls, by simp only [process_firmware_tries, ho, h], ?_⟩
      rcases hc with ⟨-, rfl⟩ | ⟨-, mid, rfl, hm, -⟩ | ⟨-, mid, rfl, hm⟩
      · left; rfl
      · right; right; left
        simp [loading_writes, loading_writes_append, hm]
      · right; right; right
        simp [loading_writes, loading_writes_append, hm]
    | none =>
      have hnone : t.open_fw file1 = none ∧ t.open_fw file2 = none ∧ t.open_fw file3 = none := by
        cases h1 : t.open_fw file1 <;> cases h2 : t.open_fw file2 <;>
          cases h3 : t.open_fw file3 <;> simp_all [Option.orElse]
      cases booting with
      | false =>
        left
        exact ⟨[Call.write_loading "-1".toList],
          by simp only [process_firmware_tries, ho]; rfl, Or.inr (Or.inl rfl)⟩
      | true =>
        rcases ih t.booting with ⟨calls, h, hc⟩ | ⟨h, hall⟩
        · left
          refine ⟨Call.usleep 100000 :: calls, ?_, ?_⟩
          · simp only [process_firmware_tries, ho, h]; rfl
          · simpa [loading_writes] using hc
        · right
          refine ⟨by simp only [process_firmware_tries, ho, h]; rfl, ?_⟩
          intro t1 ht1
          rcases List.mem_cons.mp ht1 with rfl | ht1
          · exact hnone
          · exact hall t1 ht1

/-- In each of the four sequences every `1` is followed by exactly one more
entry, `0` or `-1`. -/
theorem four_cases_handshake (ws : List CStr)
    (h : ws = [] ∨ ws = ["-1".toList] ∨ ws = ["1".toList, "0".toList] ∨
      ws = ["1".toList, "-1".toList]) :
    ∀ pre post, ws = pre ++ "1".toList :: post →
      post = ["0".toList] ∨ post = ["-1".toList] := by
  intro pre post heq
  rcases h with rfl | rfl | rfl | rfl
  · simp at heq
  · rcases pre with _ | ⟨p, pre⟩
    · simp at heq
    · simp at heq
  · rcases pre with _ | ⟨p, _ | ⟨p2, pre⟩⟩
    · simp at heq; left; simpa using heq.symm
    · simp at heq
    · simp at heq
  · rcases pre with _ | ⟨p, _ | ⟨p2, pre⟩⟩
    · simp at heq; right; simpa using heq.symm
    · simp at heq
    · simp at heq

/-- C14. In every run of `process_firmware_event`, whatever `fstat`, `read`
and `write` return and whichever files can be opened, the run ends and each
`1` written to the file `loading` is followed by exactly one more write to
it, of `0` or of `-1`; the only run that does not end sleeps and retries for
ever while no firmware file can be opened, having written nothing. -/
theorem firmware_handshake (i386 booting : Bool) (open_wr : CStr → Bool)
    (writes : Nat → Int) (ue : uevent) (tries : List FwTry) :
    (∃ calls, process_firmware_event i386 booting open_wr writes ue tries = Run.done calls ∧
      ∀ pre post, loading_writes calls = pre ++ "1".toList :: post →
        post = ["0".toList] ∨ post = ["-1".toList]) ∨
    (process_firmware_event i386 booting open_wr writes ue tries = Run.nofuel ∧
      ∀ t ∈ tries,
        t.open_fw (FIRMWARE_DIR1 i386 ++ "/".toList ++ ue.firmware) = none ∧
        t.open_fw ("/vendor/firmware/".toList ++ ue.firmware) = none ∧
        t.open_fw ("/firmware/image/".toList ++ ue.firmware) = none) := by
  unfold process_firmware_event
  dsimp only
  split_ifs
  · exact Or.inl ⟨[], rfl, four_cases_handshake _ (Or.inl rfl)⟩
  · exact Or.inl ⟨[], rfl, four_cases_handshake _ (Or.inl rfl)⟩
  · rcases process_firmware_tries_spec (FIRMWARE_DIR1 i386 ++ "/".toList ++ ue.firmware)
        ("/vendor/firmware/".toList ++ ue.firmware)
        ("/firmware/image/".toList ++ ue.firmware) writes tries booting with
      ⟨calls, h, hc⟩ | ⟨h, hall⟩
    · exact Or.inl ⟨calls, h, four_cases_handshake _ hc⟩
    · exact Or.inr ⟨h, hall⟩

/-! ### Over-long sysfs paths -/

set_option maxRecDepth 100000 in
/-- C16 fails at two rules for `/devices/x`: the first has an attribute of 500
bytes, so its composed path exceeds the buffer; the second, with the
attribute `power`, matches and fits, yet `fixup_sys_perms` makes no call,
since it returns at the first rule. With the two rules in the other order
the rule `power` is applied. -/
theorem fixup_sys_perms_stops_at_long_path :
    sys_rule_matches glob "/devices/x".toList
      ⟨"/sys/devices/x".toList, some "power".toList, 0o664, 1000, 1000, 0⟩ = true ∧
    "/devices/x".toList.length + "power".toList.length + 6 ≤ 512 ∧
    fixup_sys_perms glob sys_rules_long_short "/devices/x".toList = some [] ∧
    fixup_sys_perms glob sys_rules_long_short.reverse "/devices/x".toList =
      some [Call.chown "/sys/devices/x/power".toList 1000 1000,
            Call.chmod "/sys/devices/x/power".toList 0o664] := by
  decide

/-! ### Fields that are absent from the message -/

/-- A text without NUL that lies in `bytes` followed by a NUL lies in
`bytes`. -/
theorem infix_before_NUL (k bytes : List Char) (hk : NUL ∉ k)
    (h : k <:+: bytes ++ [NUL]) : k <:+: bytes := by
  rcases List.infix_concat_iff.mp h with hs | hi
  · rcases List.suffix_concat_iff.mp hs with rfl | ⟨t, rfl, -⟩
    · exact List.nil_infix
    · exact absurd (by simp) hk
  · exact hi

/-- Each record lies in the message of the records. -/
theorem record_infix_msg (recs : List CStr) (r : CStr) (hr : r ∈ recs) :
    r <:+: uevent_msg recs := by
  obtain ⟨a, b, rfl⟩ := List.append_of_mem hr
  refine ⟨uevent_msg a, NUL :: uevent_msg b, ?_⟩
  simp [uevent_msg]

/-- No record begins with the key: there is no value. -/
theorem last_value_none (key : CStr) (recs : List CStr)
    (h : ∀ r ∈ recs, key.isPrefixOf r = false) : last_value key recs = none := by
  unfold last_value
  rw [Option.map_eq_none', List.find?_eq_none]
  intro r hr
  rw [h r (List.mem_reverse.mp hr)]
  simp

/-- A key that does not occur in the message begins no record of the
buffer. -/
theorem absent_key_no_record (key : CStr) (bytes : List Char) (recs : List CStr)
    (tail : List Char) (hwf : ∀ r ∈ recs, r ≠ [] ∧ NUL ∉ r)
    (heq : bytes ++ [NUL, NUL] = uevent_msg recs ++ NUL :: tail)
    (hkey : ¬ key <:+: bytes) : last_value key recs = none := by
  apply last_value_none
  intro r hr
  rw [Bool.eq_false_iff]
  intro hp
  apply hkey
  have hp1 : key <+: r := List.isPrefixOf_iff_prefix.mp hp
  have hkN : NUL ∉ key := fun hm => (hwf r hr).2 (hp1.subset hm)
  have h1 : key <:+: uevent_msg recs := hp1.isInfix.trans (record_infix_msg recs r hr)
  have h2 : key <:+: bytes ++ [NUL, NUL] := by
    rw [heq]
    exact h1.trans ⟨[], NUL :: tail, by simp⟩
  have h3 : key <:+: (bytes ++ [NUL]) ++ [NUL] := by simpa using h2
  exact infix_before_NUL key bytes hkN (infix_before_NUL key _ hkN h3)

/-- C17, amended. For every message, `parse_event` returns an event in which
`action`, `path`, `subsystem` and `firmware` are the empty string when their
key does not occur in the message, and `partition_name`, `device_name`,
`modalias` and `product` are NULL when theirs does not. -/
theorem parse_event_absent_fields (atoi : CStr → Int) (bytes : List Char) :
    ∃ ue, parse_event atoi (bytes ++ [NUL, NUL]) = Run.done ue ∧
      (¬ "ACTION=".toList <:+: bytes → ue.action = []) ∧
      (¬ "DEVPATH=".toList <:+: bytes → ue.path = []) ∧
      (¬ "SUBSYSTEM=".toList <:+: bytes → ue.subsystem = []) ∧
      (¬ "FIRMWARE=".toList <:+: bytes → ue.firmware = []) ∧
      (¬ "PARTNAME=".toList <:+: bytes → ue.partition_name = none) ∧
      (¬ "DEVNAME=".toList <:+: bytes → ue.device_name = none) ∧
      (¬ "MODALIAS=".toList <:+: bytes → ue.modalias = none) ∧
      (¬ "PRODUCT=".toList <:+: bytes → ue.product = none) := by
  obtain ⟨recs, tail, hwf, heq⟩ := buffer_records bytes.length bytes (Nat.le_refl _)
  refine ⟨uevent_spec atoi recs, ?_, ?_⟩
  · rw [heq, parse_event_records atoi recs tail hwf, foldl_records_spec]
  · have key := fun k hk => absent_key_no_record k bytes recs tail hwf heq hk
    refine ⟨?_, ?_, ?_, ?_, ?_, ?_, ?_, ?_⟩ <;> intro hk <;>
      simp only [uevent_spec, key _ hk, Option.getD_none]

/-- The amended C17 at the message `SUBSYSTEM=misc`: the action is empty and
the partition name is NULL. -/
theorem parse_event_absent_fields_witness :
    ∃ ue, parse_event atoi_dec ("SUBSYSTEM=misc".toList ++ [NUL, NUL]) = Run.done ue ∧
      ue.action = [] ∧ ue.partition_name = none := by
  obtain ⟨ue, h, ha, -, -, -, hp, -⟩ :=
    parse_event_absent_fields atoi_dec "SUBSYSTEM=misc".toList
  exact ⟨ue, h, ha (by decide), hp (by decide)⟩

/-- C17, as stated, fails: for the message `ACTION=add` the fields
`partition_name`, `device_name`, `modalias` and `product` are NULL, not the
empty string. -/
theorem parse_event_absent_fields_null :
    parse_event atoi_dec ("ACTION=add".toList ++ [NUL, NUL]) =
      Run.done
        { action := "add".toList, path := [], subsystem := [], firmware := [],
          partition_name := none, device_name := none, modalias := none, product := none,
          partition_num := -1, major := -1, minor := -1 } := by
  decide

/-! ### The order of the steps of an event -/

/-- The function `fixup_sys_perms` does not call `insmod_by_dep`. -/
theorem fixup_sys_perms_no_insmod (fnmatch : CStr → CStr → Bool) (rules : List perms_)
    (upath : CStr) : ∀ l, fixup_sys_perms fnmatch rules upath = some l →
      ∀ c ∈ l, c.is_insmod = false := by
  induction rules with
  | nil =>
    intro l h c hc
    simp only [fixup_sys_perms, Option.some.injEq] at h
    subst h; cases hc
  | cons dp rest ih =>
    intro l h c hc
    by_cases hlen : dp.name.length < 4
    · simp [fixup_sys_perms, hlen] at h
    · cases hm : sys_rule_matches fnmatch upath dp with
      | false =>
        have hm2 := hm
        unfold sys_rule_matches at hm2
        simp only [fixup_sys_perms, hlen, if_false, hm2, if_true] at h
        exact ih l h c hc
      | true =>
        have hm2 := hm
        unfold sys_rule_matches at hm2
        cases hattr : dp.attr with
        | none => simp [fixup_sys_perms, hlen, hm2, hattr] at h
        | some attr =>
          by_cases hsz : upath.length + attr.length + 6 > 512
          · simp only [fixup_sys_perms, hlen, if_false, hm2, hattr, hsz, if_true,
              Bool.true_eq_false, Option.some.injEq] at h
            subst h; cases hc
          · cases hr : fixup_sys_perms fnmatch rest upath with
            | none => simp [fixup_sys_perms, hlen, hm2, hattr, hsz, hr] at h
            | some t =>
              simp only [fixup_sys_perms, hlen, if_false, hm2, hattr, hsz, hr,
                Bool.true_eq_false, Option.map_some', Option.some.injEq] at h
              subst h
              rcases List.mem_cons.mp hc with rfl | hc
              · rfl
              · rcases List.mem_cons.mp hc with rfl | hc
                · rfl
                · exact ih t hr c hc

/-- The function `make_device` does not call `insmod_by_dep`. -/
theorem make_device_no_insmod (fnmatch : CStr → CStr → Bool) (dev_perms : List perms_)
    (sehandle : SeHandle) (path : CStr) (block : Bool) (major minor : Int) :
    (make_device fnmatch dev_perms sehandle path block major minor).all
      (fun c => !c.is_insmod) = true := by
  unfold make_device
  cases sehandle with
  | none => simp [Call.is_insmod]
  | some f =>
    dsimp only
    cases f path ((get_device_perm fnmatch dev_perms path).1 |||
      if block = true then S_IFBLK else S_IFCHR) <;> simp [Call.is_insmod]

/-- The function `handle_device` does not call `insmod_by_dep`. -/
theorem handle_device_no_insmod (fnmatch : CStr → CStr → Bool) (dev_perms : List perms_)
    (sehandle : SeHandle) (a : DeviceArgs) :
    (handle_device fnmatch dev_perms sehandle a).all (fun c => !c.is_insmod) = true := by
  have hm := make_device_no_insmod fnmatch dev_perms sehandle a.devpath a.block a.major a.minor
  simp only [List.all_eq_true, Bool.not_eq_true'] at hm
  have h1 : ∀ n v, (Call.property_set n v).is_insmod = false := fun _ _ => rfl
  have h2 : ∀ n v, (Call.make_link n v).is_insmod = false := fun _ _ => rfl
  have h3 : ∀ n v, (Call.remove_link n v).is_insmod = false := fun _ _ => rfl
  have h4 : ∀ n, (Call.unlink n).is_insmod = false := fun _ => rfl
  unfold handle_device
  split_ifs <;> simp [List.all_map, Function.comp_def, h1, h2, h3, h4] <;> exact hm

/-- Expanding the calls of `handle_device` adds no call of `insmod_by_dep`. -/
theorem run_calls_no_insmod (fnmatch : CStr → CStr → Bool) (dev_perms : List perms_)
    (sehandle : SeHandle) (calls : List Call)
    (h : ∀ c ∈ calls, c.is_insmod = false) :
    ∀ c ∈ run_calls fnmatch dev_perms sehandle calls, c.is_insmod = false := by
  intro c hc
  unfold run_calls at hc
  rw [List.mem_flatMap] at hc
  obtain ⟨x, hx, hcx⟩ := hc
  cases x with
  | handle_device a =>
    have := handle_device_no_insmod fnmatch dev_perms sehandle a
    rw [List.all_eq_true] at this
    simpa using this c hcx
  | insmod_by_dep n => exact absurd (h _ hx) (by simp [Call.is_insmod])
  | _ =>
    simp only [List.mem_singleton] at hcx
    subst hcx
    rfl

/-- Computing the links of a character device calls no `insmod_by_dep`. -/
theorem symlink_calls_no_insmod (names : List platform_node) (ue : uevent) :
    ∀ c ∈ (get_character_device_symlinks names ue).2, c.is_insmod = false := by
  intro c hc
  unfold get_character_device_symlinks at hc
  split at hc
  · simp at hc
  · dsimp only at hc
    split_ifs at hc <;> simp at hc <;> simp [hc, Call.is_insmod]

/-- The generic handler does not call `insmod_by_dep`. -/
theorem handle_generic_no_insmod (names : List platform_node) (ue : uevent) :
    ∀ c ∈ handle_generic_device_event names ue, c.is_insmod = false := by
  intro c hc
  rcases handle_generic_shape names ue with h0 | ⟨pre, devpath, h1, hpre⟩
  · rw [h0] at hc; cases hc
  · rw [h1] at hc
    rcases List.mem_append.mp hc with hc | hc
    · obtain ⟨p, m, rfl⟩ := hpre _ hc
      rfl
    · unfold generic_finish at hc
      rcases List.mem_append.mp hc with hc | hc
      · exact symlink_calls_no_insmod names ue c hc
      · rw [List.mem_singleton] at hc
        subst hc
        rfl

/-- The block handler does not call `insmod_by_dep`. -/
theorem handle_block_no_insmod (names : List platform_node) (install_id : CStr)
    (ue : uevent) : ∀ c ∈ handle_block_device_event names install_id ue,
      c.is_insmod = false := by
  intro c hc
  unfold handle_block_device_event at hc
  cases hp : parse_device_name ue 64 with
  | none => rw [hp] at hc; cases hc
  | some name =>
    rw [hp] at hc
    dsimp only at hc
    rcases List.mem_cons.mp hc with rfl | hc
    · rfl
    · rw [List.mem_singleton] at hc
      subst hc
      rfl

/-- The function `fixup_device_perms` does not call `insmod_by_dep`. -/
theorem fixup_device_perms_no_insmod (dev_id : List dev_id_entry) (ue : uevent) :
    ∀ c ∈ fixup_device_perms dev_id ue, c.is_insmod = false := by
  have hloop : ∀ (product : CStr) (l : List dev_id_entry),
      ∀ c ∈ fixup_device_perms_loop product ue.device_name l, c.is_insmod = false := by
    intro product l
    induction l with
    | nil => intro c hc; cases hc
    | cons e rest ih =>
      intro c hc
      unfold fixup_device_perms_loop at hc
      split_ifs at hc
      · cases hd : ue.device_name with
        | none => rw [hd] at hc; cases hc
        | some dn =>
          rw [hd] at hc
          dsimp only at hc
          rcases List.mem_cons.mp hc with rfl | hc
          · rfl
          · rw [List.mem_singleton] at hc
            subst hc
            rfl
      · exact ih c hc
  intro c hc
  unfold fixup_device_perms at hc
  cases hp : ue.product with
  | none => rw [hp] at hc; cases hc
  | some product =>
    rw [hp] at hc
    dsimp only at hc
    split_ifs at hc
    · exact hloop product dev_id c hc
    · cases hc

/-- No call between a state and itself. -/
theorem insmod_calls_self (m : ModState) : insmod_calls m m = [] := by
  simp [insmod_calls]

/-- The calls of the module autoloader are calls of `insmod_by_dep`, none of
`mknod`. -/
theorem insmod_calls_are_insmod (m1 m2 : ModState) :
    ∀ c ∈ insmod_calls m1 m2, c.is_insmod = true ∧ c.is_mknod = false := by
  intro c hc
  unfold insmod_calls at hc
  rw [List.mem_map] at hc
  obtain ⟨n, -, rfl⟩ := hc
  exact ⟨rfl, rfl⟩

/-- C18. The calls of `handle_device_event` are, in this order: the calls of
`handle_module_loading` (only for the action `add`), the calls of
`fixup_sys_perms` on the event path (only for `add` or `change`), the calls
of one handler (the block handler when the subsystem begins with `block`,
else none but the update of the platform list when it begins with
`platform`, else the generic handler), and the calls of `fixup_device_perms`
(only for `add`). All calls of `insmod_by_dep` lie in the first part, which
holds no `mknod`, so they come before every node creation of the event. -/
theorem handle_device_event_order (env : Env) (files : ModFiles) (st st1 : DevState)
    (ue : uevent) (calls : List Call)
    (h : handle_device_event env files st ue = some (st1, calls)) :
    ∃ mod_calls sys_calls sub_calls product_calls,
      calls = mod_calls ++ sys_calls ++ sub_calls ++ product_calls ∧
      mod_calls = (if ue.action = "add".toList then
          insmod_calls st.mod
            (handle_module_loading env.fnmatch env.insmod files st.mod ue.modalias)
        else []) ∧
      st1.mod = (if ue.action = "add".toList then
          handle_module_loading env.fnmatch env.insmod files st.mod ue.modalias
        else st.mod) ∧
      some sys_calls = (if ue.action = "add".toList ∨ ue.action = "change".toList then
          fixup_sys_perms env.fnmatch st.sys_perms ue.path
        else some []) ∧
      sub_calls = (if strncmp_eq ue.subsystem "block".toList 5 then
          run_calls env.fnmatch st.dev_perms env.sehandle
            (handle_block_device_event st.platform_names env.install_id ue)
        else if strncmp_eq ue.subsystem "platform".toList 8 then []
        else run_calls env.fnmatch st.dev_perms env.sehandle
          (handle_generic_device_event st.platform_names ue)) ∧
      st1.platform_names = (if strncmp_eq ue.subsystem "block".toList 5 then
          st.platform_names
        else if strncmp_eq ue.subsystem "platform".toList 8 then
          handle_platform_device_event st.platform_names ue
        else st.platform_names) ∧
      product_calls = (if ue.action = "add".toList then fixup_device_perms env.dev_id ue
        else []) ∧
      (∀ c ∈ mod_calls, c.is_insmod = true ∧ c.is_mknod = false) ∧
      (∀ c ∈ sys_calls ++ sub_calls ++ product_calls, c.is_insmod = false) := by
  unfold handle_device_event at h
  dsimp only at h
  cases hf : (if ue.action = "add".toList ∨ ue.action = "change".toList then
      fixup_sys_perms env.fnmatch st.sys_perms ue.path else some []) with
  | none => rw [hf] at h; cases h
  | some sys_calls =>
    rw [hf] at h
    simp only [Option.some.injEq, Prod.mk.injEq] at h
    obtain ⟨hst, hcalls⟩ := h
    have hsys : ∀ c ∈ sys_calls, c.is_insmod = false := by
      by_cases hc : ue.action = "add".toList ∨ ue.action = "change".toList
      · rw [if_pos hc] at hf
        exact fixup_sys_perms_no_insmod _ _ _ _ hf
      · rw [if_neg hc] at hf
        cases hf
        intro c hc; cases hc
    refine ⟨_, sys_calls, _, _, ?_, rfl, ?_, rfl, rfl, ?_, rfl, ?_, ?_⟩
    · rw [← hcalls]
      by_cases ha : ue.action = "add".toList
      · simp only [ha, if_true]
      · simp only [ha, if_false, insmod_calls_self]
    · rw [← hst]
    · rw [← hst]
    · intro c hc
      split_ifs at hc
      · exact insmod_calls_are_insmod _ _ c hc
      · cases hc
    · intro c hc
      rcases List.mem_append.mp hc with hc | hc
      · rcases List.mem_append.mp hc with hc | hc
        · exact hsys c hc
        · split_ifs at hc
          · exact run_calls_no_insmod _ _ _ _ (handle_block_no_insmod _ _ _) c hc
          · cases hc
          · exact run_calls_no_insmod _ _ _ _ (handle_generic_no_insmod _ _) c hc
      · split_ifs at hc
        · exact fixup_device_perms_no_insmod _ _ c hc
        · cases hc

/-- C18 at the `add` event of `log_main` with a modalias and a product: the
module `foo` is inserted first, and no `insmod_by_dep` follows. -/
theorem handle_device_event_order_witness :
    handle_device_event dispatch_env files_foo dispatch_state dispatch_event =
      some (dispatch_state_after, dispatch_calls) ∧
    ∃ mod_calls sys_calls sub_calls product_calls,
      dispatch_calls = mod_calls ++ sys_calls ++ sub_calls ++ product_calls ∧
      (∀ c ∈ mod_calls, c.is_insmod = true ∧ c.is_mknod = false) ∧
      (∀ c ∈ sys_calls ++ sub_calls ++ product_calls, c.is_insmod = false) := by
  obtain ⟨m, s, b, p, h, -, -, -, -, -, -, h1, h2⟩ :=
    handle_device_event_order dispatch_env files_foo dispatch_state dispatch_state_after
      dispatch_event dispatch_calls (by decide)
  exact ⟨by decide, m, s, b, p, h, h1, h2⟩

/-! ### Later rules and platform ancestors -/

/-- C19. After `add_dev_perms` has returned 0 for the path `p` with no
attribute and not as a wildcard, `get_device_perm` on `p` returns the
`(mode, uid, gid)` just added, whatever rules were loaded before and
whatever `fnmatch` answers. -/
theorem add_dev_perms_overrides (fnmatch : CStr → CStr → Bool) (alloc_ok : Bool)
    (sys_perms dev_perms sys_perms1 dev_perms1 : List perms_) (p : CStr) (mode uid gid : Nat)
    (h : add_dev_perms alloc_ok sys_perms dev_perms p none mode uid gid 0 =
      (0, sys_perms1, dev_perms1)) :
    get_device_perm fnmatch dev_perms1 p = (mode, uid, gid) := by
  cases alloc_ok with
  | false =>
    simp [add_dev_perms, ENOMEM] at h
  | true =>
    simp only [add_dev_perms, Bool.true_eq_false, if_false, Prod.mk.injEq, true_and] at h
    obtain ⟨-, rfl⟩ := h
    simp [get_device_perm, get_device_perm_loop, dev_rule_matches]

/-- C19 at `/dev/null` added behind the wildcard rule `/dev/*` and an older
rule for `/dev/null`. -/
theorem add_dev_perms_overrides_witness :
    get_device_perm glob
      [⟨"/dev/*".toList, none, 0o600, 0, 0, 1⟩, ⟨"/dev/null".toList, none, 0o666, 0, 0, 0⟩,
       ⟨"/dev/null".toList, none, 0o640, 1000, 1001, 0⟩]
      "/dev/null".toList = (0o640, 1000, 1001) :=
  add_dev_perms_overrides glob true []
    [⟨"/dev/*".toList, none, 0o600, 0, 0, 1⟩, ⟨"/dev/null".toList, none, 0o666, 0, 0, 0⟩] []
    _ "/dev/null".toList 0o640 1000 1001 (by decide)

/-- C20. On a list whose nodes store the length of their path,
`find_platform_device` returns none exactly when no stored path is strictly
shorter than `q`, a prefix of `q` and followed in `q` by `/`; otherwise it
returns the node with this property that was added last. It never returns a
node whose path is `q`. -/
theorem find_platform_device_newest_ancestor (names : List platform_node) (q : CStr)
    (hwf : ∀ b ∈ names, b.path_len = b.path.length) :
    (((∀ b ∈ names, ¬ (b.path.length < q.length ∧ b.path <+: q ∧
          q[b.path.length]? = some '/')) ∧ find_platform_device names q = none) ∨
      (∃ older b newer, names = older ++ b :: newer ∧
        (b.path.length < q.length ∧ b.path <+: q ∧ q[b.path.length]? = some '/') ∧
        (∀ c ∈ newer, ¬ (c.path.length < q.length ∧ c.path <+: q ∧
          q[c.path.length]? = some '/')) ∧
        find_platform_device names q = some b)) ∧
    ∀ b, find_platform_device names q = some b → b.path ≠ q := by
  have hiff : ∀ b ∈ names, (platform_match q b = true ↔
      (b.path.length < q.length ∧ b.path <+: q ∧ q[b.path.length]? = some '/')) := by
    intro b hb
    unfold platform_match strncmp_eq
    rw [hwf b hb, List.take_length]
    simp only [Bool.and_eq_true, decide_eq_true_eq, beq_iff_eq]
    constructor
    · rintro ⟨⟨h1, h2⟩, h3⟩
      exact ⟨h1, by rw [List.prefix_iff_eq_take]; exact h3.symm, h2⟩
    · rintro ⟨h1, h2, h3⟩
      exact ⟨⟨h1, h3⟩, by rw [List.prefix_iff_eq_take] at h2; exact h2.symm⟩
  constructor
  · induction names using List.reverseRecOn with
    | nil => left; simp [find_platform_device]
    | append_singleton init last ih =>
      have hstep : find_platform_device (init ++ [last]) q =
          if platform_match q last then some last else find_platform_device init q := by
        unfold find_platform_device
        rw [List.reverse_append, List.reverse_singleton, List.singleton_append, List.find?_cons]
        cases platform_match q last <;> rfl
      have hl := hiff last (by simp)
      by_cases hm : platform_match q last = true
      · right
        exact ⟨init, last, [], by simp, hl.mp hm, by simp, by rw [hstep, if_pos hm]⟩
      · have hwf1 : ∀ b ∈ init, b.path_len = b.path.length :=
          fun b hb => hwf b (List.mem_append_left _ hb)
        have hiff1 : ∀ b ∈ init, (platform_match q b = true ↔
            (b.path.length < q.length ∧ b.path <+: q ∧ q[b.path.length]? = some '/')) :=
          fun b hb => hiff b (List.mem_append_left _ hb)
        have hnl : ¬ (last.path.length < q.length ∧ last.path <+: q ∧
            q[last.path.length]? = some '/') := fun hc => hm (hl.mpr hc)
        rcases ih hwf1 hiff1 with ⟨hall, hnone⟩ | ⟨older, b, newer, hs, hb, hnew, hf⟩
        · left
          refine ⟨?_, by rw [hstep, if_neg hm, hnone]⟩
          intro c hc
          rcases List.mem_append.mp hc with hc | hc
          · exact hall c hc
          · rw [List.mem_singleton.mp hc]; exact hnl
        · right
          refine ⟨older, b, newer ++ [last], by simp [hs], hb, ?_, by rw [hstep, if_neg hm, hf]⟩
          intro c hc
          rcases List.mem_append.mp hc with hc | hc
          · exact hnew c hc
          · rw [List.mem_singleton.mp hc]; exact hnl
  · intro b hb heq
    have hmem : b ∈ names := by
      have := List.mem_of_find?_eq_some hb
      simpa using this
    have := (hiff b hmem).mp (List.find?_some hb)
    rw [heq] at this
    exact Nat.lt_irrefl _ this.1

/-- C20 at the list of `/devices/a` and `/devices/b`: the node of
`/devices/a/x` is `/devices/a`, whose path differs from it. -/
theorem find_platform_device_newest_ancestor_witness :
    find_platform_device
        [⟨"a".toList, "/devices/a".toList, 10⟩, ⟨"b".toList, "/devices/b".toList, 10⟩]
        "/devices/a/x".toList = some ⟨"a".toList, "/devices/a".toList, 10⟩ ∧
    "/devices/a".toList ≠ "/devices/a/x".toList :=
  ⟨by decide,
    (find_platform_device_newest_ancestor
      [⟨"a".toList, "/devices/a".toList, 10⟩, ⟨"b".toList, "/devices/b".toList, 10⟩]
      "/devices/a/x".toList (by decide)).2 ⟨"a".toList, "/devices/a".toList, 10⟩ (by decide)⟩

/-! ### Removing a platform device -/

/-- The function `remove_platform_device` takes out the node with the path
that was added last, and nothing when no node has the path. -/
theorem remove_platform_device_cases (names : List platform_node) (p : CStr) :
    ((∀ b ∈ names, b.path ≠ p) ∧ remove_platform_device names p = names) ∨
    (∃ older b newer, names = older ++ b :: newer ∧ b.path = p ∧
      (∀ c ∈ newer, c.path ≠ p) ∧ remove_platform_device names p = older ++ newer) := by
  induction names using List.reverseRecOn with
  | nil => left; exact ⟨by simp, rfl⟩
  | append_singleton init last ih =>
    by_cases hl : p = last.path
    · right
      refine ⟨init, last, [], rfl, hl.symm, by simp, ?_⟩
      simp [remove_platform_device, List.eraseP_cons, hl]
    · have hstep : remove_platform_device (init ++ [last]) p =
          remove_platform_device init p ++ [last] := by
        simp [remove_platform_device, List.eraseP_cons, hl]
      rcases ih with ⟨hno, heq⟩ | ⟨older, b, newer, hn, hb, hnew, heq⟩
      · left
        refine ⟨?_, by rw [hstep, heq]⟩
        intro b hb
        rcases List.mem_append.mp hb with hb | hb
        · exact hno b hb
        · rw [List.mem_singleton.mp hb]; exact fun e => hl e.symm
      · right
        refine ⟨older, b, newer ++ [last], by rw [hn]; simp, hb, ?_, by rw [hstep, heq]; simp⟩
        intro c hc
        rcases List.mem_append.mp hc with hc | hc
        · exact hnew c hc
        · rw [List.mem_singleton.mp hc]; exact fun e => hl e.symm

/-- In a list built without adding a stored path no two nodes have the same
path. -/
theorem fresh_paths_nodup (names : List platform_node) (h : platform_reachable_fresh names) :
    (names.map fun b => b.path).Nodup := by
  induction h with
  | empty => simp
  | add names p _ hnew ih =>
    unfold add_platform_device
    split_ifs
    · exact ih
    · rw [List.map_append, List.nodup_append]
      refine ⟨ih, by simp, ?_⟩
      intro x hx hx2
      simp only [List.map_cons, List.map_nil, List.mem_singleton] at hx2
      obtain ⟨b, hb, rfl⟩ := List.mem_map.mp hx
      exact hnew b hb hx2
  | remove names p _ ih =>
    exact ih.sublist ((remove_platform_device_sublist names p).map _)

/-- C21, amended. In a list built from the empty list by calls of
`add_platform_device` and `remove_platform_device` in which no path is added
while a node with this path is stored, after `remove_platform_device` on `p` no
node has the path `p`, the nodes with another path are kept in their order,
and the list is unchanged when no node has the path `p`. -/
theorem remove_platform_device_spec (names : List platform_node) (p : CStr)
    (h : platform_reachable_fresh names) :
    (∀ b ∈ remove_platform_device names p, b.path ≠ p) ∧
    ((remove_platform_device names p).filter fun b => decide (b.path ≠ p)) =
      (names.filter fun b => decide (b.path ≠ p)) ∧
    ((∀ b ∈ names, b.path ≠ p) → remove_platform_device names p = names) := by
  have hnd := fresh_paths_nodup names h
  rcases remove_platform_device_cases names p with ⟨hno, heq⟩ | ⟨older, b, newer, hn, hb, hnew, heq⟩
  · rw [heq]
    exact ⟨hno, rfl, fun _ => rfl⟩
  · rw [heq]
    subst hn
    refine ⟨?_, ?_, ?_⟩
    · intro c hc
      rw [List.map_append, List.map_cons, List.nodup_append] at hnd
      rcases List.mem_append.mp hc with hc | hc
      · intro e
        exact hnd.2.2 (List.mem_map_of_mem _ hc) (by rw [e, ← hb]; simp)
      · exact hnew c hc
    · simp [List.filter_append, List.filter_cons, hb]
    · intro hall
      exact absurd hb (hall b (by simp))

/-- The amended C21 at the list of `/devices/a` and `/devices/b`: removing
`/devices/a` leaves the node of `/devices/b`, and no node with the path
`/devices/a`. -/
theorem remove_platform_device_spec_witness :
    remove_platform_device
        (add_platform_device (add_platform_device [] "/devices/a".toList) "/devices/b".toList)
        "/devices/a".toList = [⟨"b".toList, "/devices/b".toList, 10⟩] ∧
    ∀ b ∈ remove_platform_device
        (add_platform_device (add_platform_device [] "/devices/a".toList) "/devices/b".toList)
        "/devices/a".toList, b.path ≠ "/devices/a".toList :=
  ⟨by decide,
    (remove_platform_device_spec _ "/devices/a".toList
      (platform_reachable_fresh.add _ _
        (platform_reachable_fresh.add _ _ platform_reachable_fresh.empty (by decide))
        (by decide))).1⟩

/-- C21, as stated, fails: `add_platform_device` on `/devices/a` twice stores
two nodes, and `remove_platform_device` on `/devices/a` takes out one of them:
a node with the path is still stored. -/
theorem remove_platform_device_keeps_duplicate :
    platform_reachable
      (add_platform_device (add_platform_device [] "/devices/a".toList) "/devices/a".toList) ∧
    add_platform_device (add_platform_device [] "/devices/a".toList) "/devices/a".toList =
      [⟨"a".toList, "/devices/a".toList, 10⟩, ⟨"a".toList, "/devices/a".toList, 10⟩] ∧
    remove_platform_device
        (add_platform_device (add_platform_device [] "/devices/a".toList) "/devices/a".toList)
        "/devices/a".toList = [⟨"a".toList, "/devices/a".toList, 10⟩] :=
  ⟨platform_reachable.add _ _ (platform_reachable.add _ _ platform_reachable.empty),
    by decide, by decide⟩

/-! ### The nodes of USB devices -/

/-- The calls of `generic_finish` behind calls that are no `handle_device`
end with the call of `handle_device`. -/
theorem finish_behind (names : List platform_node) (ue : uevent) (front : List Call)
    (devpath devpath2 : CStr) (h : devpath = devpath2)
    (hfront : ∀ c ∈ front, c.is_handle_device = false) :
    ∃ pre links, front ++ generic_finish names ue devpath =
      pre ++ [Call.handle_device
        { action := ue.action, devpath := devpath2, path := ue.path, block := false,
          major := ue.major, minor := ue.minor, links := links }] ∧
      ∀ c ∈ pre, c.is_handle_device = false := by
  obtain ⟨pre, links, h1, h2⟩ := finish_plain names ue devpath devpath2 h
  refine ⟨front ++ pre, links, by rw [h1, List.append_assoc], ?_⟩
  intro c hc
  rcases List.mem_append.mp hc with hc | hc
  · exact hfront c hc
  · exact h2 c hc

/-- The directories of a USB node are made by `make_dir`. -/
theorem usb_make_dirs_no_handle_device (devpath : CStr) :
    ∀ c ∈ usb_make_dirs devpath, c.is_handle_device = false := by
  intro c hc
  simp only [usb_make_dirs, List.mem_map] at hc
  obtain ⟨i, -, rfl⟩ := hc
  rfl

/-- The decimal digits of a number below `10 ^ e`. -/
theorem toDigits_length_le (n e : Nat) (h : n < 10 ^ e) (he : 0 < e) :
    (Nat.toDigits 10 n).length ≤ e := by
  unfold Nat.toDigits
  exact Nat.toDigitsCore_length 10 (by decide) (n + 1) n e h he

/-- The conversion `%03d` of a number of at most nine digits has at most ten
bytes. -/
theorem fmt_03d_length (v : Int) (h1 : -10 ^ 9 < v) (h2 : v < 10 ^ 9) :
    (fmt_03d v).length ≤ 10 := by
  unfold fmt_03d
  split_ifs with hneg
  · have := toDigits_length_le v.natAbs 9 (by omega) (by decide)
    simp only [List.length_cons, List.length_append, List.length_replicate]
    omega
  · have := toDigits_length_le v.toNat 9 (by omega) (by decide)
    simp only [List.length_append, List.length_replicate]
    omega

/-- The quotient and the remainder of an `int` by 128, as C computes them. -/
theorem tdiv_tmod_bounds (m : Int) (h1 : -2 ^ 31 ≤ m) (h2 : m < 2 ^ 31) :
    -2 ^ 24 ≤ Int.tdiv m 128 ∧ Int.tdiv m 128 ≤ 2 ^ 24 ∧
    -128 < Int.tmod m 128 ∧ Int.tmod m 128 < 128 := by
  by_cases h : 0 ≤ m
  · rw [Int.tdiv_eq_ediv h (by decide), Int.tmod_eq_emod h (by decide)]
    omega
  · have hn : 0 ≤ -m := by omega
    have e1 : Int.tdiv m 128 = -((-m) / 128) := by
      rw [← Int.tdiv_eq_ediv hn (by decide), Int.neg_tdiv, neg_neg]
    rw [Int.tmod_def, e1]
    omega

/-- C22, amended. For an event of the subsystem `usb` whose path has at most
64 bytes behind its last `/`, `handle_generic_device_event` ends with the one
call of `handle_device`: with a device name of at most 90 bytes the node path
is `/dev/` followed by the device name; without a device name, and a minor
number within `int`, it is `/dev/bus/usb/BBB/DDD` with `BBB` and `DDD` the
conversions `%03d` of `minor / 128 + 1` and `minor % 128 + 1` in C
arithmetic. For a subsystem that begins with `usb` and is not `usb` no call
is made at all. -/
theorem handle_usb_node_path (names : List platform_node) (ue : uevent) :
    (ue.subsystem = "usb".toList →
      ∀ name, after_last_slash ue.path = some name → name.length ≤ 64 →
        (∀ dn, ue.device_name = some dn → dn.length ≤ 90 →
          ∃ pre links, handle_generic_device_event names ue =
            pre ++ [Call.handle_device
              { action := ue.action, devpath := "/dev/".toList ++ dn, path := ue.path,
                block := false, major := ue.major, minor := ue.minor, links := links }] ∧
            ∀ c ∈ pre, c.is_handle_device = false) ∧
        (ue.device_name = none → -2 ^ 31 ≤ ue.minor → ue.minor < 2 ^ 31 →
          ∃ pre links, handle_generic_device_event names ue =
            pre ++ [Call.handle_device
              { action := ue.action,
                devpath := "/dev/bus/usb/".toList ++ fmt_03d (Int.tdiv ue.minor 128 + 1) ++
                  "/".toList ++ fmt_03d (Int.tmod ue.minor 128 + 1),
                path := ue.path, block := false, major := ue.major, minor := ue.minor,
                links := links }] ∧
            ∀ c ∈ pre, c.is_handle_device = false)) ∧
    ("usb".toList <+: ue.subsystem → ue.subsystem ≠ "usb".toList →
      handle_generic_device_event names ue = []) := by
  constructor
  · intro hsub name hname hlen
    have hp : parse_device_name ue 64 = some name := by
      simp [parse_device_name, hname]; omega
    have h3 : strncmp_eq ue.subsystem "usb".toList 3 = true := by
      rw [hsub]; rfl
    constructor
    · intro dn hdn hfit
      simp only [handle_generic_device_event, hp, h3, hsub, hdn, if_true]
      have hs : snprintf 96 ("/dev/".toList ++ dn) = "/dev/".toList ++ dn :=
        snprintf_fits 96 _ (by simp; omega)
      rw [hs]
      exact finish_behind names ue _ _ _ rfl (usb_make_dirs_no_handle_device _)
    · intro hdn hlo hhi
      simp only [handle_generic_device_event, hp, h3, hsub, hdn, if_true]
      obtain ⟨b1, b2, b3, b4⟩ := tdiv_tmod_bounds ue.minor hlo hhi
      have hb := fmt_03d_length (Int.tdiv ue.minor 128 + 1) (by omega) (by omega)
      have hd := fmt_03d_length (Int.tmod ue.minor 128 + 1) (by omega) (by omega)
      have hs : snprintf 96 ("/dev/bus/usb/".toList ++ fmt_03d (Int.tdiv ue.minor 128 + 1) ++
          "/".toList ++ fmt_03d (Int.tmod ue.minor 128 + 1)) = _ :=
        snprintf_fits 96 _ (by simp; omega)
      rw [hs]
      exact finish_behind names ue _ _ _ rfl (by
        intro c hc
        simp only [List.mem_cons, List.mem_singleton, List.not_mem_nil, or_false] at hc
        rcases hc with rfl | rfl | rfl <;> rfl)
  · intro hpre hne
    have h3 : strncmp_eq ue.subsystem "usb".toList 3 = true := by
      have := strncmp_eq_literal ue.subsystem "usb".toList
      rw [show "usb".toList.length = 3 from rfl] at this
      rw [this]
      exact List.isPrefixOf_iff_prefix.mpr hpre
    cases hp : parse_device_name ue 64 with
    | none => simp only [handle_generic_device_event, hp]
    | some name => simp only [handle_generic_device_event, hp, h3, hne, if_true, if_false]

/-- The amended C22 at the device of minor 1: with `DEVNAME=bus/usb/001/002`
and without a device name the node path is `/dev/bus/usb/001/002`; the same
event of the subsystem `usb_device` makes no call. -/
theorem handle_usb_node_path_witness :
    (∃ pre links, handle_generic_device_event [] usb_event_named =
      pre ++ [Call.handle_device
        { action := "add".toList, devpath := "/dev/bus/usb/001/002".toList,
          path := "/devices/pci0000:00/usb1/1-1".toList, block := false, major := 189,
          minor := 1, links := links }] ∧
      ∀ c ∈ pre, c.is_handle_device = false) ∧
    (∃ pre links,
      handle_generic_device_event [] { usb_event_named with device_name := none } =
      pre ++ [Call.handle_device
        { action := "add".toList, devpath := "/dev/bus/usb/001/002".toList,
          path := "/devices/pci0000:00/usb1/1-1".toList, block := false, major := 189,
          minor := 1, links := links }] ∧
      ∀ c ∈ pre, c.is_handle_device = false) ∧
    handle_generic_device_event []
      { usb_event_named with subsystem := "usb_device".toList } = [] :=
  ⟨((handle_usb_node_path [] usb_event_named).1 rfl "1-1".toList (by decide) (by decide)).1
      "bus/usb/001/002".toList rfl (by decide),
    ((handle_usb_node_path [] { usb_event_named with device_name := none }).1 rfl
      "1-1".toList (by decide) (by decide)).2 rfl (by decide) (by decide),
    (handle_usb_node_path [] { usb_event_named with subsystem := "usb_device".toList }).2
      (by decide) (by decide)⟩

set_option maxRecDepth 100000 in
/-- C22, as stated, fails: for the subsystem `usb` and a device name of 108
bytes the node path passed to `handle_device` is cut to the 95 bytes that fit
the buffer `devpath`, and is not `/dev/` followed by the device name. -/
theorem handle_usb_long_name_cut :
    usb_event_long_name.subsystem = "usb".toList ∧
    handle_generic_device_event [] usb_event_long_name =
      [Call.make_dir "/dev/bus".toList 0o755, Call.make_dir "/dev/bus/usb".toList 0o755,
       Call.handle_device
        { action := "add".toList,
          devpath := "/dev/bus/usb/".toList ++ List.replicate 82 'a',
          path := "/devices/pci0000:00/usb1/1-1".toList, block := false, major := 189,
          minor := 1, links := none }] ∧
    "/dev/bus/usb/".toList ++ List.replicate 82 'a' ≠
      "/dev/".toList ++ ("bus/usb/".toList ++ List.replicate 100 'a') := by
  decide

/-! ### The links of character devices -/

/-- The scan for `/` stops at the first `/`. -/
theorem dropWhile_slash (x y : CStr) (hx : '/' ∉ x) :
    (x ++ '/' :: y).dropWhile (fun c => c != '/') = '/' :: y := by
  induction x with
  | nil => simp
  | cons c x ih =>
    have hc : c ≠ '/' := fun e => hx (by simp [e])
    have hx2 : '/' ∉ x := fun e => hx (by simp [e])
    simp [List.dropWhile_cons, hc, ih hx2]

/-- The bytes before the first `/`. -/
theorem takeWhile_slash (x y : CStr) (hx : '/' ∉ x) :
    (x ++ '/' :: y).takeWhile (fun c => c != '/') = x := by
  induction x with
  | nil => simp
  | cons c x ih =>
    have hc : c ≠ '/' := fun e => hx (by simp [e])
    have hx2 : '/' ∉ x := fun e => hx (by simp [e])
    simp [List.takeWhile_cons, hc, ih hx2]

/-- A string is its bytes before the first `/`, and then nothing or a `/`
and the rest. -/
theorem split_slash (t : CStr) :
    '/' ∉ t.takeWhile (fun c => c != '/') ∧
    ((t.dropWhile (fun c => c != '/') = [] ∧ t = t.takeWhile (fun c => c != '/')) ∨
      ∃ r, t.dropWhile (fun c => c != '/') = '/' :: r ∧
        t = t.takeWhile (fun c => c != '/') ++ '/' :: r) := by
  constructor
  · intro h
    have := List.mem_takeWhile_imp h
    simp at this
  · cases hd : t.dropWhile (fun c => c != '/') with
    | nil =>
      left
      refine ⟨rfl, ?_⟩
      have := List.takeWhile_append_dropWhile (fun c => c != '/') t
      rw [hd, List.append_nil] at this
      exact this.symm
    | cons c r =>
      right
      have hc : c = '/' := by
        have := List.head_dropWhile_not (fun c => c != '/') t (by rw [hd]; simp)
        simp [hd] at this
        exact this
      subst hc
      refine ⟨r, rfl, ?_⟩
      have := List.takeWhile_append_dropWhile (fun c => c != '/') t
      rw [hd] at this
      exact this.symm

/-- The links of a character device, for the remainder of the path behind
the platform node: one link when the remainder is `/usb<hub>/<device>/<iface>/<rest>`
with a non-empty `iface`. -/
theorem symlinks_of_remainder (names : List platform_node) (ue : uevent)
    (pdev : platform_node) (hf : find_platform_device names ue.path = some pdev)
    (hub device iface rest : CStr) (hh : '/' ∉ hub) (hd : '/' ∉ device) (hi : '/' ∉ iface)
    (hne : iface ≠ [])
    (hrem : ue.path.drop pdev.path_len =
      "/usb".toList ++ hub ++ '/' :: device ++ '/' :: iface ++ '/' :: rest) :
    get_character_device_symlinks names ue =
      (some ["/dev/usb/".toList ++ ue.subsystem ++ iface],
        [Call.mkdir "/dev/usb".toList 0o755]) := by
  have e0 : ("/usb".toList ++ hub ++ '/' :: device ++ '/' :: iface ++ '/' :: rest) =
      '/' :: ("usb".toList ++ hub ++ '/' :: (device ++ '/' :: (iface ++ '/' :: rest))) := by
    simp
  have hparent : (ue.path.drop pdev.path_len).dropWhile (fun c => c != '/') =
      '/' :: ("usb".toList ++ hub ++ '/' :: (device ++ '/' :: (iface ++ '/' :: rest))) := by
    rw [hrem, e0]; simp
  have h1 : next_slash
      ('/' :: ("usb".toList ++ hub ++ '/' :: (device ++ '/' :: (iface ++ '/' :: rest)))) =
      '/' :: (device ++ '/' :: (iface ++ '/' :: rest)) := by
    unfold next_slash
    rw [List.drop_one, List.tail_cons]
    exact dropWhile_slash _ _ (by simp [hh])
  have h2 : next_slash ('/' :: (device ++ '/' :: (iface ++ '/' :: rest))) =
      '/' :: (iface ++ '/' :: rest) := by
    unfold next_slash
    rw [List.drop_one, List.tail_cons]
    exact dropWhile_slash _ _ hd
  have h4 : strncmp_eq
      ('/' :: ("usb".toList ++ hub ++ '/' :: (device ++ '/' :: (iface ++ '/' :: rest))))
      "/usb".toList 4 = true := by
    simp [strncmp_eq]
  have hw : (iface ++ '/' :: rest).takeWhile (fun c => c != '/') = iface :=
    takeWhile_slash _ _ hi
  have hlen : iface.length ≠ 0 := fun e => hne (List.length_eq_zero.mp e)
  simp only [get_character_device_symlinks, hf, hparent, h4, h1, h2, if_true]
  simp [hw, hlen]

/-- Behind the path of the node that `find_platform_device` returns the
event path goes on with a `/`. -/
theorem remainder_starts_with_slash (names : List platform_node) (ue : uevent)
    (pdev : platform_node) (hf : find_platform_device names ue.path = some pdev) :
    ∃ t, ue.path.drop pdev.path_len = '/' :: t := by
  have hm : platform_match ue.path pdev = true := List.find?_some hf
  simp only [platform_match, Bool.and_eq_true, decide_eq_true_eq, beq_iff_eq] at hm
  obtain ⟨⟨hlt, hget⟩, -⟩ := hm
  refine ⟨ue.path.drop (pdev.path_len + 1), ?_⟩
  rw [List.getElem?_eq_some_iff] at hget
  obtain ⟨h, hg⟩ := hget
  rw [List.drop_eq_getElem_cons h, hg]

/-- The links are NULL unless the remainder of the path behind the platform
node is `/usb<hub>/<device>/<iface>/<rest>` with a non-empty `iface`. -/
theorem symlinks_none_or_usb (names : List platform_node) (ue : uevent)
    (pdev : platform_node) (hf : find_platform_device names ue.path = some pdev) :
    get_character_device_symlinks names ue = (none, []) ∨
    ∃ hub device iface rest, '/' ∉ hub ∧ '/' ∉ device ∧ '/' ∉ iface ∧ iface ≠ [] ∧
      ue.path.drop pdev.path_len =
        "/usb".toList ++ hub ++ '/' :: device ++ '/' :: iface ++ '/' :: rest := by
  obtain ⟨t, ht⟩ := remainder_starts_with_slash names ue pdev hf
  have hparent : (ue.path.drop pdev.path_len).dropWhile (fun c => c != '/') = '/' :: t := by
    rw [ht]; simp
  by_cases h4 : strncmp_eq ('/' :: t) "/usb".toList 4 = true
  swap
  · left
    simp only [get_character_device_symlinks, hf, hparent, Bool.eq_false_iff.mpr h4,
      Bool.false_eq_true, if_false, List.cons_ne_nil]
  have ht0 : ∃ t0, t = "usb".toList ++ t0 := by
    refine ⟨t.drop 3, ?_⟩
    simp only [strncmp_eq, beq_iff_eq] at h4
    have h3 : t.take 3 = "usb".toList := by simpa using h4
    rw [← h3, List.take_append_drop]
  obtain ⟨t0, rfl⟩ := ht0
  have hn1 : next_slash ('/' :: ("usb".toList ++ t0)) = t0.dropWhile (fun c => c != '/') := by
    simp [next_slash]
  obtain ⟨hhub, hs0⟩ := split_slash t0
  rcases hs0 with ⟨hnil, -⟩ | ⟨t1, hd1, he1⟩
  · left
    simp only [get_character_device_symlinks, hf, hparent, h4, hn1, hnil, if_true, if_false,
      List.cons_ne_nil, ne_eq, not_true_eq_false]
  have hn2 : next_slash ('/' :: t1) = t1.dropWhile (fun c => c != '/') := by
    simp [next_slash]
  obtain ⟨hdev, hs1⟩ := split_slash t1
  rcases hs1 with ⟨hnil, -⟩ | ⟨t2, hd2, he2⟩
  · left
    simp only [get_character_device_symlinks, hf, hparent, h4, hn1, hd1, hn2, hnil, if_true,
      if_false, List.cons_ne_nil, ne_eq, not_false_eq_true]
  obtain ⟨hifc, hs2⟩ := split_slash t2
  rcases hs2 with ⟨hnil, he3⟩ | ⟨rest, hd3, he3⟩
  · left
    have hno : '/' ∉ t2 := by rw [he3]; exact hifc
    simp only [get_character_device_symlinks, hf, hparent, h4, hn1, hd1, hn2, hd2, if_true,
      if_false, List.cons_ne_nil, ne_eq, not_false_eq_true, List.drop_one, List.tail_cons, hno]
  by_cases hw : t2.takeWhile (fun c => c != '/') = []
  · left
    have hin : '/' ∈ t2 := by rw [he3]; simp
    simp only [get_character_device_symlinks, hf, hparent, h4, hn1, hd1, hn2, hd2, if_true,
      if_false, List.cons_ne_nil, ne_eq, not_false_eq_true, List.drop_one, List.tail_cons, hin,
      not_true_eq_false, hw, List.length_nil]
  · right
    refine ⟨t0.takeWhile (fun c => c != '/'), t1.takeWhile (fun c => c != '/'),
      t2.takeWhile (fun c => c != '/'), rest, hhub, hdev, hifc, hw, ?_⟩
    have e : t0 = t0.takeWhile (fun c => c != '/') ++ '/' ::
        (t1.takeWhile (fun c => c != '/') ++ '/' ::
          (t2.takeWhile (fun c => c != '/') ++ '/' :: rest)) := by
      rw [← he3, ← he2]; exact he1
    rw [ht]
    conv_lhs => rw [e]
    simp

/-- C23. On a list whose nodes store the length of their path: when
`find_platform_device` finds no node for the event path,
`get_character_device_symlinks` returns NULL and makes no call. When it finds
the node `pdev`, the event path is the path of `pdev` followed by a
remainder; if the remainder is `/usb<hub>/<device>/<iface>/<rest>` with no
`/` in `hub`, `device` and `iface` and a non-empty `iface`, the result is the
one link `/dev/usb/<subsystem><iface>` (and `/dev/usb` is made); if the
remainder has no such form, the result is NULL and no call is made. -/
theorem character_device_symlinks_spec (names : List platform_node) (ue : uevent)
    (hwf : ∀ b ∈ names, b.path_len = b.path.length) :
    (find_platform_device names ue.path = none →
      get_character_device_symlinks names ue = (none, [])) ∧
    (∀ pdev, find_platform_device names ue.path = some pdev →
      ∃ remainder, ue.path = pdev.path ++ remainder ∧
        (∀ hub device iface rest, '/' ∉ hub → '/' ∉ device → '/' ∉ iface → iface ≠ [] →
          remainder = "/usb".toList ++ hub ++ '/' :: device ++ '/' :: iface ++ '/' :: rest →
          get_character_device_symlinks names ue =
            (some ["/dev/usb/".toList ++ ue.subsystem ++ iface],
              [Call.mkdir "/dev/usb".toList 0o755])) ∧
        ((∀ hub device iface rest, '/' ∉ hub → '/' ∉ device → '/' ∉ iface → iface ≠ [] →
          remainder ≠ "/usb".toList ++ hub ++ '/' :: device ++ '/' :: iface ++ '/' :: rest) →
          get_character_device_symlinks names ue = (none, []))) := by
  constructor
  · intro hf
    simp only [get_character_device_symlinks, hf]
  · intro pdev hf
    have hmem : pdev ∈ names := by
      have := List.mem_of_find?_eq_some hf
      exact List.mem_reverse.mp this
    have hm : platform_match ue.path pdev = true := List.find?_some hf
    have hpre : (pdev.path ++ ['/']) <+: ue.path :=
      (platform_match_iff ue.path pdev (hwf pdev hmem)).mp hm
    have hpath : ue.path = pdev.path ++ ue.path.drop pdev.path_len := by
      obtain ⟨r, hr⟩ := hpre
      rw [hwf pdev hmem, ← hr]
      simp
    refine ⟨ue.path.drop pdev.path_len, hpath, ?_, ?_⟩
    · intro hub device iface rest hh hd hi hne hrem
      exact symlinks_of_remainder names ue pdev hf hub device iface rest hh hd hi hne hrem
    · intro hno
      rcases symlinks_none_or_usb names ue pdev hf with h | ⟨hub, device, iface, rest, hh, hd, hi,
        hne, hrem⟩
      · exact h
      · exact absurd hrem (hno hub device iface rest hh hd hi hne)

/-- C23 at the serial port `ttyUSB0` under the platform device `ehci.0`: the
one link is `/dev/usb/tty1-1:1.0`. -/
theorem character_device_symlinks_spec_witness :
    get_character_device_symlinks
        (add_platform_device [] "/devices/platform/ehci.0".toList) usb_tty_event =
      (some ["/dev/usb/tty1-1:1.0".toList], [Call.mkdir "/dev/usb".toList 0o755]) := by
  obtain ⟨remainder, hr, hlink, -⟩ :=
    (character_device_symlinks_spec (add_platform_device [] "/devices/platform/ehci.0".toList)
      usb_tty_event (by decide)).2
      ⟨"ehci.0".toList, "/devices/platform/ehci.0".toList, 24⟩ (by decide)
  have hrem : remainder = "/usb1/1-1/1-1:1.0/tty/ttyUSB0".toList :=
    List.append_cancel_left (hr.symm.trans (by decide))
  exact hlink "1".toList "1-1".toList "1-1:1.0".toList "tty/ttyUSB0".toList (by decide)
    (by decide) (by decide) (by decide) (hrem.trans (by decide))

/-! ### Probing the deferred modaliases -/

/-- The two events are queued in the order of their arrival and nothing is
inserted. -/
theorem two_queued_eq (fnmatch : CStr → CStr → Bool) (insmod : List CStr → CStr → Int)
    (m1 m2 : CStr) :
    two_queued fnmatch insmod m1 m2 =
      { ModState.init with
        deferred_module_loading_list := [⟨none, some m1⟩, ⟨none, some m2⟩] } := by
  simp [two_queued, handle_module_loading, handle_module_loading_read, read_modules_aliases,
    files_unreadable, ModState.init]

/-- C24, amended. Two `add` events with the modaliases `m1` and `m2` arrive
while no description file can be read: both are queued, in this order, and
nothing is inserted. At the next call of `handle_module_loading`, with a
`modules.alias` that gives a non-empty alias list, the queue is emptied and
the calls of `insmod_by_dep` are those of `load_module_by_device_modalias` on
`m1`, then on `m2`, then on the modalias of the event if it has one: each
queued entry is probed, in the order of the queue. -/
theorem deferred_probed_in_order (fnmatch : CStr → CStr → Bool)
    (insmod : List CStr → CStr → Int) (files : ModFiles) (tokens : List Token)
    (m1 m2 : CStr) (m3 : Option CStr)
    (hfile : files.alias_file = some tokens)
    (hne : read_modules_desc_loop 3 parse_line_module_alias tokens [] [] ≠ []) :
    (two_queued fnmatch insmod m1 m2).deferred_module_loading_list =
      [⟨none, some m1⟩, ⟨none, some m2⟩] ∧
    (two_queued fnmatch insmod m1 m2).insmod_log = [] ∧
    (handle_module_loading fnmatch insmod files (two_queued fnmatch insmod m1 m2)
        m3).deferred_module_loading_list = [] ∧
    (handle_module_loading fnmatch insmod files (two_queued fnmatch insmod m1 m2)
        m3).insmod_log =
      (probe_all fnmatch insmod
        (read_modules_blacklist files (read_modules_aliases files ModState.init).2).2
        ([m1, m2] ++ m3.toList)).insmod_log := by
  rw [two_queued_eq]
  refine ⟨rfl, rfl, ?_, ?_⟩
  all_goals
    cases hb : files.blacklist_file <;> cases m3 <;>
    simp [handle_module_loading, handle_module_loading_read, read_modules_aliases,
      read_modules_blacklist, handle_deferred_module_loading, handle_deferred_loop,
      load_module_by_device_modalias, probe_all, hfile, hb, hne, ModState.init]

/-- The amended C24 with the aliases `a*` of `mod_a` and `b*` of `mod_b`: the
queued `b1` and `a1` insert `mod_b` and then `mod_a`. -/
theorem deferred_probed_in_order_witness :
    (handle_module_loading glob insmod_ok files_two_aliases
      (two_queued glob insmod_ok "b1".toList "a1".toList) none).insmod_log =
      ["mod_b".toList, "mod_a".toList] :=
  (deferred_probed_in_order glob insmod_ok files_two_aliases _ "b1".toList "a1".toList none
    rfl (by decide)).2.2.2.trans (by decide)

/-- C24, as stated, fails: two events with the modalias `pci:v00001234d*` are
queued while the files cannot be read; with the alias of `foo` readable, a
later event without a modalias calls `insmod_by_dep` on `foo` twice, and a
later event with the same modalias three times. -/
theorem deferred_module_inserted_twice :
    (handle_module_loading glob insmod_ok files_unreadable
      (handle_module_loading glob insmod_ok files_unreadable ModState.init
        (some "pci:v00001234d*".toList))
      (some "pci:v00001234d*".toList)).insmod_log = [] ∧
    (handle_module_loading glob insmod_ok files_foo
      (handle_module_loading glob insmod_ok files_unreadable
        (handle_module_loading glob insmod_ok files_unreadable ModState.init
          (some "pci:v00001234d*".toList))
        (some "pci:v00001234d*".toList))
      none).insmod_log = ["foo".toList, "foo".toList] ∧
    (handle_module_loading glob insmod_ok files_foo
      (handle_module_loading glob insmod_ok files_unreadable
        (handle_module_loading glob insmod_ok files_unreadable ModState.init
          (some "pci:v00001234d*".toList))
        (some "pci:v00001234d*".toList))
      (some "pci:v00001234d*".toList)).insmod_log =
      ["foo".toList, "foo".toList, "foo".toList] := by
  decide

/-! ### The lines of the description files -/

/-- The token loop calls the line function once for each closed line that
has a text, with the first `args_to_read` texts of the line, and never for
the texts behind the last line end. -/
theorem read_modules_desc_loop_lines {σ : Type} (k : Nat) (f : σ → List CStr → σ)
    (tokens : List Token) : ∀ (cur : List CStr) (st : σ),
    read_modules_desc_loop k f tokens (cur.take k) st =
      (token_lines tokens cur).1.foldl
        (fun s l => if l.take k ≠ [] then f s (l.take k) else s) st := by
  induction tokens with
  | nil => intro cur st; rfl
  | cons t ts ih =>
    intro cur st
    cases t with
    | newline =>
      simp only [read_modules_desc_loop, token_lines, List.foldl_cons]
      have h0 := ih []
      simp only [List.take_nil] at h0
      split_ifs with h
      · exact h0 _
      · exact h0 _
    | text s =>
      simp only [read_modules_desc_loop, token_lines]
      by_cases hlt : cur.length < k
      · have e1 : cur.take k = cur := List.take_of_length_le (by omega)
        have e2 : (cur ++ [s]).take k = cur ++ [s] :=
          List.take_of_length_le (by simp; omega)
        rw [← ih (cur ++ [s]) st, e1, e2, if_pos hlt]
      · have e1 : (cur.take k).length = k := by simp; omega
        have e2 : (cur ++ [s]).take k = cur.take k := by
          rw [List.take_append_of_le_length (by omega)]
        rw [← ih (cur ++ [s]) st, e2, if_neg (by omega)]

/-- Reading adds to the alias list the entries of the closed lines with at
least three texts. -/
theorem parse_line_module_alias_lines (lines : List (List CStr)) :
    ∀ aliases : List module_alias_node,
    lines.foldl (fun s l => if l.take 3 ≠ [] then parse_line_module_alias s (l.take 3) else s)
      aliases = aliases ++ lines.filterMap alias_of_line := by
  induction lines with
  | nil => intro aliases; simp
  | cons l rest ih =>
    intro aliases
    rw [List.foldl_cons, ih]
    rcases l with _ | ⟨a, _ | ⟨b, _ | ⟨c, l⟩⟩⟩ <;>
      simp [parse_line_module_alias, alias_of_line]

/-- C25, amended. Reading a token stream adds to the alias list, in order, one
entry for each line closed by a line end that has at least three texts, with
the second text as pattern and the third as module name; a closed line with
fewer texts adds nothing. The first text is not examined and the texts behind
the third are dropped. -/
theorem read_modules_aliases_lines (tokens : List Token) (aliases : List module_alias_node) :
    read_modules_desc_loop 3 parse_line_module_alias tokens [] aliases =
      aliases ++ (token_lines tokens []).1.filterMap alias_of_line ∧
    (∀ l, (alias_of_line l).isSome = true ↔ 3 ≤ l.length) ∧
    (∀ first pattern name more, alias_of_line (first :: pattern :: name :: more) =
      some { name := some name, pattern := some pattern }) := by
  refine ⟨?_, ?_, fun _ _ _ _ => rfl⟩
  · have := read_modules_desc_loop_lines 3 parse_line_module_alias tokens [] aliases
    rw [List.take_nil] at this
    rw [this, parse_line_module_alias_lines]
  · intro l
    rcases l with _ | ⟨a, _ | ⟨b, _ | ⟨c, l⟩⟩⟩ <;> simp [alias_of_line]

/-- The amended C25 at four lines: the line of two texts and the empty line
add nothing, the two lines of three texts add their entries. -/
theorem read_modules_aliases_lines_witness :
    read_modules_desc_loop 3 parse_line_module_alias
      [Token.text "alias".toList, Token.text "a*".toList, Token.text "mod_a".toList,
       Token.newline, Token.text "alias".toList, Token.text "b*".toList, Token.newline,
       Token.newline, Token.text "alias".toList, Token.text "c*".toList,
       Token.text "mod_c".toList, Token.newline] [] [] =
      [⟨some "mod_a".toList, some "a*".toList⟩, ⟨some "mod_c".toList, some "c*".toList⟩] :=
  (read_modules_aliases_lines _ []).1.trans (by decide)

/-- C25, as stated, fails: a line of four texts adds the entry of its first
three, and a line of three texts that begins with `options` adds an entry. -/
theorem alias_line_not_checked :
    read_modules_desc_loop 3 parse_line_module_alias
      [Token.text "alias".toList, Token.text "pci:v00001234d*".toList,
       Token.text "foo".toList, Token.text "extra".toList, Token.newline] [] [] =
      [⟨some "foo".toList, some "pci:v00001234d*".toList⟩] ∧
    read_modules_desc_loop 3 parse_line_module_alias
      [Token.text "options".toList, Token.text "snd".toList,
       Token.text "index=0".toList, Token.newline] [] [] =
      [⟨some "index=0".toList, some "snd".toList⟩] := by
  decide

/-- Texts without a line end close no line. -/
theorem token_lines_texts (last : List Token) (hlast : ∀ t ∈ last, t ≠ Token.newline) :
    ∀ cur, (token_lines last cur).1 = [] := by
  induction last with
  | nil => intro cur; rfl
  | cons t ts ih =>
    intro cur
    cases t with
    | newline => exact absurd rfl (hlast _ (List.mem_cons_self _ _))
    | text s =>
      simp only [token_lines]
      exact ih (fun t ht => hlast t (List.mem_cons_of_mem _ ht)) _

/-- The texts behind the last line end do not change the closed lines. -/
theorem token_lines_last (tokens last : List Token)
    (hlast : ∀ t ∈ last, t ≠ Token.newline) :
    ∀ cur, (token_lines (tokens ++ Token.newline :: last) cur).1 =
      (token_lines (tokens ++ [Token.newline]) cur).1 := by
  induction tokens with
  | nil =>
    intro cur
    simp only [List.nil_append, token_lines, token_lines_texts last hlast]
  | cons t ts ih =>
    intro cur
    cases t with
    | newline =>
      rw [List.cons_append, List.cons_append]
      simp only [token_lines]
      rw [ih]
    | text s =>
      rw [List.cons_append, List.cons_append]
      simp only [token_lines]
      rw [ih]

/-- The token loop does not see the texts behind the last line end. -/
theorem read_modules_desc_loop_last {σ : Type} (k : Nat) (f : σ → List CStr → σ)
    (tokens last : List Token) (hlast : ∀ t ∈ last, t ≠ Token.newline) (st : σ) :
    read_modules_desc_loop k f (tokens ++ Token.newline :: last) [] st =
      read_modules_desc_loop k f (tokens ++ [Token.newline]) [] st ∧
    read_modules_desc_loop k f last [] st = st := by
  have h := fun toks => read_modules_desc_loop_lines k f toks [] st
  simp only [List.take_nil] at h
  rw [h, h, h, token_lines_last tokens last hlast, token_lines_texts last hlast]
  exact ⟨rfl, rfl⟩

/-- C28. When the token stream of `modules.alias` or of `modules.blacklist`
ends with texts that no line end follows, reading returns 0 and gives the
list that the stream without these texts gives; a stream without any line end
leaves the list as it is. -/
theorem read_modules_desc_discards_last_line (tokens last : List Token)
    (files : ModFiles) (st : ModState) (hlast : ∀ t ∈ last, t ≠ Token.newline) :
    (files.alias_file = some (tokens ++ Token.newline :: last) →
      read_modules_aliases files st =
        (0, { st with modules_aliases_map :=
          (read_modules_desc_loop 3 parse_line_module_alias (tokens ++ [Token.newline]) []
            st.modules_aliases_map) })) ∧
    (files.alias_file = some last → read_modules_aliases files st = (0, st)) ∧
    (files.blacklist_file = some (tokens ++ Token.newline :: last) →
      read_modules_blacklist files st =
        (0, { st with modules_blacklist :=
          (read_modules_desc_loop 2 parse_line_module_blacklist (tokens ++ [Token.newline]) []
            st.modules_blacklist) })) ∧
    (files.blacklist_file = some last → read_modules_blacklist files st = (0, st)) := by
  refine ⟨?_, ?_, ?_, ?_⟩
  · intro hf
    simp only [read_modules_aliases, hf,
      (read_modules_desc_loop_last 3 parse_line_module_alias tokens last hlast _).1]
  · intro hf
    simp only [read_modules_aliases, hf,
      (read_modules_desc_loop_last 3 parse_line_module_alias tokens last hlast _).2]
  · intro hf
    simp only [read_modules_blacklist, hf,
      (read_modules_desc_loop_last 2 parse_line_module_blacklist tokens last hlast _).1]
  · intro hf
    simp only [read_modules_blacklist, hf,
      (read_modules_desc_loop_last 2 parse_line_module_blacklist tokens last hlast _).2]

/-- C28 at a `modules.alias` whose second line has no line end, which adds
the alias of the first line only, and at a `modules.blacklist` of one line
without line end, which adds nothing; both reads return 0. -/
theorem read_modules_desc_discards_last_line_witness :
    read_modules_aliases
      { alias_file := some [Token.text "alias".toList, Token.text "a*".toList,
          Token.text "mod_a".toList, Token.newline, Token.text "alias".toList,
          Token.text "b*".toList, Token.text "mod_b".toList],
        blacklist_file := none } ModState.init =
      (0, { ModState.init with
        modules_aliases_map := [⟨some "mod_a".toList, some "a*".toList⟩] }) ∧
    read_modules_blacklist
      { alias_file := none,
        blacklist_file := some [Token.text "blacklist".toList, Token.text "foo".toList] }
      ModState.init = (0, ModState.init) :=
  ⟨((read_modules_desc_discards_last_line
      [Token.text "alias".toList, Token.text "a*".toList, Token.text "mod_a".toList]
      [Token.text "alias".toList, Token.text "b*".toList, Token.text "mod_b".toList]
      _ ModState.init (by decide)).1 rfl).trans (by decide),
    (read_modules_desc_discards_last_line []
      [Token.text "blacklist".toList, Token.text "foo".toList]
      _ ModState.init (by decide)).2.2.2 rfl⟩

/-! ### The bytes passed to the data file -/

/-- The bytes accepted over two traces in a row. -/
theorem accepted_bytes_append (a b : List Call) :
    accepted_bytes (a ++ b) = accepted_bytes a ++ accepted_bytes b := by
  induction a with
  | nil => rfl
  | cons c a ih => cases c <;> simp [accepted_bytes, ih]

/-- The bytes read over two traces in a row. -/
theorem read_bytes_append (a b : List Call) :
    read_bytes (a ++ b) = read_bytes a ++ read_bytes b := by
  induction a with
  | nil => rfl
  | cons c a ih =>
    cases c with
    | read_fw r => cases r <;> simp [read_bytes, ih]
    | _ => simp [read_bytes, ih]

/-- When each write accepts all the bytes offered, the inner loop of
`load_firmware` passes on the first `nr` bytes of the buffer. -/
theorem load_firmware_write_full (writes : Nat → Int) (buf : List Char) :
    ∀ (fuel : Nat) (nr : Int) (k : Nat) (ok : Bool) (k1 : Nat) (calls : List Call),
      load_firmware_write writes buf fuel nr k = Run.done (ok, k1, calls) →
      nr ≤ buf.length →
      (∀ b r, Call.write_data b r ∈ calls → r = b.length) →
      accepted_bytes calls = buf.take nr.toNat ∧ read_bytes calls = [] := by
  intro fuel nr k ok k1 calls h hle hfull
  by_cases hnr : nr ≤ 0
  · have h' : calls = [] := by
      cases fuel <;> simp [load_firmware_write, hnr] at h <;> exact h.2.2
    subst h'
    have : nr.toNat = 0 := by omega
    simp [accepted_bytes, read_bytes, this]
  · cases fuel with
    | zero => simp [load_firmware_write, hnr] at h
    | succ fuel =>
      have hlen : (buf.take nr.toNat).length = nr.toNat := by
        rw [List.length_take]; omega
      by_cases hw : writes k ≤ 0
      · simp only [load_firmware_write, hnr, if_false, hw, if_true, Run.done.injEq,
          Prod.mk.injEq] at h
        obtain ⟨-, -, rfl⟩ := h
        have := hfull _ _ (List.mem_singleton.mpr rfl)
        rw [hlen] at this
        omega
      · cases hrec : load_firmware_write writes buf fuel (nr - writes k) (k + 1) with
        | fault => simp [load_firmware_write, hnr, hw, hrec] at h
        | nofuel => simp [load_firmware_write, hnr, hw, hrec] at h
        | done r =>
          obtain ⟨ok2, k2, rest⟩ := r
          simp only [load_firmware_write, hnr, if_false, hw, hrec, Run.done.injEq,
            Prod.mk.injEq] at h
          obtain ⟨-, -, rfl⟩ := h
          have hk := hfull _ _ (List.mem_cons_self _ _)
          rw [hlen] at hk
          have hz : nr - writes k ≤ 0 := by omega
          have hrest : rest = [] := by
            cases fuel <;>
              simp only [load_firmware_write, hz, if_true, Run.done.injEq, Prod.mk.injEq]
                at hrec <;> exact hrec.2.2.symm
          subst hrest
          have hkn : (writes k).toNat = nr.toNat := by omega
          simp [accepted_bytes, read_bytes, hkn]

/-- When each write accepts all the bytes offered and 0 is returned, the
outer loop of `load_firmware` passes on the bytes read. -/
theorem load_firmware_copy_full (fw : FwFile) (writes : Nat → Int) :
    ∀ (fuel : Nat) (len : Int) (i k : Nat) (calls : List Call),
      load_firmware_copy fw writes fuel len i k = Run.done (0, calls) →
      (∀ b r, Call.write_data b r ∈ calls → r = b.length) →
      accepted_bytes calls = read_bytes calls := by
  intro fuel
  induction fuel with
  | zero =>
    intro len i k calls h _
    by_cases hlen : len ≤ 0
    · simp only [load_firmware_copy, hlen, if_true, Run.done.injEq, Prod.mk.injEq] at h
      rw [← h.2]; rfl
    · simp [load_firmware_copy, hlen] at h
  | succ fuel ih =>
    intro len i k calls h hfull
    by_cases hlen : len ≤ 0
    · simp only [load_firmware_copy, hlen, if_true, Run.done.injEq, Prod.mk.injEq] at h
      rw [← h.2]; rfl
    · cases hr : fw.reads i with
      | none => simp [load_firmware_copy, hlen, hr] at h
      | some buf =>
        by_cases hb : buf.length = 0
        · simp only [load_firmware_copy, hlen, if_false, hr, hb, if_true, Run.done.injEq,
            Prod.mk.injEq] at h
          rw [← h.2]
          simp [accepted_bytes, read_bytes, List.length_eq_zero.mp hb]
        · cases hw : load_firmware_write writes buf buf.length buf.length k with
          | fault => simp [load_firmware_copy, hlen, hr, hb, hw] at h
          | nofuel => simp [load_firmware_copy, hlen, hr, hb, hw] at h
          | done r =>
            obtain ⟨ok, k1, wcalls⟩ := r
            cases ok with
            | false => simp [load_firmware_copy, hlen, hr, hb, hw] at h
            | true =>
              cases hc : load_firmware_copy fw writes fuel (len - buf.length) (i + 1) k1 with
              | fault => simp [load_firmware_copy, hlen, hr, hb, hw, hc] at h
              | nofuel => simp [load_firmware_copy, hlen, hr, hb, hw, hc] at h
              | done r2 =>
                obtain ⟨ret, rest⟩ := r2
                simp only [load_firmware_copy, hlen, if_false, hr, hb, hw, hc, Run.done.injEq,
                  Prod.mk.injEq] at h
                obtain ⟨rfl, rfl⟩ := h
                have hfw : ∀ b r, Call.write_data b r ∈ wcalls → r = b.length :=
                  fun b r hm => hfull b r (by simp [hm])
                have hfr : ∀ b r, Call.write_data b r ∈ rest → r = b.length :=
                  fun b r hm => hfull b r (by simp [hm])
                obtain ⟨ha, hrd⟩ := load_firmware_write_full writes buf _ _ _ _ _ _ hw
                  (le_refl _) hfw
                have hrest := ih _ _ _ _ hc hfr
                simp [accepted_bytes, read_bytes, accepted_bytes_append, read_bytes_append,
                  ha, hrd, hrest]

/-- When `load_firmware` returns 0 and each write to the data file has
accepted all the bytes offered, the data file has accepted the bytes read
from the firmware file, in order. -/
theorem load_firmware_full_writes (fw : FwFile) (writes : Nat → Int) (calls : List Call)
    (h : load_firmware fw writes = Run.done (0, calls))
    (hfull : ∀ b r, Call.write_data b r ∈ calls → r = b.length) :
    accepted_bytes calls = read_bytes calls := by
  unfold load_firmware at h
  cases hs : fw.fstat with
  | none => simp [hs] at h
  | some st_size =>
    rw [hs] at h
    dsimp only at h
    cases hc : load_firmware_copy fw writes st_size.toNat st_size 0 0 with
    | fault => simp [hc] at h
    | nofuel => simp [hc] at h
    | done r =>
      obtain ⟨ret, mid⟩ := r
      rw [hc] at h
      dsimp only at h
      split_ifs at h with h0
      · simp only [Run.done.injEq, Prod.mk.injEq] at h
        obtain ⟨-, rfl⟩ := h
        subst h0
        have := load_firmware_copy_full fw writes _ _ _ _ mid hc
          (fun b r hm => hfull b r (by simp [hm]))
        simp [accepted_bytes, read_bytes, accepted_bytes_append, read_bytes_append, this]
      · simp only [Run.done.injEq, Prod.mk.injEq] at h
        exact absurd h.1 h0

/-- C26 fails at the file of the two bytes `ab` that one `read` returns, when
each write accepts one byte: `load_firmware` returns 0 and writes `0` to
`loading`; the second write starts at the head of the buffer again, so the
data file has accepted `aa` and not `ab`. -/
theorem load_firmware_short_write_repeats_bytes :
    (fw_of_bytes ['a', 'b'] 4096).fstat = some 2 ∧
    load_firmware (fw_of_bytes ['a', 'b'] 4096) (fun _ => 1) =
      Run.done (0, [Call.write_loading "1".toList, Call.read_fw (some ['a', 'b']),
        Call.write_data ['a', 'b'] 1, Call.write_data ['a'] 1,
        Call.write_loading "0".toList]) ∧
    read_bytes [Call.write_loading "1".toList, Call.read_fw (some ['a', 'b']),
        Call.write_data ['a', 'b'] 1, Call.write_data ['a'] 1,
        Call.write_loading "0".toList] = ['a', 'b'] ∧
    accepted_bytes [Call.write_loading "1".toList, Call.read_fw (some ['a', 'b']),
        Call.write_data ['a', 'b'] 1, Call.write_data ['a'] 1,
        Call.write_loading "0".toList] = ['a', 'a'] := by
  decide

/-! ### Node paths that fit the buffer -/

/-- The generic handler, for a subsystem that does not begin with `usb` and
a name of at most 64 bytes, ends with the call of `handle_device` on the node
path of the table, which `snprintf` stores whole. -/
theorem generic_call_whole_path (names : List platform_node) (ue : uevent) (name : CStr)
    (hsub : ¬ "usb".toList <+: ue.subsystem)
    (hname : after_last_slash ue.path = some name) (hle : name.length ≤ 64) :
    ∃ pre links, handle_generic_device_event names ue =
      pre ++ [Call.handle_device
        { action := ue.action, devpath := generic_node_path ue.subsystem name,
          path := ue.path, block := false, major := ue.major, minor := ue.minor,
          links := links }] ∧
      ∀ c ∈ pre, c.is_handle_device = false := by
  have hlen : ¬ name.length > 64 := by omega
  have husb : strncmp_eq ue.subsystem "usb".toList 3 = false := by
    have := strncmp_eq_literal ue.subsystem "usb".toList
    rw [Bool.eq_false_iff]
    intro hc
    exact hsub (List.isPrefixOf_iff_prefix.mp (this ▸ hc))
  have hdrop : (name.drop 4).length ≤ 64 := by simp; omega
  have e1 : strncmp_eq ue.subsystem "graphics".toList 8 = _ := strncmp_eq_literal _ _
  have e2 : strncmp_eq ue.subsystem "drm".toList 3 = _ := strncmp_eq_literal _ _
  have e3 : strncmp_eq ue.subsystem "oncrpc".toList 6 = _ := strncmp_eq_literal _ _
  have e4 : strncmp_eq ue.subsystem "adsp".toList 4 = _ := strncmp_eq_literal _ _
  have e5 : strncmp_eq ue.subsystem "msm_camera".toList 10 = _ := strncmp_eq_literal _ _
  have e6 : strncmp_eq ue.subsystem "input".toList 5 = _ := strncmp_eq_literal _ _
  have e7 : strncmp_eq ue.subsystem "mtd".toList 3 = _ := strncmp_eq_literal _ _
  have e8 : strncmp_eq ue.subsystem "sound".toList 5 = _ := strncmp_eq_literal _ _
  have e9 : strncmp_eq ue.subsystem "misc".toList 4 = _ := strncmp_eq_literal _ _
  have e10 : strncmp_eq name "log_".toList 4 = _ := strncmp_eq_literal _ _
  have hfit : ∀ base : CStr, base.length ≤ 16 → ∀ n : CStr, n.length ≤ 64 →
      snprintf 96 (base ++ n) = base ++ n :=
    fun base hb n hn => snprintf_fits _ _ (by simp; omega)
  simp only [handle_generic_device_event, parse_device_name, hname, hlen, if_false, husb,
    Bool.false_eq_true, e1, e2, e3, e4, e5, e6, e7, e8, e9, e10, generic_node_path,
    generic_dirs, List.find?_cons, List.find?_nil]
  cases h1 : "graphics".toList.isPrefixOf ue.subsystem
  case true =>
    simp only [h1, Bool.false_eq_true, if_false, if_true]
    exact finish_cons names ue _ _ _ (hfit _ (by decide) _ hle)
  case false =>
  cases h2 : "drm".toList.isPrefixOf ue.subsystem
  case true =>
    simp only [h1, h2, Bool.false_eq_true, if_false, if_true]
    exact finish_cons names ue _ _ _ (hfit _ (by decide) _ hle)
  case false =>
  cases h3 : "oncrpc".toList.isPrefixOf ue.subsystem
  case true =>
    simp only [h1, h2, h3, Bool.false_eq_true, if_false, if_true]
    exact finish_cons names ue _ _ _ (hfit _ (by decide) _ hle)
  case false =>
  cases h4 : "adsp".toList.isPrefixOf ue.subsystem
  case true =>
    simp only [h1, h2, h3, h4, Bool.false_eq_true, if_false, if_true]
    exact finish_cons names ue _ _ _ (hfit _ (by decide) _ hle)
  case false =>
  cases h5 : "msm_camera".toList.isPrefixOf ue.subsystem
  case true =>
    simp only [h1, h2, h3, h4, h5, Bool.false_eq_true, if_false, if_true]
    exact finish_cons names ue _ _ _ (hfit _ (by decide) _ hle)
  case false =>
  cases h6 : "input".toList.isPrefixOf ue.subsystem
  case true =>
    simp only [h1, h2, h3, h4, h5, h6, Bool.false_eq_true, if_false, if_true]
    exact finish_cons names ue _ _ _ (hfit _ (by decide) _ hle)
  case false =>
  cases h7 : "mtd".toList.isPrefixOf ue.subsystem
  case true =>
    simp only [h1, h2, h3, h4, h5, h6, h7, Bool.false_eq_true, if_false, if_true]
    exact finish_cons names ue _ _ _ (hfit _ (by decide) _ hle)
  case false =>
  cases h8 : "sound".toList.isPrefixOf ue.subsystem
  case true =>
    simp only [h1, h2, h3, h4, h5, h6, h7, h8, Bool.false_eq_true, if_false, if_true]
    exact finish_cons names ue _ _ _ (hfit _ (by decide) _ hle)
  case false =>
  cases hm : ("misc".toList.isPrefixOf ue.subsystem && "log_".toList.isPrefixOf name)
  case true =>
    simp only [h1, h2, h3, h4, h5, h6, h7, h8, Bool.false_eq_true, if_false, if_true]
    exact finish_cons names ue _ _ _ (hfit _ (by decide) _ hdrop)
  case false =>
    simp only [h1, h2, h3, h4, h5, h6, h7, h8, Bool.false_eq_true, if_false]
    exact finish_plain names ue _ _ (hfit _ (by decide) _ hle)

/-- The node path of the table has at most 80 bytes for a name of at most 64
bytes. -/
theorem generic_node_path_length (subsystem name : CStr) (hle : name.length ≤ 64) :
    (generic_node_path subsystem name).length ≤ 80 := by
  unfold generic_node_path
  split
  · rename_i e he
    have hmem := List.mem_of_find?_eq_some he
    have : e.2.length ≤ 16 := by
      simp only [generic_dirs, List.mem_cons, List.mem_singleton, List.not_mem_nil,
        or_false] at hmem
      rcases hmem with rfl | rfl | rfl | rfl | rfl | rfl | rfl | rfl <;> decide
    rw [List.length_append]
    omega
  · split_ifs
    · simp only [List.length_append, List.length_drop]
      have : "/dev/log/".toList.length = 9 := rfl
      omega
    · simp only [List.length_append]
      have : "/dev/".toList.length = 5 := rfl
      omega

/-- C27. For an event whose path has the text `name` behind its last `/`: when
`name` has at most 64 bytes, the block handler calls `handle_device` with the
node path `/dev/block/` followed by `name`, and the generic handler, for a
subsystem that does not begin with `usb`, with the node path of the table
`generic_node_path` (directory followed by the name); both paths are whole
and have at most 95 bytes. When `name` is longer, both handlers drop the
event. -/
theorem devpath_not_cut (names : List platform_node) (install_id : CStr) (ue : uevent)
    (name : CStr) (hname : after_last_slash ue.path = some name) :
    (name.length ≤ 64 →
      (∃ links, handle_block_device_event names install_id ue =
        [Call.make_dir "/dev/block/".toList 0o755,
         Call.handle_device
          { action := ue.action, devpath := "/dev/block/".toList ++ name, path := ue.path,
            block := true, major := ue.major, minor := ue.minor, links := links }]) ∧
      ("/dev/block/".toList ++ name).length ≤ 95 ∧
      (¬ "usb".toList <+: ue.subsystem →
        (∃ pre links, handle_generic_device_event names ue =
          pre ++ [Call.handle_device
            { action := ue.action, devpath := generic_node_path ue.subsystem name,
              path := ue.path, block := false, major := ue.major, minor := ue.minor,
              links := links }] ∧
          ∀ c ∈ pre, c.is_handle_device = false) ∧
        (generic_node_path ue.subsystem name).length ≤ 95)) ∧
    (64 < name.length →
      handle_block_device_event names install_id ue = [] ∧
      handle_generic_device_event names ue = []) := by
  constructor
  · intro hle
    have hlen : ¬ name.length > 64 := by omega
    have h11 : "/dev/block/".toList.length = 11 := rfl
    refine ⟨?_, by rw [List.length_append]; omega, ?_⟩
    · have hfit : snprintf 96 ("/dev/block/".toList ++ name) = "/dev/block/".toList ++ name :=
        snprintf_fits _ _ (by rw [List.length_append]; omega)
      refine ⟨if (parse_gpt_block_device install_id ue).isNone &&
          strncmp_eq ue.path "/devices/".toList 9 then parse_platform_block_device names ue
        else parse_gpt_block_device install_id ue, ?_⟩
      simp only [handle_block_device_event, parse_device_name, hname, hlen, if_false, hfit]
    · intro hsub
      exact ⟨generic_call_whole_path names ue name hsub hname hle, by
        have := generic_node_path_length ue.subsystem name hle
        omega⟩
  · intro hlt
    have : name.length > 64 := hlt
    constructor
    · simp [handle_block_device_event, parse_device_name, hname, this]
    · simp [handle_generic_device_event, parse_device_name, hname, this]

/-- C27 at scenario S1, with the node path `/dev/block/mmcblk0p3`, and at a
`misc` event with a name of 65 bytes, which is dropped. -/
theorem devpath_not_cut_witness :
    (∃ links, handle_block_device_event [] [] block_event_s1 =
      [Call.make_dir "/dev/block/".toList 0o755,
       Call.handle_device
        { action := "add".toList, devpath := "/dev/block/mmcblk0p3".toList,
          path := block_event_s1.path, block := true, major := 179, minor := 3,
          links := links }]) ∧
    handle_generic_device_event []
      { generic_event_log with path := '/' :: List.replicate 65 'a' } = [] :=
  ⟨((devpath_not_cut [] [] block_event_s1 "mmcblk0p3".toList (by decide)).1 (by decide)).1,
    ((devpath_not_cut [] [] { generic_event_log with path := '/' :: List.replicate 65 'a' }
      (List.replicate 65 'a') (by decide)).2 (by decide)).2⟩

end Devices
